import Mathlib

/-!
# mcp-netbird: group / policy dependency management

A shallow embedding of the group lifecycle operations of `tools/groups.go`
(`ListPoliciesByGroup`, `DeleteGroupForce`, `ReplaceGroupInPolicies`,
`deleteNetbirdGroup`), of the configuration functions of `mcpnetbird.go`
(`LoadConfig`, `stripProtocolPrefix`, `ValidateConfig`), of
`updateNetbirdNetworkRouter` of `tools/network_routers.go`, of the
rule formatter of `tools/policies.go` (`structToMap`, `FormatRuleForAPI`,
`convertToStringArray`), of its rule validator (`ValidatePolicyRules`,
`validatePortRanges`, `getRuleIdentifier`) and of the two functions that send rules
given by the caller (`createNetbirdPolicy`, `updateNetbirdPolicy`), together with
theorems about them.

Conventions of the embedding.

* A Go slice that may be `nil` is an `Option (List α)`: `none` is the nil slice,
  `some xs` a non-nil slice. `encoding/json` writes the former as `null` and the
  latter as an array, and `FormatRuleForAPI` tells the two apart.
* A Go `map[string]V` is an association list read by first match; a pointer to a
  map is an `Option` of it. The keys of a Go map are distinct; a write replaces the
  binding of its key or adds one, and a deletion removes every binding of its key, so
  no operation introduces a repeated key. The order of the list stands for one
  iteration order of the map.
* A Go `int` is an `Int`: the functions embedded here compare and copy the integers
  they meet and do no arithmetic on them. The JSON round trip of `structToMap` turns
  an `int` into the nearest `float64`.
* A Go `float64` is a `Rat`. The conversion `int(v)` rounds toward zero; when the
  rounded value is no 64-bit integer the language leaves the result to the
  implementation, and the functions that convert take that result as a parameter
  `outOfRange`.
* A Go `string` is a `String`: the byte strings that are valid UTF-8. The functions of
  the packages `strings` and `unicode` that the code calls are embedded as their
  documentation describes them; the environment that `os.Getenv` reads is an argument.
* A dynamically typed Go value (`interface{}`) is a `GoValue`. A rule map of a batch
  given to `ValidatePolicyRules` is a `GoMap`; a nil map reads like the empty one.
* The REST client is a deterministic state machine `Gateway σ`; every call made
  through it is appended, with its response, to a trace of `Event`s. An error is
  its message, a `String`; a nil error is `none`.

The definitions come first: the data model, the functions translated from the source,
then the properties in the words of the specification and the values used in the
examples. The theorems follow.
-/

namespace NetbirdTools

/-! ## Data model (`tools/peers.go`, `tools/policies.go`, `tools/groups.go`) -/

/-- Go struct `NetbirdPeerGroup` of `tools/peers.go`. -/
structure NetbirdPeerGroup where
  ID : String
  Name : String
  PeersCount : Int
  ResourcesCount : Int
deriving DecidableEq, Repr

/-- Go struct `PortRange` of `tools/policies.go`. -/
structure PortRange where
  Start : Int
  End : Int
deriving DecidableEq, Repr

/-- Go struct `ResourceReference` of `tools/policies.go` (field `Type` is spelled `Typ`). -/
structure ResourceReference where
  ID : String
  Typ : String
deriving DecidableEq, Repr

/-- Go struct `NetbirdPolicyRule` of `tools/policies.go`. The slices `Destinations` and
`Sources` may be nil. The four last fields are pointers, `none` being the nil pointer; a
non-nil pointer to a nil slice or nil map, which `encoding/json` never produces when it
decodes a rule, is not represented. The values of `AuthorizedGroups` are slices that may be
nil. -/
structure NetbirdPolicyRule where
  Action : String
  Bidirectional : Bool
  Description : String
  Destinations : Option (List NetbirdPeerGroup)
  Enabled : Bool
  ID : String
  Name : String
  Protocol : String
  Sources : Option (List NetbirdPeerGroup)
  PortRanges : Option (List PortRange)
  AuthorizedGroups : Option (List (String × Option (List String)))
  SourceResource : Option ResourceReference
  DestinationResource : Option ResourceReference
deriving DecidableEq, Repr

/-- Go struct `NetbirdPolicy` of `tools/policies.go`. The field `SourcePostureChecks` (of
type `any`) is read by none of the functions embedded here and is left out. `Rules` is only
ranged over and measured with `len`, so a nil slice is the empty list. -/
structure NetbirdPolicy where
  Description : String
  Enabled : Bool
  ID : String
  Name : String
  Rules : List NetbirdPolicyRule
deriving DecidableEq, Repr

/-- Go struct `PolicyReference` of `tools/groups.go`. -/
structure PolicyReference where
  PolicyID : String
  PolicyName : String
  RuleID : String
  RuleName : String
  Location : String
deriving DecidableEq, Repr

/-- The elements a Go `for ... range` loop visits: none for a nil slice. -/
def elems {α : Type} : Option (List α) → List α
  | none => []
  | some xs => xs

/-! ## `ListPoliciesByGroup` -/

/-- The loop `for _, g := range groups { if g.ID == groupID { append ref; break } }` of
`ListPoliciesByGroup`: the reference is appended at the first match and the loop stops. -/
def appendAtFirstID (groupID : String) (ref : PolicyReference) :
    List NetbirdPeerGroup → List PolicyReference → List PolicyReference
  | [], references => references
  | g :: rest, references =>
    if g.ID = groupID then references ++ [ref]
    else appendAtFirstID groupID ref rest references

/-- The loop `for authGroupID := range *rule.AuthorizedGroups { if authGroupID == groupID
{ append ref; break } }` of `ListPoliciesByGroup`. -/
def appendAtFirstKey (groupID : String) (ref : PolicyReference) :
    List (String × Option (List String)) → List PolicyReference → List PolicyReference
  | [], references => references
  | kv :: rest, references =>
    if kv.1 = groupID then references ++ [ref]
    else appendAtFirstKey groupID ref rest references

/-- Body of the inner loop of `ListPoliciesByGroup` for one rule of one policy. -/
def scanRule (groupID : String) (policy : NetbirdPolicy) (rule : NetbirdPolicyRule)
    (references : List PolicyReference) : List PolicyReference :=
  let mk (loc : String) : PolicyReference :=
    { PolicyID := policy.ID, PolicyName := policy.Name, RuleID := rule.ID,
      RuleName := rule.Name, Location := loc }
  let references := appendAtFirstID groupID (mk "sources") (elems rule.Sources) references
  let references :=
    appendAtFirstID groupID (mk "destinations") (elems rule.Destinations) references
  match rule.AuthorizedGroups with
  | none => references
  | some ag => appendAtFirstKey groupID (mk "authorized_groups") ag references

/-- The two nested loops of `ListPoliciesByGroup` over the fetched policies. -/
def scanPolicies (groupID : String) (policies : List NetbirdPolicy) : List PolicyReference :=
  policies.foldl
    (fun references policy =>
      policy.Rules.foldl (fun references rule => scanRule groupID policy rule references)
        references)
    []

/-! ## Dynamically typed values, `structToMap` and `FormatRuleForAPI` -/

/-- A Go value held in an `interface{}`: `nil`, `bool`, `int`, `float64` (a finite one, as
a rational), `string`, `[]string`, `[]interface{}` and `map[string]interface{}`. -/
inductive GoValue where
  | nil
  | bool (b : Bool)
  | int (n : Int)
  | float64 (q : Rat)
  | string (s : String)
  | strings (xs : List String)
  | slice (xs : List GoValue)
  | object (kvs : List (String × GoValue))

/-- A non-nil Go `map[string]interface{}`. -/
abbrev GoMap := List (String × GoValue)

/-- Map read `m[k]` with the comma-ok flag folded into the `Option`. -/
def GoMap.get (m : GoMap) (k : String) : Option GoValue :=
  match m with
  | [] => none
  | kv :: rest => if kv.1 = k then some kv.2 else GoMap.get rest k

/-- Map write `m[k] = v`: the binding of `k` is replaced, or added when there is none. -/
def GoMap.set (m : GoMap) (k : String) (v : GoValue) : GoMap :=
  match m with
  | [] => [(k, v)]
  | kv :: rest => if kv.1 = k then (k, v) :: rest else kv :: GoMap.set rest k v

/-- What `%T` prints for a value of each dynamic type. -/
def GoValue.typeName : GoValue → String
  | .nil => "<nil>"
  | .bool _ => "bool"
  | .int _ => "int"
  | .float64 _ => "float64"
  | .string _ => "string"
  | .strings _ => "[]string"
  | .slice _ => "[]interface {}"
  | .object _ => "map[string]interface {}"

/-- The `for i, item := range v` loop of `convertToStringArray`, from index `i` on, with
`result` the strings collected so far. -/
def convertItems (fieldName : String) :
    Nat → List GoValue → List String → Except String (List String)
  | _, [], result => .ok result
  | i, item :: rest, result =>
    match item with
    | .string itemVal => convertItems fieldName (i + 1) rest (result ++ [itemVal])
    | .object itemVal =>
      match GoMap.get itemVal "id" with
      | some (.string id) => convertItems fieldName (i + 1) rest (result ++ [id])
      | _ =>
        .error (fieldName ++ "[" ++ toString i ++
          "]: object missing 'id' field or 'id' is not a string")
    | other =>
      .error (fieldName ++ "[" ++ toString i ++ "]: unsupported type " ++ other.typeName ++
        ", expected string or object with 'id' field")

/-- Go `convertToStringArray` of `tools/policies.go`. -/
def convertToStringArray (input : GoValue) (fieldName : String) :
    Except String (List String) :=
  match input with
  | .strings v => .ok v
  | .slice v => convertItems fieldName 0 v []
  | other => .error (fieldName ++ ": unsupported type " ++ other.typeName ++ ", expected array")

/-- Go `FormatRuleForAPI` of `tools/policies.go`; `none` is the nil map. -/
def FormatRuleForAPI (rule : Option GoMap) : Except String GoMap :=
  match rule with
  | none => .error "rule cannot be nil"
  | some rule =>
    let formatted : GoMap := rule
    let afterSources : Except String GoMap :=
      match GoMap.get rule "sources" with
      | some sources =>
        match sources with
        | .nil => .ok formatted
        | _ =>
          match convertToStringArray sources "sources" with
          | .error err => .error err
          | .ok stringArray => .ok (GoMap.set formatted "sources" (.strings stringArray))
      | none => .ok formatted
    match afterSources with
    | .error err => .error err
    | .ok formatted =>
      match GoMap.get rule "destinations" with
      | some destinations =>
        match destinations with
        | .nil => .ok formatted
        | _ =>
          match convertToStringArray destinations "destinations" with
          | .error err => .error err
          | .ok stringArray => .ok (GoMap.set formatted "destinations" (.strings stringArray))
      | none => .ok formatted

/-- The least `k`, from `k` on, with `a < 2 ^ (53 + k)`: the number of low bits of `a` that
do not fit in the 53 bits of a `float64` mantissa. The search is bounded by `fuel`. -/
def mantissaShift (a : Nat) : Nat → Nat → Nat
  | 0, k => k
  | fuel + 1, k => if a < 2 ^ (53 + k) then k else mantissaShift a fuel (k + 1)

/-- The `float64` that `encoding/json` decodes the digits of a Go `int` into: the nearest
number with a mantissa of 53 bits, a tie going to the even mantissa. An integer of absolute
value below `2 ^ 53` is kept as it is. -/
def nearestFloat64 (n : Int) : Rat :=
  let a := n.natAbs
  let ulp := 2 ^ mantissaShift a a 0
  let q := a / ulp
  let r := a % ulp
  let mantissa := if 2 * r > ulp ∨ (2 * r = ulp ∧ q % 2 = 1) then q + 1 else q
  if n < 0 then ((-((mantissa * ulp : Nat) : Int) : Int) : Rat)
  else (((mantissa * ulp : Nat) : Int) : Rat)

/-- JSON image of a `NetbirdPeerGroup`, decoded back into a `map[string]interface{}`;
numbers decode as `float64`. -/
def peerGroupToValue (g : NetbirdPeerGroup) : GoValue :=
  .object [("id", .string g.ID), ("name", .string g.Name),
    ("peers_count", .float64 (nearestFloat64 g.PeersCount)),
    ("resources_count", .float64 (nearestFloat64 g.ResourcesCount))]

/-- JSON image of a `[]NetbirdPeerGroup`: `null` for the nil slice. -/
def peerGroupsToValue : Option (List NetbirdPeerGroup) → GoValue
  | none => .nil
  | some gs => .slice (gs.map peerGroupToValue)

/-- JSON image of a `[]string`: `null` for the nil slice. -/
def stringsToValue : Option (List String) → GoValue
  | none => .nil
  | some xs => .slice (xs.map GoValue.string)

/-- JSON image of a `PortRange`, decoded back into a `map[string]interface{}`: the bounds
decode as `float64`. -/
def portRangeToValue (r : PortRange) : GoValue :=
  .object [("start", .float64 (nearestFloat64 r.Start)),
    ("end", .float64 (nearestFloat64 r.End))]

/-- JSON image of a `ResourceReference`. -/
def resourceToValue (r : ResourceReference) : GoValue :=
  .object [("id", .string r.ID), ("type", .string r.Typ)]

/-- The binding of an `omitempty` pointer field: absent for the nil pointer. -/
def omitEmpty {α : Type} (key : String) (f : α → GoValue) : Option α → GoMap
  | none => []
  | some a => [(key, f a)]

/-- Go `structToMap` of `tools/policies.go` applied to a `NetbirdPolicyRule`:
`json.Marshal` followed by `json.Unmarshal` into a `map[string]interface{}`. Neither step
fails on this struct type. Keys are listed in field order. The encoder writes an `int` with
all its digits and the decoder reads a number as a `float64`, so an `int` of absolute value
beyond `2 ^ 53` comes back rounded (`nearestFloat64`). -/
def structToMap (rule : NetbirdPolicyRule) : Except String GoMap :=
  .ok ([("action", .string rule.Action),
      ("bidirectional", .bool rule.Bidirectional),
      ("description", .string rule.Description),
      ("destinations", peerGroupsToValue rule.Destinations),
      ("enabled", .bool rule.Enabled),
      ("id", .string rule.ID),
      ("name", .string rule.Name),
      ("protocol", .string rule.Protocol),
      ("sources", peerGroupsToValue rule.Sources)]
    ++ omitEmpty "port_ranges" (fun rs => .slice (rs.map portRangeToValue)) rule.PortRanges
    ++ omitEmpty "authorized_groups"
        (fun ag => .object (ag.map (fun kv => (kv.1, stringsToValue kv.2)))) rule.AuthorizedGroups
    ++ omitEmpty "sourceResource" resourceToValue rule.SourceResource
    ++ omitEmpty "destinationResource" resourceToValue rule.DestinationResource)

/-! ## The REST gateway -/

/-- A call made through the REST client, with the response it got. `getPolicies` is
`GET /policies`, `getPolicy id` is `GET /policies/id`, `putPolicy id body` is
`PUT /policies/id`, `deletePolicy id` is `DELETE /policies/id` and `deleteGroup id` is
`DELETE /groups/id`. A failed call carries its error text. -/
inductive Event where
  | getPolicies (resp : Except String (List NetbirdPolicy))
  | getPolicy (policyID : String) (resp : Except String NetbirdPolicy)
  | putPolicy (policyID : String) (body : GoValue) (err : Option String)
  | deletePolicy (policyID : String) (err : Option String)
  | deleteGroup (groupID : String) (err : Option String)

/-- The remote service seen through `NetbirdClient`: each call returns a decoded response
or an error and moves the service to a new state. -/
structure Gateway (σ : Type) where
  getPolicies : σ → Except String (List NetbirdPolicy) × σ
  getPolicy : String → σ → Except String NetbirdPolicy × σ
  putPolicy : String → GoValue → σ → Option String × σ
  deletePolicy : String → σ → Option String × σ
  deleteGroup : String → σ → Option String × σ

/-- The client during one operation: the state of the service and the calls made so far. -/
structure Client (σ : Type) where
  state : σ
  trace : List Event

/-- Call `client.Get(ctx, "/policies", &policies)`. -/
def Client.getPolicies {σ : Type} (gw : Gateway σ) (c : Client σ) :
    Except String (List NetbirdPolicy) × Client σ :=
  let r := gw.getPolicies c.state
  (r.1, { state := r.2, trace := c.trace ++ [Event.getPolicies r.1] })

/-- Call `client.Get(ctx, "/policies/"+id, &policy)`. -/
def Client.getPolicy {σ : Type} (gw : Gateway σ) (id : String) (c : Client σ) :
    Except String NetbirdPolicy × Client σ :=
  let r := gw.getPolicy id c.state
  (r.1, { state := r.2, trace := c.trace ++ [Event.getPolicy id r.1] })

/-- Call `client.Put(ctx, "/policies/"+id, body, &updatedPolicy)`. -/
def Client.putPolicy {σ : Type} (gw : Gateway σ) (id : String) (body : GoValue)
    (c : Client σ) : Option String × Client σ :=
  let r := gw.putPolicy id body c.state
  (r.1, { state := r.2, trace := c.trace ++ [Event.putPolicy id body r.1] })

/-- Call `client.Delete(ctx, "/policies/"+id)`. -/
def Client.deletePolicy {σ : Type} (gw : Gateway σ) (id : String) (c : Client σ) :
    Option String × Client σ :=
  let r := gw.deletePolicy id c.state
  (r.1, { state := r.2, trace := c.trace ++ [Event.deletePolicy id r.1] })

/-- Call `client.Delete(ctx, "/groups/"+id)`. -/
def Client.deleteGroup {σ : Type} (gw : Gateway σ) (id : String) (c : Client σ) :
    Option String × Client σ :=
  let r := gw.deleteGroup id c.state
  (r.1, { state := r.2, trace := c.trace ++ [Event.deleteGroup id r.1] })

/-- Go `ListPoliciesByGroup` of `tools/groups.go`. -/
def ListPoliciesByGroup {σ : Type} (gw : Gateway σ) (groupID : String) (c : Client σ) :
    Except String (List PolicyReference) × Client σ :=
  match Client.getPolicies gw c with
  | (.error err, c) => (.error ("fetching policies: " ++ err), c)
  | (.ok policies, c) => (.ok (scanPolicies groupID policies), c)

/-! ## `DeleteGroupForce` -/

/-- Go struct `ForceDeleteResult` of `tools/groups.go`. -/
structure ForceDeleteResult where
  GroupID : String
  PoliciesModified : List String
  Deleted : Bool
  Errors : List String
deriving DecidableEq, Repr

/-- The loops of `DeleteGroupForce` that build `newSources` and `newDestinations`: a fresh
non-nil slice holding the groups whose ID differs from `groupID`. -/
def removeGroup (groupID : String) (groups : Option (List NetbirdPeerGroup)) :
    Option (List NetbirdPeerGroup) :=
  some ((elems groups).filter (fun g => decide (g.ID ≠ groupID)))

/-- Go `delete(m, key)` on a `map[string][]string`. -/
def deleteKey (key : String) (m : List (String × Option (List String))) :
    List (String × Option (List String)) :=
  m.filter (fun kv => decide (kv.1 ≠ key))

/-- The first part of the rule loop of `DeleteGroupForce`: the rule with `groupID` removed
from its sources, its destinations and the keys of its authorized groups. -/
def stripRule (groupID : String) (rule : NetbirdPolicyRule) : NetbirdPolicyRule :=
  { rule with
    Sources := removeGroup groupID rule.Sources
    Destinations := removeGroup groupID rule.Destinations
    AuthorizedGroups := rule.AuthorizedGroups.map (deleteKey groupID) }

/-- The test `hasSource && hasDestination` of `DeleteGroupForce`. -/
def hasSourceAndDestination (rule : NetbirdPolicyRule) : Bool :=
  let hasSource := decide ((elems rule.Sources).length > 0) || rule.SourceResource.isSome
  let hasDestination :=
    decide ((elems rule.Destinations).length > 0) || rule.DestinationResource.isSome
  hasSource && hasDestination

/-- The rule loop of `DeleteGroupForce`: `validRules` starts empty and receives, in order,
each stripped rule that passes the test. -/
def validRulesFrom (groupID : String) :
    List NetbirdPolicyRule → List NetbirdPolicyRule → List NetbirdPolicyRule
  | [], validRules => validRules
  | rule :: rest, validRules =>
    let rule := stripRule groupID rule
    if hasSourceAndDestination rule then validRulesFrom groupID rest (validRules ++ [rule])
    else validRulesFrom groupID rest validRules

/-- The loop of `DeleteGroupForce` that fills `rulesMap`: an entry whose conversion fails
stays the nil map (`none`) and the failure is appended to the errors. -/
def forceRulesMap (policyID : String) :
    List NetbirdPolicyRule → List String → List (Option GoMap) × List String
  | [], errors => ([], errors)
  | rule :: rest, errors =>
    match structToMap rule with
    | .error err =>
      let r := forceRulesMap policyID rest
        (errors ++ ["policy " ++ policyID ++ ": converting rule to map: " ++ err])
      (none :: r.1, r.2)
    | .ok ruleMap =>
      match FormatRuleForAPI (some ruleMap) with
      | .error err =>
        let r := forceRulesMap policyID rest
          (errors ++ ["policy " ++ policyID ++ ": formatting rule: " ++ err])
        (none :: r.1, r.2)
      | .ok formatted =>
        let r := forceRulesMap policyID rest errors
        (some formatted :: r.1, r.2)

/-- JSON image of a `[]map[string]interface{}`: `null` for a nil map. -/
def rulesMapToValue (rulesMap : List (Option GoMap)) : GoValue :=
  .slice (rulesMap.map (fun m => match m with
    | none => GoValue.nil
    | some kvs => GoValue.object kvs))

/-- The map literal `updateBody` of `DeleteGroupForce` and `ReplaceGroupInPolicies`. -/
def updateBody (policy : NetbirdPolicy) (rulesMap : List (Option GoMap)) : GoValue :=
  .object [("name", .string policy.Name), ("description", .string policy.Description),
    ("enabled", .bool policy.Enabled), ("rules", rulesMapToValue rulesMap)]

/-- The variables of `DeleteGroupForce` that its main loop updates. `processedPolicies`
lists the keys of the Go map of that name. -/
structure ForceState (σ : Type) where
  client : Client σ
  result : ForceDeleteResult
  processedPolicies : List String
  policiesToDelete : List String

/-- One iteration of the main loop `for _, ref := range references` of `DeleteGroupForce`. -/
def forceStep {σ : Type} (gw : Gateway σ) (groupID : String) (st : ForceState σ)
    (ref : PolicyReference) : ForceState σ :=
  if ref.PolicyID ∈ st.processedPolicies then st
  else
    let processed := st.processedPolicies ++ [ref.PolicyID]
    match Client.getPolicy gw ref.PolicyID st.client with
    | (.error err, client) =>
      { client := client
        result := { st.result with
          Errors := st.result.Errors ++ ["policy " ++ ref.PolicyID ++ ": fetching: " ++ err] }
        processedPolicies := processed
        policiesToDelete := st.policiesToDelete }
    | (.ok policy, client) =>
      let validRules := validRulesFrom groupID policy.Rules []
      if validRules.length = 0 then
        { client := client
          result := { st.result with
            PoliciesModified := st.result.PoliciesModified ++ [ref.PolicyID] }
          processedPolicies := processed
          policiesToDelete := st.policiesToDelete ++ [ref.PolicyID] }
      else
        let policy := { policy with Rules := validRules }
        let converted := forceRulesMap ref.PolicyID policy.Rules st.result.Errors
        match Client.putPolicy gw ref.PolicyID (updateBody policy converted.1) client with
        | (some err, client) =>
          { client := client
            result := { st.result with
              Errors := converted.2 ++ ["policy " ++ ref.PolicyID ++ ": updating: " ++ err] }
            processedPolicies := processed
            policiesToDelete := st.policiesToDelete }
        | (none, client) =>
          { client := client
            result := { st.result with
              Errors := converted.2
              PoliciesModified := st.result.PoliciesModified ++ [ref.PolicyID] }
            processedPolicies := processed
            policiesToDelete := st.policiesToDelete }

/-- The loop `for _, policyID := range policiesToDelete` of `DeleteGroupForce`. -/
def deleteEmptyPolicies {σ : Type} (gw : Gateway σ) :
    List String → Client σ × List String → Client σ × List String
  | [], acc => acc
  | policyID :: rest, (client, errors) =>
    match Client.deletePolicy gw policyID client with
    | (some err, client) =>
      deleteEmptyPolicies gw rest
        (client, errors ++ ["policy " ++ policyID ++ ": deleting: " ++ err])
    | (none, client) => deleteEmptyPolicies gw rest (client, errors)

/-- What `DeleteGroupForce` returns, `(*ForceDeleteResult, error)`, and the client after
the operation. -/
structure ForceOutcome (σ : Type) where
  result : Option ForceDeleteResult
  err : Option String
  client : Client σ

/-- Go `DeleteGroupForce` of `tools/groups.go`. -/
def DeleteGroupForce {σ : Type} (gw : Gateway σ) (groupID : String) (c : Client σ) :
    ForceOutcome σ :=
  let result : ForceDeleteResult :=
    { GroupID := groupID, PoliciesModified := [], Deleted := false, Errors := [] }
  match ListPoliciesByGroup gw groupID c with
  | (.error err, c) =>
    { result := none
      err := some ("finding policies with group " ++ groupID ++ ": " ++ err)
      client := c }
  | (.ok references, c) =>
    let st := references.foldl (forceStep gw groupID)
      { client := c, result := result, processedPolicies := [], policiesToDelete := [] }
    let afterDeletes := deleteEmptyPolicies gw st.policiesToDelete (st.client, st.result.Errors)
    match Client.deleteGroup gw groupID afterDeletes.1 with
    | (some err, c) =>
      { result := some { st.result with Errors := afterDeletes.2 ++ ["deleting group: " ++ err] }
        err := some ("deleting group: " ++ err)
        client := c }
    | (none, c) =>
      { result := some { st.result with Errors := afterDeletes.2, Deleted := true }
        err := none
        client := c }

/-! ## The references the specification asks of `ListPoliciesByGroup` -/

/-- The reference record of a rule of a policy at a location. -/
def referenceAt (policy : NetbirdPolicy) (rule : NetbirdPolicyRule) (location : String) :
    PolicyReference :=
  { PolicyID := policy.ID, PolicyName := policy.Name, RuleID := rule.ID,
    RuleName := rule.Name, Location := location }

/-- Some group of the list has ID `groupID`. -/
def hasGroupID (groupID : String) (groups : Option (List NetbirdPeerGroup)) : Bool :=
  (elems groups).any (fun g => decide (g.ID = groupID))

/-- The group `groupID` is a key of the authorized groups of the rule. -/
def hasAuthorizedKey (groupID : String) (rule : NetbirdPolicyRule) : Bool :=
  match rule.AuthorizedGroups with
  | none => false
  | some ag => ag.any (fun kv => decide (kv.1 = groupID))

/-- The references the specification asks for one rule: one tagged `sources` if some source
has ID `groupID`, then one tagged `destinations` if some destination has it, then one
tagged `authorized_groups` if it is a key of the authorized groups. -/
def ruleReferences (groupID : String) (policy : NetbirdPolicy) (rule : NetbirdPolicyRule) :
    List PolicyReference :=
  (if hasGroupID groupID rule.Sources then [referenceAt policy rule "sources"] else []) ++
  (if hasGroupID groupID rule.Destinations then [referenceAt policy rule "destinations"]
    else []) ++
  (if hasAuthorizedKey groupID rule then [referenceAt policy rule "authorized_groups"] else [])

/-- The list the specification asks of `ListPoliciesByGroup`: policies in order, the rules
of each in order, the references of each rule. -/
def expectedReferences (groupID : String) (policies : List NetbirdPolicy) :
    List PolicyReference :=
  (policies.map (fun policy => (policy.Rules.map (ruleReferences groupID policy)).flatten)).flatten

/-- The number of locations of a rule, out of its three, that contain `groupID`. -/
def locationCount (groupID : String) (rule : NetbirdPolicyRule) : Nat :=
  (if hasGroupID groupID rule.Sources then 1 else 0) +
  (if hasGroupID groupID rule.Destinations then 1 else 0) +
  (if hasAuthorizedKey groupID rule then 1 else 0)

/-! ## The map a rule taken from a struct is sent as -/

/-- The value `FormatRuleForAPI` leaves under `sources` or `destinations` for a rule that
comes from a struct: `null` for a nil slice, else the `[]string` of the group IDs. -/
def idsValue : Option (List NetbirdPeerGroup) → GoValue
  | none => .nil
  | some gs => .strings (gs.map (fun g => g.ID))

/-- The map a `NetbirdPolicyRule` is sent as: its `structToMap` image with the group lists
replaced by ID lists. -/
def sentRule (rule : NetbirdPolicyRule) : GoMap :=
  [("action", .string rule.Action),
    ("bidirectional", .bool rule.Bidirectional),
    ("description", .string rule.Description),
    ("destinations", idsValue rule.Destinations),
    ("enabled", .bool rule.Enabled),
    ("id", .string rule.ID),
    ("name", .string rule.Name),
    ("protocol", .string rule.Protocol),
    ("sources", idsValue rule.Sources)]
  ++ omitEmpty "port_ranges" (fun rs => .slice (rs.map portRangeToValue)) rule.PortRanges
  ++ omitEmpty "authorized_groups"
      (fun ag => .object (ag.map (fun kv => (kv.1, stringsToValue kv.2)))) rule.AuthorizedGroups
  ++ omitEmpty "sourceResource" resourceToValue rule.SourceResource
  ++ omitEmpty "destinationResource" resourceToValue rule.DestinationResource

/-! ## The main loop of `DeleteGroupForce`, policy by policy -/

/-- The IDs of `ids` in order of first occurrence, leaving out those already in `seen`. -/
def firstOccurrences (seen : List String) : List String → List String
  | [] => []
  | id :: rest =>
    if id ∈ seen then firstOccurrences seen rest
    else id :: firstOccurrences (seen ++ [id]) rest

/-- The body of the `PUT` that `DeleteGroupForce` builds from a fetched policy. -/
def forceBody (groupID : String) (policy : NetbirdPolicy) : GoValue :=
  updateBody policy ((validRulesFrom groupID policy.Rules []).map (fun r => some (sentRule r)))

/-- What one pass of the main loop of `DeleteGroupForce` did with a policy: the fetch
failed; the fetched policy kept no rule; the update was sent and failed; the update was
sent and succeeded. -/
inductive Visit where
  | fetchFailed (policyID : String) (err : String)
  | emptied (policyID : String) (policy : NetbirdPolicy)
  | updateFailed (policyID : String) (policy : NetbirdPolicy) (err : String)
  | updated (policyID : String) (policy : NetbirdPolicy)

/-- The policy a visit is about. -/
def Visit.policyID : Visit → String
  | .fetchFailed id _ => id
  | .emptied id _ => id
  | .updateFailed id _ _ => id
  | .updated id _ => id

/-- The gateway calls of a visit. -/
def Visit.events (groupID : String) : Visit → List Event
  | .fetchFailed id err => [Event.getPolicy id (.error err)]
  | .emptied id policy => [Event.getPolicy id (.ok policy)]
  | .updateFailed id policy err =>
    [Event.getPolicy id (.ok policy), Event.putPolicy id (forceBody groupID policy) (some err)]
  | .updated id policy =>
    [Event.getPolicy id (.ok policy), Event.putPolicy id (forceBody groupID policy) none]

/-- The fetched policy of an `emptied` visit keeps no rule, that of an update keeps some. -/
def Visit.consistent (groupID : String) : Visit → Prop
  | .fetchFailed _ _ => True
  | .emptied _ policy => validRulesFrom groupID policy.Rules [] = []
  | .updateFailed _ policy _ => validRulesFrom groupID policy.Rules [] ≠ []
  | .updated _ policy => validRulesFrom groupID policy.Rules [] ≠ []

/-- The ID a visit appends to `PoliciesModified`, if any. -/
def Visit.modified : Visit → Option String
  | .emptied id _ => some id
  | .updated id _ => some id
  | _ => none

/-- The ID a visit appends to `policiesToDelete`, if any. -/
def Visit.toDelete : Visit → Option String
  | .emptied id _ => some id
  | _ => none

/-- The text a visit appends to `Errors`, if any. -/
def Visit.error : Visit → Option String
  | .fetchFailed id err => some ("policy " ++ id ++ ": fetching: " ++ err)
  | .updateFailed id _ err => some ("policy " ++ id ++ ": updating: " ++ err)
  | _ => none

/-- The state of the main loop after the visits `visits`, started from `st`. -/
def ForceState.after {σ : Type} (groupID : String) (st : ForceState σ) (visits : List Visit)
    (state : σ) : ForceState σ :=
  { client :=
      { state := state
        trace := st.client.trace ++ (visits.map (Visit.events groupID)).flatten }
    result :=
      { GroupID := st.result.GroupID
        PoliciesModified := st.result.PoliciesModified ++ visits.filterMap Visit.modified
        Deleted := st.result.Deleted
        Errors := st.result.Errors ++ visits.filterMap Visit.error }
    processedPolicies := st.processedPolicies ++ visits.map Visit.policyID
    policiesToDelete := st.policiesToDelete ++ visits.filterMap Visit.toDelete }

/-- The text `deleteEmptyPolicies` records for a policy deletion with the given outcome. -/
def deleteError (policyID : String) (outcome : Option String) : Option String :=
  outcome.map (fun err => "policy " ++ policyID ++ ": deleting: " ++ err)

/-- The text appended to `Errors` for the final group deletion with the given outcome. -/
def groupDeleteErrors : Option String → List String
  | none => []
  | some err => ["deleting group: " ++ err]

/-! ## The keep condition in the words of the specification -/

/-- The keep condition in the words of the specification: after `groupID` is removed, the
rule has a source (a non-empty source list or a `sourceResource`) and a destination (a
non-empty destination list or a `destinationResource`). -/
def keepsRule (groupID : String) (rule : NetbirdPolicyRule) : Bool :=
  (decide ((elems rule.Sources).filter (fun g => decide (g.ID ≠ groupID)) ≠ []) ||
      rule.SourceResource.isSome) &&
  (decide ((elems rule.Destinations).filter (fun g => decide (g.ID ≠ groupID)) ≠ []) ||
      rule.DestinationResource.isSome)

/-! ## What the specification asks of the rules `DeleteGroupForce` sends -/

/-- The IDs of a list of groups, `groupID` left out, the others in their order. -/
def idsWithout (groupID : String) (groups : Option (List NetbirdPeerGroup)) : List String :=
  ((elems groups).map (fun g => g.ID)).filter (fun id => decide (id ≠ groupID))

/-- The value `v` is a rule map that carries the fetched rule `rule` without `groupID`:
its `sources` and `destinations` are the ID lists of the rule with `groupID` removed, its
`authorized_groups` (present exactly when the rule has them) are those of the rule without
the key `groupID`; so `groupID` occurs in none of the three. -/
def SentWithoutGroup (groupID : String) (rule : NetbirdPolicyRule) (v : GoValue) : Prop :=
  ∃ m, v = GoValue.object m ∧
    GoMap.get m "sources" = some (.strings (idsWithout groupID rule.Sources)) ∧
    GoMap.get m "destinations" = some (.strings (idsWithout groupID rule.Destinations)) ∧
    GoMap.get m "authorized_groups" =
      rule.AuthorizedGroups.map (fun ag =>
        GoValue.object ((ag.filter (fun kv => decide (kv.1 ≠ groupID))).map
          (fun kv => (kv.1, stringsToValue kv.2)))) ∧
    groupID ∉ idsWithout groupID rule.Sources ∧
    groupID ∉ idsWithout groupID rule.Destinations ∧
    (∀ kvs, GoMap.get m "authorized_groups" = some (GoValue.object kvs) →
      GoMap.get kvs groupID = none)

/-- Go struct `GroupReplacementResult` of `tools/groups.go`; `Errors` is a
`map[string]string`. -/
structure GroupReplacementResult where
  UpdatedPolicyIDs : List String
  Errors : List (String × String)
deriving DecidableEq, Repr

/-- Map write `m[k] = v` on a `map[string]string`. -/
def setError (m : List (String × String)) (k v : String) : List (String × String) :=
  match m with
  | [] => [(k, v)]
  | kv :: rest => if kv.1 = k then (k, v) :: rest else kv :: setError rest k v

/-- Map read `m[k]` on a `map[string][]string`, with the comma-ok flag as the `Option`. -/
def lookupKey (key : String) :
    List (String × Option (List String)) → Option (Option (List String))
  | [] => none
  | kv :: rest => if kv.1 = key then some kv.2 else lookupKey key rest

/-- Map write `m[k] = v` on a `map[string][]string`. -/
def setKey (m : List (String × Option (List String))) (k : String)
    (v : Option (List String)) : List (String × Option (List String)) :=
  match m with
  | [] => [(k, v)]
  | kv :: rest => if kv.1 = k then (k, v) :: rest else kv :: setKey rest k v

/-- The loops `for j := range rule.Sources` and `for j := range rule.Destinations` of
`ReplaceGroupInPolicies`: every ID equal to `oldGroupID` is overwritten, which sets
`modified`. -/
def replaceInGroups (oldGroupID newGroupID : String) :
    List NetbirdPeerGroup → Bool → List NetbirdPeerGroup × Bool
  | [], modified => ([], modified)
  | g :: rest, modified =>
    if g.ID = oldGroupID then
      let r := replaceInGroups oldGroupID newGroupID rest true
      ({ g with ID := newGroupID } :: r.1, r.2)
    else
      let r := replaceInGroups oldGroupID newGroupID rest modified
      (g :: r.1, r.2)

/-- The loop `replaceInGroups` on a slice that may be nil: a nil slice stays nil. -/
def replaceInSlice (oldGroupID newGroupID : String) :
    Option (List NetbirdPeerGroup) → Bool → Option (List NetbirdPeerGroup) × Bool
  | none, modified => (none, modified)
  | some gs, modified =>
    let r := replaceInGroups oldGroupID newGroupID gs modified
    (some r.1, r.2)

/-- The body of the rule loop of `ReplaceGroupInPolicies` for one rule. -/
def replaceInRule (oldGroupID newGroupID : String) (rule : NetbirdPolicyRule)
    (modified : Bool) : NetbirdPolicyRule × Bool :=
  let src := replaceInSlice oldGroupID newGroupID rule.Sources modified
  let dst := replaceInSlice oldGroupID newGroupID rule.Destinations src.2
  match rule.AuthorizedGroups with
  | none => ({ rule with Sources := src.1, Destinations := dst.1 }, dst.2)
  | some ag =>
    match lookupKey oldGroupID ag with
    | some users =>
      ({ rule with
          Sources := src.1
          Destinations := dst.1
          AuthorizedGroups := some (setKey (deleteKey oldGroupID ag) newGroupID users) }, true)
    | none => ({ rule with Sources := src.1, Destinations := dst.1 }, dst.2)

/-- The rule loop `for i := range policy.Rules` of `ReplaceGroupInPolicies`. -/
def replaceInRules (oldGroupID newGroupID : String) :
    List NetbirdPolicyRule → Bool → List NetbirdPolicyRule × Bool
  | [], modified => ([], modified)
  | rule :: rest, modified =>
    let r := replaceInRule oldGroupID newGroupID rule modified
    let rs := replaceInRules oldGroupID newGroupID rest r.2
    (r.1 :: rs.1, rs.2)

/-- The loop of `ReplaceGroupInPolicies` that fills `rulesMap`: an entry whose conversion
fails stays the nil map and the failure is stored under the policy ID. -/
def replaceRulesMap (policyID : String) :
    List NetbirdPolicyRule → List (String × String) → List (Option GoMap) × List (String × String)
  | [], errors => ([], errors)
  | rule :: rest, errors =>
    match structToMap rule with
    | .error err =>
      let r := replaceRulesMap policyID rest
        (setError errors policyID ("converting rule to map: " ++ err))
      (none :: r.1, r.2)
    | .ok ruleMap =>
      match FormatRuleForAPI (some ruleMap) with
      | .error err =>
        let r := replaceRulesMap policyID rest
          (setError errors policyID ("formatting rule: " ++ err))
        (none :: r.1, r.2)
      | .ok formatted =>
        let r := replaceRulesMap policyID rest errors
        (some formatted :: r.1, r.2)

/-- The variables of `ReplaceGroupInPolicies` that its main loop updates.
`updatedPolicies` lists the keys of the Go map of that name. -/
structure ReplaceState (σ : Type) where
  client : Client σ
  result : GroupReplacementResult
  updatedPolicies : List String

/-- One iteration of the main loop `for _, ref := range references` of
`ReplaceGroupInPolicies`. -/
def replaceStep {σ : Type} (gw : Gateway σ) (oldGroupID newGroupID : String)
    (st : ReplaceState σ) (ref : PolicyReference) : ReplaceState σ :=
  if ref.PolicyID ∈ st.updatedPolicies then st
  else
    match Client.getPolicy gw ref.PolicyID st.client with
    | (.error err, client) =>
      { client := client
        result := { st.result with
          Errors := setError st.result.Errors ref.PolicyID ("fetching policy: " ++ err) }
        updatedPolicies := st.updatedPolicies }
    | (.ok policy, client) =>
      let replaced := replaceInRules oldGroupID newGroupID policy.Rules false
      let policy := { policy with Rules := replaced.1 }
      if replaced.2 then
        let converted := replaceRulesMap ref.PolicyID policy.Rules st.result.Errors
        match Client.putPolicy gw ref.PolicyID (updateBody policy converted.1) client with
        | (some err, client) =>
          { client := client
            result := { st.result with
              Errors := setError converted.2 ref.PolicyID ("updating policy: " ++ err) }
            updatedPolicies := st.updatedPolicies }
        | (none, client) =>
          { client := client
            result :=
              { UpdatedPolicyIDs := st.result.UpdatedPolicyIDs ++ [ref.PolicyID]
                Errors := converted.2 }
            updatedPolicies := st.updatedPolicies ++ [ref.PolicyID] }
      else
        { client := client, result := st.result, updatedPolicies := st.updatedPolicies }

/-- What `ReplaceGroupInPolicies` returns, `(*GroupReplacementResult, error)`, and the
client after the operation. -/
structure ReplaceOutcome (σ : Type) where
  result : Option GroupReplacementResult
  err : Option String
  client : Client σ

/-- Go `ReplaceGroupInPolicies` of `tools/groups.go`. -/
def ReplaceGroupInPolicies {σ : Type} (gw : Gateway σ) (oldGroupID newGroupID : String)
    (c : Client σ) : ReplaceOutcome σ :=
  match ListPoliciesByGroup gw oldGroupID c with
  | (.error err, c) =>
    { result := none
      err := some ("finding policies with group " ++ oldGroupID ++ ": " ++ err)
      client := c }
  | (.ok references, c) =>
    let st := references.foldl (replaceStep gw oldGroupID newGroupID)
      { client := c
        result := { UpdatedPolicyIDs := [], Errors := [] }
        updatedPolicies := [] }
    { result := some st.result, err := none, client := st.client }

/-! ## Replacement inside one policy -/

/-- A group with its ID replaced when it is `oldGroupID`. -/
def renameGroup (oldGroupID newGroupID : String) (g : NetbirdPeerGroup) : NetbirdPeerGroup :=
  if g.ID = oldGroupID then { g with ID := newGroupID } else g

/-- The rule mentions the group in its sources, its destinations or the keys of its
authorized groups. -/
def ruleMentions (groupID : String) (rule : NetbirdPolicyRule) : Bool :=
  hasGroupID groupID rule.Sources || hasGroupID groupID rule.Destinations ||
    hasAuthorizedKey groupID rule

/-- Some rule of the policy mentions the group. -/
def policyMentions (groupID : String) (policy : NetbirdPolicy) : Bool :=
  policy.Rules.any (ruleMentions groupID)

/-- The rule that the rule loop of `ReplaceGroupInPolicies` leaves in place of `rule`. -/
def replacedRule (oldGroupID newGroupID : String) (rule : NetbirdPolicyRule) :
    NetbirdPolicyRule :=
  (replaceInRule oldGroupID newGroupID rule false).1

/-- The body of the `PUT` that `ReplaceGroupInPolicies` builds from a fetched policy. -/
def replaceBody (oldGroupID newGroupID : String) (policy : NetbirdPolicy) : GoValue :=
  updateBody policy
    ((policy.Rules.map (replacedRule oldGroupID newGroupID)).map (fun r => some (sentRule r)))

/-! ## The main loop of `ReplaceGroupInPolicies`, pass by pass -/

/-- What one pass of the main loop of `ReplaceGroupInPolicies` that is not skipped did: the
fetch failed; the fetched policy does not mention the old group and is left alone; the
update was sent and failed; the update was sent and succeeded. -/
inductive ReplaceVisit where
  | fetchFailed (policyID : String) (err : String)
  | unchanged (policyID : String) (policy : NetbirdPolicy)
  | updateFailed (policyID : String) (policy : NetbirdPolicy) (err : String)
  | updated (policyID : String) (policy : NetbirdPolicy)

/-- The policy a pass is about. -/
def ReplaceVisit.policyID : ReplaceVisit → String
  | .fetchFailed id _ => id
  | .unchanged id _ => id
  | .updateFailed id _ _ => id
  | .updated id _ => id

/-- The gateway calls of a pass. -/
def ReplaceVisit.events (oldGroupID newGroupID : String) : ReplaceVisit → List Event
  | .fetchFailed id err => [Event.getPolicy id (.error err)]
  | .unchanged id policy => [Event.getPolicy id (.ok policy)]
  | .updateFailed id policy err =>
    [Event.getPolicy id (.ok policy),
     Event.putPolicy id (replaceBody oldGroupID newGroupID policy) (some err)]
  | .updated id policy =>
    [Event.getPolicy id (.ok policy),
     Event.putPolicy id (replaceBody oldGroupID newGroupID policy) none]

/-- The fetched policy of an `unchanged` pass does not mention the old group, that of an
update does. -/
def ReplaceVisit.consistent (oldGroupID : String) : ReplaceVisit → Prop
  | .fetchFailed _ _ => True
  | .unchanged _ policy => policyMentions oldGroupID policy = false
  | .updateFailed _ policy _ => policyMentions oldGroupID policy = true
  | .updated _ policy => policyMentions oldGroupID policy = true

/-- The responses recorded in a pass are responses the gateway gave in some state. -/
def ReplaceVisit.answeredBy {σ : Type} (gw : Gateway σ) (oldGroupID newGroupID : String) :
    ReplaceVisit → Prop
  | .fetchFailed id err => ∃ s, (gw.getPolicy id s).1 = .error err
  | .unchanged id policy => ∃ s, (gw.getPolicy id s).1 = .ok policy
  | .updateFailed id policy err =>
    (∃ s, (gw.getPolicy id s).1 = .ok policy) ∧
    ∃ s, (gw.putPolicy id (replaceBody oldGroupID newGroupID policy) s).1 = some err
  | .updated id policy =>
    (∃ s, (gw.getPolicy id s).1 = .ok policy) ∧
    ∃ s, (gw.putPolicy id (replaceBody oldGroupID newGroupID policy) s).1 = none

/-- The ID a pass appends to `UpdatedPolicyIDs` and adds to `updatedPolicies`, if any. -/
def ReplaceVisit.updatedID : ReplaceVisit → Option String
  | .updated id _ => some id
  | _ => none

/-- The `Errors` map after a pass. -/
def ReplaceVisit.record (errors : List (String × String)) : ReplaceVisit → List (String × String)
  | .fetchFailed id err => setError errors id ("fetching policy: " ++ err)
  | .updateFailed id _ err => setError errors id ("updating policy: " ++ err)
  | _ => errors

/-- The state of the main loop after the passes `visits`, started from `st`. -/
def ReplaceState.after {σ : Type} (oldGroupID newGroupID : String) (st : ReplaceState σ)
    (visits : List ReplaceVisit) (state : σ) : ReplaceState σ :=
  { client :=
      { state := state
        trace := st.client.trace ++
          (visits.map (ReplaceVisit.events oldGroupID newGroupID)).flatten }
    result :=
      { UpdatedPolicyIDs :=
          st.result.UpdatedPolicyIDs ++ visits.filterMap ReplaceVisit.updatedID
        Errors := visits.foldl ReplaceVisit.record st.result.Errors }
    updatedPolicies := st.updatedPolicies ++ visits.filterMap ReplaceVisit.updatedID }

/-- The passes `visits` are those of the main loop of `ReplaceGroupInPolicies` over the
references with policy IDs `ids`, started with `updated` as the policies already updated:
a reference whose policy is already updated is skipped, any other gets one pass, and a pass
that updates its policy adds it to the updated ones. -/
def PassesOf : List String → List String → List ReplaceVisit → Prop
  | _, [], visits => visits = []
  | updated, id :: rest, visits =>
    if id ∈ updated then PassesOf updated rest visits
    else ∃ v vs, visits = v :: vs ∧ v.policyID = id ∧
      PassesOf (updated ++ [v].filterMap ReplaceVisit.updatedID) rest vs

/-! ## What the specification asks of the rules `ReplaceGroupInPolicies` sends -/

/-- The value sent under `sources` or `destinations` for a fetched list of groups: `null`
for a nil list, else the IDs in order with every `oldGroupID` replaced by `newGroupID`. -/
def renamedIDs (oldGroupID newGroupID : String) : Option (List NetbirdPeerGroup) → GoValue
  | none => .nil
  | some gs => .strings (gs.map (fun g => if g.ID = oldGroupID then newGroupID else g.ID))

/-- A principal list as it is to be sent, unchanged: `null` for a nil list, else the array
of its principals, each as a string, in their order. -/
def principalsSent : Option (List String) → GoValue
  | none => GoValue.nil
  | some principals => GoValue.slice (principals.map GoValue.string)

/-- The authorized groups `kvs` sent for the fetched authorized groups `ag`: when
`oldGroupID` is a key of `ag`, its principal list is found, unchanged, under `newGroupID`,
the key `oldGroupID` is gone (unless both IDs are the same) and every other key has its
principal list, unchanged; when it is not a key, every key has its principal list,
unchanged. -/
def RenamedKeys (oldGroupID newGroupID : String) (ag : List (String × Option (List String)))
    (kvs : GoMap) : Prop :=
  match lookupKey oldGroupID ag with
  | none => ∀ k, GoMap.get kvs k = (lookupKey k ag).map principalsSent
  | some users =>
    GoMap.get kvs newGroupID = some (principalsSent users) ∧
    (oldGroupID ≠ newGroupID → GoMap.get kvs oldGroupID = none) ∧
    ∀ k, k ≠ oldGroupID → k ≠ newGroupID →
      GoMap.get kvs k = (lookupKey k ag).map principalsSent

/-- The value `v` is a rule map that carries the fetched rule `rule` with `oldGroupID`
replaced by `newGroupID` in `sources`, `destinations` and the keys of `authorized_groups`
(which are present exactly when the rule has them). -/
def SentReplaced (oldGroupID newGroupID : String) (rule : NetbirdPolicyRule) (v : GoValue) :
    Prop :=
  ∃ m, v = GoValue.object m ∧
    GoMap.get m "sources" = some (renamedIDs oldGroupID newGroupID rule.Sources) ∧
    GoMap.get m "destinations" = some (renamedIDs oldGroupID newGroupID rule.Destinations) ∧
    match rule.AuthorizedGroups with
    | none => GoMap.get m "authorized_groups" = none
    | some ag => ∃ kvs, GoMap.get m "authorized_groups" = some (GoValue.object kvs) ∧
        RenamedKeys oldGroupID newGroupID ag kvs

/-- The references of one policy, as `ListPoliciesByGroup` lists them. -/
def policyReferences (groupID : String) (policy : NetbirdPolicy) : List PolicyReference :=
  (policy.Rules.map (ruleReferences groupID policy)).flatten

/-! ## A concrete gateway for the examples -/

/-- A gateway over a fixed list of policies: the listing returns them, the fetch of an ID
returns the first listed policy with that ID, an update fails for the IDs in `failPut`, a
policy deletion fails for the IDs in `failDelete`, and the group deletion fails when
`failGroup` is set. The state counts the calls made. -/
def exampleGateway (policies : List NetbirdPolicy) (failPut failDelete : List String)
    (failGroup : Bool) : Gateway Nat where
  getPolicies := fun n => (.ok policies, n + 1)
  getPolicy := fun id n =>
    match policies.find? (fun p => decide (p.ID = id)) with
    | some p => (.ok p, n + 1)
    | none => (.error "policy not found", n + 1)
  putPolicy := fun id _ n => (if id ∈ failPut then some "update refused" else none, n + 1)
  deletePolicy := fun id n =>
    (if id ∈ failDelete then some "delete refused" else none, n + 1)
  deleteGroup := fun _ n => (if failGroup then some "group in use" else none, n + 1)

/-- A gateway whose every call fails. -/
def failingGateway : Gateway Nat where
  getPolicies := fun n => (.error "unreachable", n + 1)
  getPolicy := fun _ n => (.error "unreachable", n + 1)
  putPolicy := fun _ _ n => (some "unreachable", n + 1)
  deletePolicy := fun _ n => (some "unreachable", n + 1)
  deleteGroup := fun _ n => (some "unreachable", n + 1)

/-- A peer group with the given ID. -/
def exampleGroup (id : String) : NetbirdPeerGroup :=
  { ID := id, Name := id, PeersCount := 0, ResourcesCount := 0 }

/-- An accepting TCP rule with the given ID, sources, destinations and authorized groups. -/
def exampleRule (id : String) (sources destinations : List String)
    (authorized : Option (List (String × Option (List String)))) : NetbirdPolicyRule :=
  { Action := "accept", Bidirectional := false, Description := "",
    Destinations := some (destinations.map exampleGroup), Enabled := true, ID := id,
    Name := id, Protocol := "tcp", Sources := some (sources.map exampleGroup),
    PortRanges := none, AuthorizedGroups := authorized, SourceResource := none,
    DestinationResource := none }

/-- An enabled policy with the given ID and rules. -/
def examplePolicy (id : String) (rules : List NetbirdPolicyRule) : NetbirdPolicy :=
  { Description := "", Enabled := true, ID := id, Name := id, Rules := rules }

/-- A policy one of whose two rules survives the removal of group `g`. -/
def mixedPolicy : NetbirdPolicy :=
  examplePolicy "policy-1"
    [exampleRule "rule-1" ["g", "other"] ["dest"] (some [("g", some ["u1"]), ("h", none)]),
     exampleRule "rule-2" ["g"] ["g"] none]

/-- The policy of the example scenario of the specification: its only rule has sources
`[g, other]`, destinations `[g]` and authorized groups `{g: [u1]}`. -/
def scenarioPolicy : NetbirdPolicy :=
  examplePolicy "policy-2"
    [exampleRule "rule-1" ["g", "other"] ["g"] (some [("g", some ["u1"])])]

/-- A policy that mentions group `old` twice in one list, in two rules and as a key of the
authorized groups. -/
def replacePolicyA : NetbirdPolicy :=
  examplePolicy "policy-a"
    [exampleRule "rule-1" ["old", "x", "old"] ["y"]
      (some [("old", some ["u1", "u2"]), ("other", some ["u3"])]),
     exampleRule "rule-2" ["x"] ["old"] none]

/-- A policy that does not mention group `old`. -/
def replacePolicyB : NetbirdPolicy :=
  examplePolicy "policy-b" [exampleRule "rule-1" ["x"] ["y"] none]

/-- A policy that mentions group `old` only as a key of the authorized groups. -/
def replacePolicyC : NetbirdPolicy :=
  examplePolicy "policy-c" [exampleRule "rule-1" ["x"] ["y"] (some [("old", none)])]

/-! ## A gateway with transient failures -/

/-- A gateway over a fixed list of policies, as `exampleGateway`, whose fetch of a policy
fails when it is the call number `n` of the run for an `n` in `failGetAt` (the listing is
call 0). Every update succeeds. -/
def flakyGateway (policies : List NetbirdPolicy) (failGetAt : List Nat) : Gateway Nat where
  getPolicies := fun n => (.ok policies, n + 1)
  getPolicy := fun id n =>
    if n ∈ failGetAt then (.error "temporarily unavailable", n + 1)
    else
      match policies.find? (fun p => decide (p.ID = id)) with
      | some p => (.ok p, n + 1)
      | none => (.error "policy not found", n + 1)
  putPolicy := fun _ _ n => (none, n + 1)
  deletePolicy := fun _ n => (none, n + 1)
  deleteGroup := fun _ n => (none, n + 1)

/-- A policy with two rules that each mention group `old` once. -/
def twiceReferencedPolicy : NetbirdPolicy :=
  examplePolicy "policy-t"
    [exampleRule "rule-1" ["old"] ["y"] none, exampleRule "rule-2" ["x"] ["old"] none]

/-! ## What the specification asks of `FormatRuleForAPI` -/

/-- The ID a group reference stands for: the string itself, or the string `id` of an
object. A value of any other shape is no reference. -/
def refID : GoValue → Option String
  | .string s => some s
  | .object m =>
    match GoMap.get m "id" with
    | some (.string id) => some id
    | _ => none
  | _ => none

/-- The field of the rule is absent, null, a list of ID strings, or a list whose elements
are ID strings or objects with a string `id`. -/
def FieldConvertible (rule : GoMap) (field : String) : Prop :=
  GoMap.get rule field = none ∨ GoMap.get rule field = some GoValue.nil ∨
  (∃ xs, GoMap.get rule field = some (GoValue.strings xs)) ∨
  (∃ xs, GoMap.get rule field = some (GoValue.slice xs) ∧ ∀ x ∈ xs, (refID x).isSome = true)

/-- The field of the rule is present, non-null, and is not an array or holds an element that
is neither a string nor an object with a string `id`. -/
def FieldMalformed (rule : GoMap) (field : String) : Prop :=
  ∃ v, GoMap.get rule field = some v ∧ v ≠ GoValue.nil ∧
    ((∀ xs, v ≠ GoValue.strings xs) ∧ (∀ xs, v ≠ GoValue.slice xs) ∨
      ∃ xs, v = GoValue.slice xs ∧ ∃ x ∈ xs, refID x = none)

/-- What `FormatRuleForAPI` does with one of its two fields: nothing (`none`) when the field
is absent or null, else the conversion of its value. -/
def fieldOutcome (rule : GoMap) (field : String) : Except String (Option (List String)) :=
  match GoMap.get rule field with
  | none => .ok none
  | some GoValue.nil => .ok none
  | some v =>
    match convertToStringArray v field with
    | .error err => .error err
    | .ok ids => .ok (some ids)

/-- The map with the field set to the converted IDs, if there are any. -/
def applyIDs (field : String) (ids : Option (List String)) (m : GoMap) : GoMap :=
  match ids with
  | none => m
  | some xs => GoMap.set m field (GoValue.strings xs)

/-- The message `convertToStringArray` gives for the element `item` at index `i` of the
field when that element is no reference. -/
def elementError (fieldName : String) (i : Nat) (item : GoValue) : String :=
  match item with
  | .object _ =>
    fieldName ++ "[" ++ toString i ++ "]: object missing 'id' field or 'id' is not a string"
  | other =>
    fieldName ++ "[" ++ toString i ++ "]: unsupported type " ++ other.typeName ++
      ", expected string or object with 'id' field"

/-- One of the two stages of `FormatRuleForAPI`: the block `if v, ok := rule[field]; ok &&
v != nil { ... formatted[field] = stringArray }`, which reads the field in `rule` and writes
it in `formatted`. -/
def formatStage (rule : GoMap) (field : String) (formatted : GoMap) : Except String GoMap :=
  match GoMap.get rule field with
  | some v =>
    match v with
    | .nil => .ok formatted
    | _ =>
      match convertToStringArray v field with
      | .error err => .error err
      | .ok stringArray => .ok (GoMap.set formatted field (.strings stringArray))
  | none => .ok formatted

/-- The message contains the text `part`. -/
def Mentions (msg part : String) : Prop :=
  part.data <:+: msg.data

instance (msg part : String) : Decidable (Mentions msg part) :=
  inferInstanceAs (Decidable (part.data <:+: msg.data))

/-- A rule whose sources mix an ID string and a reference object, and whose destinations
are a `[]string`. -/
def mixedReferenceRule : GoMap :=
  [("name", GoValue.string "web"),
   ("sources", GoValue.slice [GoValue.string "g1",
      GoValue.object [("id", GoValue.string "g2"), ("name", GoValue.string "ops")]]),
   ("destinations", GoValue.strings ["g3"]),
   ("sourceResource", GoValue.nil)]

/-- A rule whose sources hold a number and then an object without `id`. -/
def malformedSourcesRule : GoMap :=
  [("name", GoValue.string "web"),
   ("sources", GoValue.slice [GoValue.float64 5, GoValue.object []])]

/-! ## `ValidatePolicyRules` -/

/-- The integer part of a number: rounding toward zero. -/
def truncate (v : Rat) : Int :=
  Int.tdiv v.num v.den

/-- Go conversion `int(v)` of a `float64`: the value is truncated toward zero; when the
truncated value is no `int` (64 bits), the language leaves the result to the
implementation, here the parameter `outOfRange`. -/
def floatToInt (outOfRange : Rat → Int) (v : Rat) : Int :=
  let t := truncate v
  if -(2 ^ 63) ≤ t ∧ t < 2 ^ 63 then t else outOfRange v

/-- Go `getRuleIdentifier`: the quoted name when `name` is a non-empty string, else the
index in brackets. -/
def getRuleIdentifier (rule : GoMap) (index : Nat) : String :=
  match GoMap.get rule "name" with
  | some (.string name) =>
    if name ≠ "" then "'" ++ name ++ "'" else "[" ++ toString index ++ "]"
  | _ => "[" ++ toString index ++ "]"

/-- Go `validateRequiredField`: an error when the key is absent. -/
def validateRequiredField (rule : GoMap) (fieldName ruleName : String) : Option String :=
  match GoMap.get rule fieldName with
  | none => some ("rule " ++ ruleName ++ ": missing required field '" ++ fieldName ++ "'")
  | some _ => none

/-- The map `validActions` of `ValidatePolicyRules`. -/
def validActions : List (String × Bool) := [("accept", true), ("drop", true)]

/-- The map `validProtocols` of `ValidatePolicyRules`. -/
def validProtocols : List (String × Bool) :=
  [("tcp", true), ("udp", true), ("icmp", true), ("all", true)]

/-- The type switch of `validatePortRanges` on a bound: an `int` is taken as it is, a
`float64` is converted, anything else is no number. -/
def portNumber (outOfRange : Rat → Int) : GoValue → Option Int
  | .int v => some v
  | .float64 v => some (floatToInt outOfRange v)
  | _ => none

/-- The loop of Go `validatePortRanges`, from the entry of index `i` on. -/
def validatePortRangesFrom (outOfRange : Rat → Int) (ruleName : String) :
    Nat → List GoValue → Option String
  | _, [] => none
  | i, rangeItem :: rest =>
    match rangeItem with
    | .object rangeMap =>
      match GoMap.get rangeMap "start", GoMap.get rangeMap "end" with
      | some startVal, some endVal =>
        match portNumber outOfRange startVal with
        | none =>
          some ("rule " ++ ruleName ++ ": port_ranges[" ++ toString i ++
            "].start must be a number")
        | some start =>
          match portNumber outOfRange endVal with
          | none =>
            some ("rule " ++ ruleName ++ ": port_ranges[" ++ toString i ++
              "].end must be a number")
          | some stop =>
            if start > stop then
              some ("rule " ++ ruleName ++ ": port_ranges[" ++ toString i ++
                "] invalid: start (" ++ toString start ++ ") must be <= end (" ++
                toString stop ++ ")")
            else validatePortRangesFrom outOfRange ruleName (i + 1) rest
      | _, _ =>
        some ("rule " ++ ruleName ++ ": port_ranges[" ++ toString i ++
          "] must have 'start' and 'end' fields")
    | _ => some ("rule " ++ ruleName ++ ": port_ranges[" ++ toString i ++ "] must be an object")

/-- Go `validatePortRanges`. -/
def validatePortRanges (outOfRange : Rat → Int) (portRanges : GoValue) (ruleName : String) :
    Option String :=
  match portRanges with
  | .slice ranges => validatePortRangesFrom outOfRange ruleName 0 ranges
  | _ => some ("rule " ++ ruleName ++ ": port_ranges must be an array")

/-- The blocks of `ValidatePolicyRules` that compute `hasSource` and `hasDestination`: a
non-empty `[]interface{}` or `[]string` under `listKey`, or a non-null value under
`resourceKey`. -/
def hasEndpoint (rule : GoMap) (listKey resourceKey : String) : Bool :=
  let has :=
    match GoMap.get rule listKey with
    | some (.slice arr) => decide (arr.length > 0)
    | some (.strings arr) => decide (arr.length > 0)
    | _ => false
  match GoMap.get rule resourceKey with
  | none => has
  | some .nil => has
  | some _ => true

/-- The body of the loop of `ValidatePolicyRules` for the rule of index `i`: the error it
returns with, if any. -/
def validateRule (outOfRange : Rat → Int) (i : Nat) (rule : GoMap) : Option String :=
  let ruleName := getRuleIdentifier rule i
  match validateRequiredField rule "name" ruleName with
  | some err => some err
  | none =>
    match validateRequiredField rule "enabled" ruleName with
    | some err => some err
    | none =>
      match validateRequiredField rule "action" ruleName with
      | some err => some err
      | none =>
        match validateRequiredField rule "bidirectional" ruleName with
        | some err => some err
        | none =>
          match validateRequiredField rule "protocol" ruleName with
          | some err => some err
          | none =>
            match GoMap.get rule "action" with
            | some (.string action) =>
              if !(validActions.lookup action).getD false then
                some ("rule " ++ ruleName ++ ": invalid action '" ++ action ++
                  "', must be 'accept' or 'drop'")
              else
                match GoMap.get rule "protocol" with
                | some (.string protocol) =>
                  if !(validProtocols.lookup protocol).getD false then
                    some ("rule " ++ ruleName ++ ": invalid protocol '" ++ protocol ++
                      "', must be 'tcp', 'udp', 'icmp', or 'all'")
                  else
                    let portError :=
                      match GoMap.get rule "port_ranges" with
                      | none => none
                      | some .nil => none
                      | some portRanges => validatePortRanges outOfRange portRanges ruleName
                    match portError with
                    | some err => some err
                    | none =>
                      if !hasEndpoint rule "sources" "sourceResource" then
                        some ("rule " ++ ruleName ++
                          ": must have at least one source (sources or sourceResource)")
                      else if !hasEndpoint rule "destinations" "destinationResource" then
                        some ("rule " ++ ruleName ++
                          ": must have at least one destination (destinations or destinationResource)")
                      else none
                | _ => some ("rule " ++ ruleName ++ ": field 'protocol' must be a string")
            | _ => some ("rule " ++ ruleName ++ ": field 'action' must be a string")

/-- The loop of `ValidatePolicyRules`, from the rule of index `i` on. -/
def validateRulesFrom (outOfRange : Rat → Int) : Nat → List GoMap → Option String
  | _, [] => none
  | i, rule :: rest =>
    match validateRule outOfRange i rule with
    | some err => some err
    | none => validateRulesFrom outOfRange (i + 1) rest

/-- Go `ValidatePolicyRules` of `tools/policies.go`: `none` is the nil error. A nil batch is
`none`. -/
def ValidatePolicyRules (outOfRange : Rat → Int) (rules : Option (List GoMap)) :
    Option String :=
  match rules with
  | none => none
  | some rs => validateRulesFrom outOfRange 0 rs

/-! ## The validity of a rule in the words of the specification -/

/-- The required fields of a rule, in the order in which they are checked. -/
def requiredFields : List String := ["name", "enabled", "action", "bidirectional", "protocol"]

/-- The value is a non-empty array. -/
def NonEmptyArray (v : Option GoValue) : Prop :=
  (∃ x xs, v = some (GoValue.slice (x :: xs))) ∨ (∃ x xs, v = some (GoValue.strings (x :: xs)))

/-- The value is present and not null. -/
def NonNull (v : Option GoValue) : Prop :=
  ∃ w, v = some w ∧ w ≠ GoValue.nil

/-- A rule is valid, given what a valid entry of `port_ranges` is: it has the required keys,
a string action in accept, drop, a string protocol in tcp, udp, icmp, all, `port_ranges`
absent, null or an array of valid entries, a non-empty sources array or a non-null
`sourceResource`, and a non-empty destinations array or a non-null `destinationResource`. -/
def ValidRuleWith (rangeOK : GoValue → Prop) (rule : GoMap) : Prop :=
  (∀ f ∈ requiredFields, (GoMap.get rule f).isSome = true) ∧
  (∃ a, GoMap.get rule "action" = some (GoValue.string a) ∧ (a = "accept" ∨ a = "drop")) ∧
  (∃ p, GoMap.get rule "protocol" = some (GoValue.string p) ∧
    (p = "tcp" ∨ p = "udp" ∨ p = "icmp" ∨ p = "all")) ∧
  (GoMap.get rule "port_ranges" = none ∨ GoMap.get rule "port_ranges" = some GoValue.nil ∨
    ∃ entries, GoMap.get rule "port_ranges" = some (GoValue.slice entries) ∧
      ∀ e ∈ entries, rangeOK e) ∧
  (NonEmptyArray (GoMap.get rule "sources") ∨ NonNull (GoMap.get rule "sourceResource")) ∧
  (NonEmptyArray (GoMap.get rule "destinations") ∨
    NonNull (GoMap.get rule "destinationResource"))

/-- The number a bound of a port range stands for. -/
def numericValue : GoValue → Option Rat
  | .int v => some (v : Rat)
  | .float64 v => some v
  | _ => none

/-- An entry of `port_ranges` in the words of the specification: an object with numeric
`start` and `end` and `start <= end`. -/
def PortRangeAsWritten (entry : GoValue) : Prop :=
  ∃ m startVal endVal start stop, entry = GoValue.object m ∧
    GoMap.get m "start" = some startVal ∧ GoMap.get m "end" = some endVal ∧
    numericValue startVal = some start ∧ numericValue endVal = some stop ∧ start ≤ stop

/-- An entry of `port_ranges` with the bounds compared after their conversion to `int`: an
object with numeric `start` and `end` and `int(start) <= int(end)`. -/
def ValidPortRange (outOfRange : Rat → Int) (entry : GoValue) : Prop :=
  ∃ m startVal endVal start stop, entry = GoValue.object m ∧
    GoMap.get m "start" = some startVal ∧ GoMap.get m "end" = some endVal ∧
    portNumber outOfRange startVal = some start ∧ portNumber outOfRange endVal = some stop ∧
    start ≤ stop

/-- Validity of a rule in the words of the specification. -/
def ValidRuleAsWritten (rule : GoMap) : Prop :=
  ValidRuleWith PortRangeAsWritten rule

/-- Validity of a rule with the port bounds compared after conversion to `int`. -/
def ValidRule (outOfRange : Rat → Int) (rule : GoMap) : Prop :=
  ValidRuleWith (ValidPortRange outOfRange) rule

/-- The checks made on a rule. -/
inductive RuleCheck where
  | requiredFields
  | action
  | protocol
  | portRanges
  | source
  | destination
  deriving DecidableEq, Repr

/-- The checks in the order of the specification. -/
def checkOrder : List RuleCheck :=
  [.requiredFields, .action, .protocol, .portRanges, .source, .destination]

/-- The first of the fields that the rule lacks. -/
def firstMissing (rule : GoMap) : List String → Option String
  | [] => none
  | f :: rest => if (GoMap.get rule f).isSome then firstMissing rule rest else some f

/-- The error that one check reports on a rule identified as `ident`, taken by itself. -/
def checkError (outOfRange : Rat → Int) (ident : String) (rule : GoMap) :
    RuleCheck → Option String
  | .requiredFields =>
    (firstMissing rule requiredFields).map
      (fun f => "rule " ++ ident ++ ": missing required field '" ++ f ++ "'")
  | .action =>
    match GoMap.get rule "action" with
    | some (.string a) =>
      if a = "accept" ∨ a = "drop" then none
      else some ("rule " ++ ident ++ ": invalid action '" ++ a ++ "', must be 'accept' or 'drop'")
    | _ => some ("rule " ++ ident ++ ": field 'action' must be a string")
  | .protocol =>
    match GoMap.get rule "protocol" with
    | some (.string p) =>
      if p = "tcp" ∨ p = "udp" ∨ p = "icmp" ∨ p = "all" then none
      else some ("rule " ++ ident ++ ": invalid protocol '" ++ p ++
        "', must be 'tcp', 'udp', 'icmp', or 'all'")
    | _ => some ("rule " ++ ident ++ ": field 'protocol' must be a string")
  | .portRanges =>
    match GoMap.get rule "port_ranges" with
    | none => none
    | some .nil => none
    | some v => validatePortRanges outOfRange v ident
  | .source =>
    if hasEndpoint rule "sources" "sourceResource" then none
    else some ("rule " ++ ident ++ ": must have at least one source (sources or sourceResource)")
  | .destination =>
    if hasEndpoint rule "destinations" "destinationResource" then none
    else some ("rule " ++ ident ++
      ": must have at least one destination (destinations or destinationResource)")

/-- The error of the first check of the list that fails. -/
def firstFailure (outOfRange : Rat → Int) (ident : String) (rule : GoMap) :
    List RuleCheck → Option String
  | [] => none
  | c :: rest =>
    match checkError outOfRange ident rule c with
    | some err => some err
    | none => firstFailure outOfRange ident rule rest

/-- The identifier of a rule in the words of the specification: the quoted name when the
rule has a non-empty string name, else the index. -/
def ruleIdentifier (rule : GoMap) (index : Nat) : String :=
  match GoMap.get rule "name" with
  | some (.string name) => if name = "" then "[" ++ toString index ++ "]" else "'" ++ name ++ "'"
  | _ => "[" ++ toString index ++ "]"

/-- A `float64` that is a whole number within the range of `int`. -/
def WholeFloat (v : Rat) : Prop :=
  v.den = 1 ∧ -(2 ^ 63) ≤ v.num ∧ v.num < 2 ^ 63

/-- Every `float64` bound of a port range of the rule is a whole number within the range
of `int`. -/
def WholePorts (rule : GoMap) : Prop :=
  ∀ entries e m k v, GoMap.get rule "port_ranges" = some (GoValue.slice entries) →
    e ∈ entries → e = GoValue.object m → k = "start" ∨ k = "end" →
    GoMap.get m k = some (GoValue.float64 v) → WholeFloat v

/-- The `float64` 1.5. -/
def threeHalves : Rat := ⟨3, 2, by decide, by decide⟩

/-- The `float64` 1.25. -/
def fiveQuarters : Rat := ⟨5, 4, by decide, by decide⟩

/-- A rule that is valid but for its port range, whose start 1.5 exceeds its end 1.25. -/
def fractionalPortsRule : GoMap :=
  [("name", GoValue.string "web"), ("enabled", GoValue.bool true),
   ("action", GoValue.string "accept"), ("bidirectional", GoValue.bool false),
   ("protocol", GoValue.string "tcp"),
   ("port_ranges", GoValue.slice
      [GoValue.object [("start", GoValue.float64 threeHalves),
        ("end", GoValue.float64 fiveQuarters)]]),
   ("sources", GoValue.strings ["g1"]), ("destinations", GoValue.strings ["g2"])]

/-- A valid rule with the given name. -/
def validRuleMap (name : String) : GoMap :=
  [("name", GoValue.string name), ("enabled", GoValue.bool true),
   ("action", GoValue.string "accept"), ("bidirectional", GoValue.bool false),
   ("protocol", GoValue.string "tcp"),
   ("sources", GoValue.strings ["g1"]), ("destinations", GoValue.strings ["g2"])]

/-- A rule named `first` that has every required field and the action `allow`. -/
def badActionRule : GoMap :=
  [("name", GoValue.string "first"), ("enabled", GoValue.bool true),
   ("action", GoValue.string "allow"), ("bidirectional", GoValue.bool false),
   ("protocol", GoValue.string "tcp"),
   ("sources", GoValue.strings ["g1"]), ("destinations", GoValue.strings ["g2"])]

/-- A rule named `second` that lacks the field `protocol` and nothing else. -/
def noProtocolRule : GoMap :=
  [("name", GoValue.string "second"), ("enabled", GoValue.bool true),
   ("action", GoValue.string "accept"), ("bidirectional", GoValue.bool false),
   ("sources", GoValue.strings ["g1"]), ("destinations", GoValue.strings ["g2"])]

/-- A `float64` whose integer part is an `int` (64 bits). -/
def InIntRange (v : Rat) : Prop :=
  -(2 ^ 63) ≤ truncate v ∧ truncate v < 2 ^ 63

/-- Every `float64` bound of a port range of the rule has its integer part in the range of
`int`. -/
def BoundsInRange (rule : GoMap) : Prop :=
  ∀ entries e m k v, GoMap.get rule "port_ranges" = some (GoValue.slice entries) →
    e ∈ entries → e = GoValue.object m → k = "start" ∨ k = "end" →
    GoMap.get m k = some (GoValue.float64 v) → InIntRange v

/-- The `float64` 3.5. -/
def sevenHalves : Rat := ⟨7, 2, by decide, by decide⟩

/-- The `float64` 3.25. -/
def thirteenQuarters : Rat := ⟨13, 4, by decide, by decide⟩

/-- A valid rule with the given value under `port_ranges`. -/
def ruleWithPorts (name : String) (portRanges : GoValue) : GoMap :=
  [("name", GoValue.string name), ("enabled", GoValue.bool true),
   ("action", GoValue.string "accept"), ("bidirectional", GoValue.bool false),
   ("protocol", GoValue.string "tcp"), ("port_ranges", portRanges),
   ("sources", GoValue.strings ["g1"]), ("destinations", GoValue.strings ["g2"])]

/-- A port range entry. -/
def portEntry (start stop : GoValue) : GoValue :=
  GoValue.object [("start", start), ("end", stop)]

/-- A rule whose second port range has start 9 and end 3. -/
def descendingPortsRule : GoMap :=
  ruleWithPorts "web" (GoValue.slice
    [portEntry (GoValue.int 80) (GoValue.int 90), portEntry (GoValue.int 9) (GoValue.int 3)])

/-- A rule whose port range has start 3.25 and end 3.5. -/
def ascendingPortsRule : GoMap :=
  ruleWithPorts "web" (GoValue.slice
    [portEntry (GoValue.float64 thirteenQuarters) (GoValue.float64 sevenHalves)])

/-- A rule whose port range has start 3.5 and end 3.25. -/
def truncatedPortsRule : GoMap :=
  ruleWithPorts "web" (GoValue.slice
    [portEntry (GoValue.float64 sevenHalves) (GoValue.float64 thirteenQuarters)])

/-- The message begins with the text `start`. -/
def StartsWith (msg start : String) : Prop :=
  start.data <+: msg.data

instance (msg start : String) : Decidable (StartsWith msg start) :=
  inferInstanceAs (Decidable (start.data <+: msg.data))

/-- A rule with an empty name and no source. -/
def unnamedNoSourceRule : GoMap :=
  [("name", GoValue.string ""), ("enabled", GoValue.bool true),
   ("action", GoValue.string "accept"), ("bidirectional", GoValue.bool false),
   ("protocol", GoValue.string "udp"), ("sources", GoValue.slice []),
   ("destinations", GoValue.strings ["g2"])]

/-! ## `createNetbirdPolicy` and `updateNetbirdPolicy` -/

/-- Go struct `CreateNetbirdPolicyParams` of `tools/policies.go`. A pointer field is an
`Option`; a non-nil `Rules` pointer to a nil slice is not represented. -/
structure CreateNetbirdPolicyParams where
  Name : String
  Description : Option String
  Enabled : Option Bool
  Rules : Option (List NetbirdPolicyRule)
deriving DecidableEq, Repr

/-- Go struct `UpdateNetbirdPolicyParams` of `tools/policies.go`. -/
structure UpdateNetbirdPolicyParams where
  PolicyID : String
  Name : Option String
  Description : Option String
  Enabled : Option Bool
  Rules : Option (List NetbirdPolicyRule)
deriving DecidableEq, Repr

/-- A call of `createNetbirdPolicy` or `updateNetbirdPolicy` through the REST client, with
its path, its body and the decoded response. -/
inductive PolicyCall where
  | post (path : String) (body : GoValue) (resp : Except String NetbirdPolicy)
  | put (path : String) (body : GoValue) (resp : Except String NetbirdPolicy)

/-- The remote service as the two functions use it: `POST` and `PUT` return a decoded
policy or an error and move the service to a new state. -/
structure PolicyService (σ : Type) where
  post : String → GoValue → σ → Except String NetbirdPolicy × σ
  put : String → GoValue → σ → Except String NetbirdPolicy × σ

/-- The client of `createNetbirdPolicy` and `updateNetbirdPolicy` during one operation. -/
structure PolicyClient (σ : Type) where
  state : σ
  calls : List PolicyCall

/-- Call `client.Post(ctx, path, body, &policy)`. -/
def PolicyClient.post {σ : Type} (svc : PolicyService σ) (path : String) (body : GoValue)
    (c : PolicyClient σ) : Except String NetbirdPolicy × PolicyClient σ :=
  let r := svc.post path body c.state
  (r.1, { state := r.2, calls := c.calls ++ [PolicyCall.post path body r.1] })

/-- Call `client.Put(ctx, path, body, &policy)`. -/
def PolicyClient.put {σ : Type} (svc : PolicyService σ) (path : String) (body : GoValue)
    (c : PolicyClient σ) : Except String NetbirdPolicy × PolicyClient σ :=
  let r := svc.put path body c.state
  (r.1, { state := r.2, calls := c.calls ++ [PolicyCall.put path body r.1] })

/-- The loop of `createNetbirdPolicy` and of `updateNetbirdPolicy` that fills `rulesMap`,
from the rule of index `i` on: it returns at the first conversion that fails. -/
def policyRulesMap : Nat → List NetbirdPolicyRule → Except String (List GoMap)
  | _, [] => .ok []
  | i, rule :: rest =>
    match structToMap rule with
    | .error err => .error ("converting rule " ++ toString i ++ " to map: " ++ err)
    | .ok ruleMap =>
      match policyRulesMap (i + 1) rest with
      | .error err => .error err
      | .ok rulesMap => .ok (ruleMap :: rulesMap)

/-- The loop of `createNetbirdPolicy` and of `updateNetbirdPolicy` that fills
`formattedRules`, from the rule of index `i` on. -/
def formatRules : Nat → List GoMap → Except String (List GoMap)
  | _, [] => .ok []
  | i, rule :: rest =>
    match FormatRuleForAPI (some rule) with
    | .error err => .error ("formatting rule " ++ toString i ++ ": " ++ err)
    | .ok formatted =>
      match formatRules (i + 1) rest with
      | .error err => .error err
      | .ok formattedRules => .ok (formatted :: formattedRules)

/-- JSON image of a `NetbirdPolicyRule`. -/
def ruleToValue (rule : NetbirdPolicyRule) : GoValue :=
  match structToMap rule with
  | .ok ruleMap => .object ruleMap
  | .error _ => .nil

/-- The map `requestBody` that `createNetbirdPolicy` builds from the formatted rules. -/
def createRequestBody (args : CreateNetbirdPolicyParams) (formattedRules : List GoMap) :
    GoMap :=
  let requestBody : GoMap :=
    [("name", .string args.Name), ("rules", .slice (formattedRules.map GoValue.object))]
  let requestBody :=
    match args.Description with
    | some d => GoMap.set requestBody "description" (.string d)
    | none => requestBody
  match args.Enabled with
  | some e => GoMap.set requestBody "enabled" (.bool e)
  | none => requestBody

/-- JSON image of a `CreateNetbirdPolicyParams`, the body sent when no rule is given. -/
def createParamsToValue (args : CreateNetbirdPolicyParams) : GoValue :=
  .object ([("name", .string args.Name)]
    ++ omitEmpty "description" GoValue.string args.Description
    ++ omitEmpty "enabled" GoValue.bool args.Enabled
    ++ omitEmpty "rules" (fun rs => .slice (rs.map ruleToValue)) args.Rules)

/-- Go `createNetbirdPolicy` of `tools/policies.go`. -/
def createNetbirdPolicy {σ : Type} (svc : PolicyService σ) (outOfRange : Rat → Int)
    (args : CreateNetbirdPolicyParams) (c : PolicyClient σ) :
    Except String NetbirdPolicy × PolicyClient σ :=
  match args.Rules with
  | some (first :: others) =>
    match policyRulesMap 0 (first :: others) with
    | .error err => (.error err, c)
    | .ok rulesMap =>
      match ValidatePolicyRules outOfRange (some rulesMap) with
      | some err => (.error ("validation error: " ++ err), c)
      | none =>
        match formatRules 0 rulesMap with
        | .error err => (.error err, c)
        | .ok formattedRules =>
          PolicyClient.post svc "/policies" (.object (createRequestBody args formattedRules)) c
  | _ => PolicyClient.post svc "/policies" (createParamsToValue args) c

/-- The map `requestBody` that `updateNetbirdPolicy` builds from the formatted rules. -/
def updateRequestBody (args : UpdateNetbirdPolicyParams) (formattedRules : List GoMap) :
    GoMap :=
  let requestBody : GoMap := [("rules", .slice (formattedRules.map GoValue.object))]
  let requestBody :=
    match args.Name with
    | some n => GoMap.set requestBody "name" (.string n)
    | none => requestBody
  let requestBody :=
    match args.Description with
    | some d => GoMap.set requestBody "description" (.string d)
    | none => requestBody
  match args.Enabled with
  | some e => GoMap.set requestBody "enabled" (.bool e)
  | none => requestBody

/-- JSON image of an `UpdateNetbirdPolicyParams`, the body sent when no rule is given. -/
def updateParamsToValue (args : UpdateNetbirdPolicyParams) : GoValue :=
  .object ([("policy_id", .string args.PolicyID)]
    ++ omitEmpty "name" GoValue.string args.Name
    ++ omitEmpty "description" GoValue.string args.Description
    ++ omitEmpty "enabled" GoValue.bool args.Enabled
    ++ omitEmpty "rules" (fun rs => .slice (rs.map ruleToValue)) args.Rules)

/-- Go `updateNetbirdPolicy` of `tools/policies.go`. -/
def updateNetbirdPolicy {σ : Type} (svc : PolicyService σ) (outOfRange : Rat → Int)
    (args : UpdateNetbirdPolicyParams) (c : PolicyClient σ) :
    Except String NetbirdPolicy × PolicyClient σ :=
  match args.Rules with
  | some (first :: others) =>
    match policyRulesMap 0 (first :: others) with
    | .error err => (.error err, c)
    | .ok rulesMap =>
      match ValidatePolicyRules outOfRange (some rulesMap) with
      | some err => (.error ("validation error: " ++ err), c)
      | none =>
        match formatRules 0 rulesMap with
        | .error err => (.error err, c)
        | .ok formattedRules =>
          PolicyClient.put svc ("/policies/" ++ args.PolicyID)
            (.object (updateRequestBody args formattedRules)) c
  | _ => PolicyClient.put svc ("/policies/" ++ args.PolicyID) (updateParamsToValue args) c

/-- The `structToMap` image of a rule. -/
def ruleMapOf (rule : NetbirdPolicyRule) : GoMap :=
  match structToMap rule with
  | .ok ruleMap => ruleMap
  | .error _ => []

/-- A service that accepts every call and answers with an empty policy named after the
number of the call. -/
def acceptingService : PolicyService Nat :=
  { post := fun _ _ n => (.ok (examplePolicy ("policy-" ++ toString n) []), n + 1),
    put := fun _ _ n => (.ok (examplePolicy ("policy-" ++ toString n) []), n + 1) }

/-- The arguments of a creation with one rule from `g1` to `g2`. -/
def exampleCreateArgs : CreateNetbirdPolicyParams :=
  { Name := "web", Description := some "front", Enabled := none,
    Rules := some [exampleRule "r1" ["g1"] ["g2"] none] }

/-- The arguments of an update with one rule from `g1` to `g2`. -/
def exampleUpdateArgs : UpdateNetbirdPolicyParams :=
  { PolicyID := "p1", Name := none, Description := none, Enabled := some true,
    Rules := some [exampleRule "r1" ["g1"] ["g2"] none] }

/-- A rule from no group to `g2`: it has no source. -/
def sourcelessRule : NetbirdPolicyRule :=
  exampleRule "r1" [] ["g2"] none

/-! ## `deleteNetbirdGroup` -/

/-- Go struct `DeleteNetbirdGroupParams` of `tools/groups.go`. -/
structure DeleteNetbirdGroupParams where
  GroupID : String
  Force : Bool
deriving DecidableEq, Repr

/-- The loop of `deleteNetbirdGroup` that fills `policyIDs`: the policy ID of a reference is
appended when its policy name is not yet marked in `policyNames`, which then marks it.
`policyNames` lists the keys of the Go map of that name. -/
def dependentPolicyIDs : List PolicyReference → List String → List String → List String
  | [], policyIDs, _ => policyIDs
  | ref :: rest, policyIDs, policyNames =>
    if !decide (ref.PolicyName ∈ policyNames) then
      dependentPolicyIDs rest (policyIDs ++ [ref.PolicyID]) (policyNames ++ [ref.PolicyName])
    else dependentPolicyIDs rest policyIDs policyNames

/-- What `%v` prints for a `[]string`: the elements between brackets, separated by a
space. -/
def formatStrings (xs : List String) : String :=
  "[" ++ " ".intercalate xs ++ "]"

/-- The error of `deleteNetbirdGroup` when the group has dependencies. -/
def dependencyError (groupID : String) (policyIDs : List String) : String :=
  "cannot delete group '" ++ groupID ++ "': referenced by " ++ toString policyIDs.length ++
    " policies " ++ formatStrings policyIDs ++
    ". Use force=true to remove dependencies first"

/-- Go `deleteNetbirdGroup` of `tools/groups.go`. `DeleteGroupForce` returns a nil result
only together with an error, so the read of a nil result, a run-time panic in Go, is not
reached; the model gives it an error of its own. -/
def deleteNetbirdGroup {σ : Type} (gw : Gateway σ) (args : DeleteNetbirdGroupParams)
    (c : Client σ) : Except String GoMap × Client σ :=
  if args.Force then
    let out := DeleteGroupForce gw args.GroupID c
    match out.err, out.result with
    | some err, _ => (.error err, out.client)
    | none, some result =>
      (.ok [("status", .string "deleted"), ("group_id", .string args.GroupID),
          ("force", .bool true), ("policies_modified", .strings result.PoliciesModified),
          ("errors", .strings result.Errors)], out.client)
    | none, none => (.error "invalid memory address or nil pointer dereference", out.client)
  else
    match ListPoliciesByGroup gw args.GroupID c with
    | (.error err, c) => (.error ("checking dependencies: " ++ err), c)
    | (.ok references, c) =>
      if references.length > 0 then
        let policyIDs := dependentPolicyIDs references [] []
        (.error (dependencyError args.GroupID policyIDs), c)
      else
        match Client.deleteGroup gw args.GroupID c with
        | (some err, c) => (.error err, c)
        | (none, c) =>
          (.ok [("status", .string "deleted"), ("group_id", .string args.GroupID),
              ("force", .bool false)], c)

/-- Two policies with the same name that both have group `g` among their sources. -/
def sameNamePolicies : List NetbirdPolicy :=
  [{ Description := "", Enabled := true, ID := "p1", Name := "web",
     Rules := [exampleRule "rule-1" ["g"] ["x"] none] },
   { Description := "", Enabled := true, ID := "p2", Name := "web",
     Rules := [exampleRule "rule-2" ["g"] ["y"] none] }]

/-! ## Configuration (`mcpnetbird.go`) -/

/-- Go constant `defaultNetbirdHost`. -/
def defaultNetbirdHost : String := "api.netbird.io"

/-- Go struct `Config` of `mcpnetbird.go`. -/
structure Config where
  APIToken : String
  APIHost : String
deriving DecidableEq, Repr

/-- Go struct `ConfigLoader` of `mcpnetbird.go`. -/
structure ConfigLoader where
  cliToken : String
  cliHost : String
deriving DecidableEq, Repr

/-- What `os.Getenv` returns for `NETBIRD_API_TOKEN` and for `NETBIRD_HOST`: the empty
string for a variable that is not set. -/
structure Environment where
  token : String
  host : String
deriving DecidableEq, Repr

/-- Go `strings.HasPrefix`. -/
def HasPrefix (s start : String) : Bool :=
  start.data.isPrefixOf s.data

/-- Go `strings.TrimPrefix`: `s` without the leading `start`, or `s` when it does not begin
with it. -/
def TrimPrefix (s start : String) : String :=
  if HasPrefix s start then String.mk (s.data.drop start.data.length) else s

/-- Go `stripProtocolPrefix` of `mcpnetbird.go`. -/
def stripProtocolPrefix (host : String) : String :=
  if HasPrefix host "http://" then TrimPrefix host "http://"
  else if HasPrefix host "https://" then TrimPrefix host "https://"
  else host

/-- Go `(*ConfigLoader).LoadConfig` of `mcpnetbird.go`, with the environment it reads as an
argument. The second component is the error, always nil. -/
def LoadConfig (cl : ConfigLoader) (env : Environment) (httpToken httpHost : String) :
    Config × Option String :=
  let token :=
    if cl.cliToken ≠ "" then cl.cliToken
    else if httpToken ≠ "" then httpToken
    else env.token
  let host :=
    if cl.cliHost ≠ "" then stripProtocolPrefix cl.cliHost
    else if httpHost ≠ "" then stripProtocolPrefix httpHost
    else
      let envHost := env.host
      if envHost ≠ "" then stripProtocolPrefix envHost
      else defaultNetbirdHost
  ({ APIToken := token, APIHost := host }, none)

/-- Go `unicode.IsSpace` of the standard library, as documented: the Latin-1 spaces tab,
line feed, vertical tab, form feed, carriage return, space, U+0085 and U+00A0, and the
other characters with the Unicode property White_Space. -/
def isSpace (c : Char) : Bool :=
  let n := c.toNat
  (0x09 ≤ n && n ≤ 0x0d) || n == 0x20 || n == 0x85 || n == 0xa0 || n == 0x1680 ||
    (0x2000 ≤ n && n ≤ 0x200a) || n == 0x2028 || n == 0x2029 || n == 0x202f ||
    n == 0x205f || n == 0x3000

/-- Go `strings.TrimSpace`: the string without its leading and trailing white space. -/
def TrimSpace (s : String) : String :=
  String.mk ((s.data.dropWhile isSpace).reverse.dropWhile isSpace).reverse

/-- Go `strings.Contains`. -/
def Contains (s substr : String) : Bool :=
  decide (substr.data <:+: s.data)

/-- The slice `invalidChars` of `ValidateConfig`. -/
def invalidChars : List String :=
  ["<", ">", "\x22", "\x7b", "\x7d", "|", "\x5c", "^", "\x60"]

/-- The loop of `ValidateConfig` over `invalidChars`: the first of them that the host
contains. -/
def firstInvalidChar (host : String) : List String → Option String
  | [] => none
  | char :: rest => if Contains host char then some char else firstInvalidChar host rest

/-- The string `validHostChars` of `ValidateConfig`. -/
def validHostChars : String :=
  "abcdefghijklmnopqrstuvwxyzABCDEFGHIJKLMNOPQRSTUVWXYZ0123456789.-:/"

/-- Go `ValidateConfig` of `mcpnetbird.go`: `none` is the nil error. A Go string is a
sequence of bytes; the strings of the model are the valid UTF-8 ones. -/
def ValidateConfig (cfg : Config) : Option String :=
  if cfg.APIToken = "" then some "API token is required but not provided"
  else if TrimSpace cfg.APIToken = "" then
    some "API token cannot be empty or whitespace-only"
  else if cfg.APIHost = "" then some "API host is required but not provided"
  else if TrimSpace cfg.APIHost = "" then some "API host cannot be empty or whitespace-only"
  else if HasPrefix cfg.APIHost "http://" || HasPrefix cfg.APIHost "https://" then
    some ("API host '" ++ cfg.APIHost ++
      "' should not contain protocol prefix (http:// or https://)")
  else if Contains cfg.APIHost " " then
    some ("API host '" ++ cfg.APIHost ++ "' is not a valid URL format: contains spaces")
  else
    match firstInvalidChar cfg.APIHost invalidChars with
    | some char =>
      some ("API host '" ++ cfg.APIHost ++
        "' is not a valid URL format: contains invalid character '" ++ char ++ "'")
    | none =>
      let hasValidChar := cfg.APIHost.data.any (fun char => decide (char ∈ validHostChars.data))
      if !hasValidChar then
        some ("API host '" ++ cfg.APIHost ++
          "' is not a valid URL format: no valid hostname characters")
      else none

/-- The first non-empty string of a list, if there is one. -/
def firstNonEmpty : List String → Option String
  | [] => none
  | s :: rest => if s = "" then firstNonEmpty rest else some s

/-- The protocol-prefix check of `ValidateConfig`. -/
def HasProtocolPrefix (host : String) : Bool :=
  HasPrefix host "http://" || HasPrefix host "https://"

/-- The host begins with two protocol prefixes, one after the other. -/
def StackedPrefix (host : String) : Prop :=
  ∃ first second rest, (first = "http://" ∨ first = "https://") ∧
    (second = "http://" ∨ second = "https://") ∧ host = first ++ second ++ rest

/-- The string is empty or holds white space only. -/
def Blank (s : String) : Prop :=
  ∀ c ∈ s.data, isSpace c = true

instance (s : String) : Decidable (Blank s) :=
  inferInstanceAs (Decidable (∀ c ∈ s.data, isSpace c = true))

/-- The error of the protocol-prefix check of `ValidateConfig`. -/
def protocolPrefixError (host : String) : String :=
  "API host '" ++ host ++ "' should not contain protocol prefix (http:// or https://)"

/-- The characters that a host may not contain: `<`, `>`, the double quote, the two braces,
`|`, the backslash, `^` and the backquote. -/
def forbiddenHostChars : List Char :=
  "<>\x22\x7b\x7d|\x5c^\x60".data

/-- A letter (`a` to `z`, `A` to `Z`), a digit, a dot, a hyphen, a colon or a slash. -/
def isHostChar (c : Char) : Bool :=
  let n := c.toNat
  (97 ≤ n && n ≤ 122) || (65 ≤ n && n ≤ 90) || (48 ≤ n && n ≤ 57) ||
    n == 46 || n == 45 || n == 58 || n == 47

/-- A host that `ValidateConfig` is to reject, in the words of the specification: it is
empty or white space only, begins with `http://` or `https://`, contains a space, contains
a forbidden character, or contains no letter, digit, dot, hyphen, colon or slash. -/
def HostInvalid (host : String) : Prop :=
  Blank host ∨ StartsWith host "http://" ∨ StartsWith host "https://" ∨ ' ' ∈ host.data ∨
    (∃ c ∈ forbiddenHostChars, c ∈ host.data) ∨ (∀ c ∈ host.data, isHostChar c = false)

/-! ## `updateNetbirdNetworkRouter` (`tools/network_routers.go`) -/

/-- Go struct `NetbirdNetworkRouter` of `tools/network_routers.go`. -/
structure NetbirdNetworkRouter where
  ID : String
  Peer : Option String
  PeerGroups : Option (List String)
  Metric : Int
  Masquerade : Bool
  Enabled : Bool
deriving DecidableEq, Repr

/-- Go struct `UpdateNetbirdNetworkRouterParams` of `tools/network_routers.go`. A pointer
field is an `Option`; a non-nil `PeerGroups` pointer to a nil slice is not represented. -/
structure UpdateNetbirdNetworkRouterParams where
  NetworkID : String
  RouterID : String
  Peer : Option String
  PeerGroups : Option (List String)
  Metric : Option Int
  Masquerade : Option Bool
  Enabled : Option Bool
deriving DecidableEq, Repr

/-- A `PUT` made by `updateNetbirdNetworkRouter`, with its path, its body and the decoded
response. -/
structure RouterCall where
  path : String
  body : GoValue
  resp : Except String NetbirdNetworkRouter

/-- The remote service as `updateNetbirdNetworkRouter` uses it. -/
structure RouterService (σ : Type) where
  put : String → GoValue → σ → Except String NetbirdNetworkRouter × σ

/-- The client of `updateNetbirdNetworkRouter` during one operation. -/
structure RouterClient (σ : Type) where
  state : σ
  calls : List RouterCall

/-- Call `client.Put(ctx, path, body, &router)`. -/
def RouterClient.put {σ : Type} (svc : RouterService σ) (path : String) (body : GoValue)
    (c : RouterClient σ) : Except String NetbirdNetworkRouter × RouterClient σ :=
  let r := svc.put path body c.state
  (r.1, { state := r.2, calls := c.calls ++ [{ path := path, body := body, resp := r.1 }] })

/-- The map `requestBody` that `updateNetbirdNetworkRouter` builds. -/
def routerRequestBody (args : UpdateNetbirdNetworkRouterParams) : GoMap :=
  let requestBody : GoMap := []
  let requestBody :=
    match args.Peer with
    | some peer => GoMap.set requestBody "peer" (.string peer)
    | none => requestBody
  let requestBody :=
    match args.PeerGroups with
    | some peerGroups => GoMap.set requestBody "peer_groups" (.strings peerGroups)
    | none => requestBody
  let requestBody :=
    match args.Metric with
    | some metric => GoMap.set requestBody "metric" (.int metric)
    | none => requestBody
  let requestBody :=
    match args.Masquerade with
    | some masquerade => GoMap.set requestBody "masquerade" (.bool masquerade)
    | none => requestBody
  match args.Enabled with
  | some enabled => GoMap.set requestBody "enabled" (.bool enabled)
  | none => requestBody

/-- Go `updateNetbirdNetworkRouter` of `tools/network_routers.go`. -/
def updateNetbirdNetworkRouter {σ : Type} (svc : RouterService σ)
    (args : UpdateNetbirdNetworkRouterParams) (c : RouterClient σ) :
    Except String NetbirdNetworkRouter × RouterClient σ :=
  RouterClient.put svc ("/networks/" ++ args.NetworkID ++ "/routers/" ++ args.RouterID)
    (.object (routerRequestBody args)) c

/-- The keys that the body of a router update can hold. -/
def routerBodyKeys : List String :=
  ["peer", "peer_groups", "metric", "masquerade", "enabled"]

/-- A service that answers every update with the same router. -/
def echoRouterService : RouterService Nat :=
  { put := fun _ _ n =>
      (.ok { ID := "router-1", Peer := none, PeerGroups := none, Metric := 100,
             Masquerade := false, Enabled := true }, n + 1) }

/-- A partial update: the metric, set to zero, and the status. -/
def partialRouterUpdate : UpdateNetbirdNetworkRouterParams :=
  { NetworkID := "net-1", RouterID := "router-1", Peer := none, PeerGroups := none,
    Metric := some 0, Masquerade := none, Enabled := some false }

/-- A rule whose authorized groups have both `old` and `new` as keys. -/
def bothKeysRule : NetbirdPolicyRule :=
  exampleRule "rule-1" ["x"] ["y"]
    (some [("old", some ["u1", "u2"]), ("other", some ["u3"]), ("new", some ["u4"])])

/-- A rule from `g1` to `g2` with one port range. -/
def ruleWithPortRange (start stop : Int) : NetbirdPolicyRule :=
  { exampleRule "r1" ["g1"] ["g2"] none with
    PortRanges := some [{ Start := start, End := stop }] }

/-- The body sent for `replacePolicyA` when `old` is replaced by `new`, written out. -/
def replacedBodyA : GoValue :=
  .object [("name", .string "policy-a"), ("description", .string ""),
    ("enabled", .bool true),
    ("rules", .slice [
      .object [("action", .string "accept"), ("bidirectional", .bool false),
        ("description", .string ""), ("destinations", .strings ["y"]),
        ("enabled", .bool true), ("id", .string "rule-1"), ("name", .string "rule-1"),
        ("protocol", .string "tcp"), ("sources", .strings ["new", "x", "new"]),
        ("authorized_groups", .object [("other", .slice [.string "u3"]),
          ("new", .slice [.string "u1", .string "u2"])])],
      .object [("action", .string "accept"), ("bidirectional", .bool false),
        ("description", .string ""), ("destinations", .strings ["new"]),
        ("enabled", .bool true), ("id", .string "rule-2"), ("name", .string "rule-2"),
        ("protocol", .string "tcp"), ("sources", .strings ["x"])]])]

/-! # Theorems -/

/-! ## `ListPoliciesByGroup` returns the references of the specification -/

theorem appendAtFirstID_eq (groupID : String) (ref : PolicyReference)
    (groups : List NetbirdPeerGroup) (references : List PolicyReference) :
    appendAtFirstID groupID ref groups references =
      references ++ (if groups.any (fun g => decide (g.ID = groupID)) then [ref] else []) := by
  induction groups with
  | nil => simp [appendAtFirstID]
  | cons g rest ih =>
    by_cases h : g.ID = groupID
    · simp [appendAtFirstID, h]
    · simp [appendAtFirstID, h, ih]

theorem appendAtFirstKey_eq (groupID : String) (ref : PolicyReference)
    (m : List (String × Option (List String))) (references : List PolicyReference) :
    appendAtFirstKey groupID ref m references =
      references ++ (if m.any (fun kv => decide (kv.1 = groupID)) then [ref] else []) := by
  induction m with
  | nil => simp [appendAtFirstKey]
  | cons kv rest ih =>
    by_cases h : kv.1 = groupID
    · simp [appendAtFirstKey, h]
    · rw [appendAtFirstKey, if_neg h, ih, List.any_cons, decide_eq_false h, Bool.false_or]

theorem scanRule_eq (groupID : String) (policy : NetbirdPolicy) (rule : NetbirdPolicyRule)
    (references : List PolicyReference) :
    scanRule groupID policy rule references =
      references ++ ruleReferences groupID policy rule := by
  unfold scanRule ruleReferences hasAuthorizedKey hasGroupID referenceAt
  cases hag : rule.AuthorizedGroups with
  | none => simp [appendAtFirstID_eq]
  | some ag => simp [appendAtFirstID_eq, appendAtFirstKey_eq]

theorem scanRules_eq (groupID : String) (policy : NetbirdPolicy)
    (rules : List NetbirdPolicyRule) (references : List PolicyReference) :
    rules.foldl (fun references rule => scanRule groupID policy rule references) references =
      references ++ (rules.map (ruleReferences groupID policy)).flatten := by
  induction rules generalizing references with
  | nil => simp
  | cons rule rest ih =>
    rw [List.foldl_cons, scanRule_eq, ih]
    simp

theorem scanPoliciesFrom_eq (groupID : String) (policies : List NetbirdPolicy)
    (references : List PolicyReference) :
    policies.foldl
      (fun references policy =>
        policy.Rules.foldl (fun references rule => scanRule groupID policy rule references)
          references)
      references = references ++ expectedReferences groupID policies := by
  induction policies generalizing references with
  | nil => simp [expectedReferences]
  | cons policy rest ih =>
    rw [List.foldl_cons, scanRules_eq, ih]
    simp [expectedReferences]

theorem scanPolicies_eq (groupID : String) (policies : List NetbirdPolicy) :
    scanPolicies groupID policies = expectedReferences groupID policies := by
  unfold scanPolicies
  rw [scanPoliciesFrom_eq]
  simp

theorem ruleReferences_length (groupID : String) (policy : NetbirdPolicy)
    (rule : NetbirdPolicyRule) :
    (ruleReferences groupID policy rule).length = locationCount groupID rule := by
  unfold ruleReferences locationCount
  split <;> split <;> split <;> simp

theorem expectedReferences_length (groupID : String) (policies : List NetbirdPolicy) :
    (expectedReferences groupID policies).length =
      (policies.map (fun policy => (policy.Rules.map (locationCount groupID)).sum)).sum := by
  unfold expectedReferences
  induction policies with
  | nil => simp
  | cons policy rest ih =>
    simp only [List.map_cons, List.flatten_cons, List.length_append, ih, List.sum_cons]
    congr 1
    induction policy.Rules with
    | nil => simp
    | cons rule rules ihr =>
      simp only [List.map_cons, List.flatten_cons, List.length_append, List.sum_cons, ihr,
        ruleReferences_length]

/-- C1: when the listing `GET /policies` succeeds with `policies`, `ListPoliciesByGroup`
returns exactly the references of the listed policies in order, of the rules of each in
order, and per rule one for `sources`, one for `destinations` and one for
`authorized_groups` where the group occurs; its length is the number of rule locations
that contain the group, so repeated occurrences in one list count once. -/
theorem C1_listPoliciesByGroup_exact {σ : Type} (gw : Gateway σ) (groupID : String)
    (c : Client σ) (policies : List NetbirdPolicy)
    (hlist : (gw.getPolicies c.state).1 = Except.ok policies) :
    (ListPoliciesByGroup gw groupID c).1 = Except.ok (expectedReferences groupID policies) ∧
    (expectedReferences groupID policies).length =
      (policies.map (fun policy => (policy.Rules.map (locationCount groupID)).sum)).sum := by
  refine ⟨?_, expectedReferences_length groupID policies⟩
  unfold ListPoliciesByGroup Client.getPolicies
  simp only [hlist, scanPolicies_eq]

/-! ## Formatting a rule taken from a struct never fails -/

theorem convertItems_peerGroups (fieldName : String) (gs : List NetbirdPeerGroup) (i : Nat)
    (result : List String) :
    convertItems fieldName i (gs.map peerGroupToValue) result =
      .ok (result ++ gs.map (fun g => g.ID)) := by
  induction gs generalizing i result with
  | nil => simp [convertItems]
  | cons g rest ih =>
    have hstep : convertItems fieldName i (peerGroupToValue g :: rest.map peerGroupToValue)
        result = convertItems fieldName (i + 1) (rest.map peerGroupToValue)
          (result ++ [g.ID]) := by
      simp [convertItems, peerGroupToValue, GoMap.get]
    rw [List.map_cons, hstep, ih]
    simp

theorem format_structToMap (rule : NetbirdPolicyRule) :
    ∃ ruleMap, structToMap rule = .ok ruleMap ∧
      FormatRuleForAPI (some ruleMap) = .ok (sentRule rule) := by
  refine ⟨_, rfl, ?_⟩
  obtain ⟨a, b, d, dst, e, i, n, p, src, pr, ag, sr, dr⟩ := rule
  cases dst <;> cases src <;>
    simp [FormatRuleForAPI, sentRule, GoMap.get, GoMap.set, peerGroupsToValue, idsValue,
      convertToStringArray, convertItems_peerGroups]

theorem forceRulesMap_eq (policyID : String) (rules : List NetbirdPolicyRule)
    (errors : List String) :
    forceRulesMap policyID rules errors = (rules.map (fun r => some (sentRule r)), errors) := by
  induction rules generalizing errors with
  | nil => rfl
  | cons rule rest ih =>
    obtain ⟨ruleMap, h1, h2⟩ := format_structToMap rule
    simp [forceRulesMap, h1, h2, ih]

/-! ## The main loop of `DeleteGroupForce` is a sequence of visits -/

theorem forceState_after_nil {σ : Type} (groupID : String) (st : ForceState σ) :
    ForceState.after groupID st [] st.client.state = st := by
  obtain ⟨⟨s, t⟩, ⟨g, pm, d, e⟩, pp, pd⟩ := st
  simp [ForceState.after]

theorem forceState_after_after {σ : Type} (groupID : String) (st : ForceState σ)
    (v : Visit) (vs : List Visit) (s1 s2 : σ) :
    ForceState.after groupID (ForceState.after groupID st [v] s1) vs s2 =
      ForceState.after groupID st (v :: vs) s2 := by
  have hcons : v :: vs = [v] ++ vs := rfl
  rw [hcons]
  simp only [ForceState.after, List.filterMap_append, List.map_append, List.flatten_append,
    List.append_assoc]

theorem forceStep_new {σ : Type} (gw : Gateway σ) (groupID : String) (st : ForceState σ)
    (ref : PolicyReference) (hnew : ref.PolicyID ∉ st.processedPolicies) :
    ∃ v state, v.policyID = ref.PolicyID ∧ v.consistent groupID ∧
      forceStep gw groupID st ref = ForceState.after groupID st [v] state := by
  unfold forceStep
  rw [if_neg hnew]
  simp only [Client.getPolicy]
  generalize gw.getPolicy ref.PolicyID st.client.state = fetched
  obtain ⟨resp, s1⟩ := fetched
  cases resp with
  | error err =>
    refine ⟨.fetchFailed ref.PolicyID err, s1, rfl, trivial, ?_⟩
    simp [ForceState.after, Visit.events, Visit.modified, Visit.error, Visit.toDelete,
      Visit.policyID]
  | ok policy =>
    by_cases hempty : (validRulesFrom groupID policy.Rules []).length = 0
    · refine ⟨.emptied ref.PolicyID policy, s1, rfl, ?_, ?_⟩
      · simpa [Visit.consistent] using hempty
      · simp [hempty, ForceState.after, Visit.events, Visit.modified, Visit.error,
          Visit.toDelete, Visit.policyID]
    · have hne : validRulesFrom groupID policy.Rules [] ≠ [] := by
        simpa using hempty
      simp only [hempty, if_false, forceRulesMap_eq, Client.putPolicy]
      have hbody : updateBody { policy with Rules := validRulesFrom groupID policy.Rules [] }
          ((validRulesFrom groupID policy.Rules []).map (fun r => some (sentRule r))) =
          forceBody groupID policy := rfl
      rw [hbody]
      generalize gw.putPolicy ref.PolicyID (forceBody groupID policy) s1 = sent
      obtain ⟨outcome, s2⟩ := sent
      cases outcome with
      | some err =>
        refine ⟨.updateFailed ref.PolicyID policy err, s2, rfl, hne, ?_⟩
        simp [ForceState.after, Visit.events, Visit.modified, Visit.error,
          Visit.toDelete, Visit.policyID]
      | none =>
        refine ⟨.updated ref.PolicyID policy, s2, rfl, hne, ?_⟩
        simp [ForceState.after, Visit.events, Visit.modified, Visit.error,
          Visit.toDelete, Visit.policyID]

theorem forceLoop_visits {σ : Type} (gw : Gateway σ) (groupID : String)
    (refs : List PolicyReference) (st : ForceState σ) :
    ∃ visits state,
      visits.map Visit.policyID =
        firstOccurrences st.processedPolicies (refs.map (fun r => r.PolicyID)) ∧
      (∀ v ∈ visits, v.consistent groupID) ∧
      refs.foldl (forceStep gw groupID) st = ForceState.after groupID st visits state := by
  induction refs generalizing st with
  | nil => exact ⟨[], st.client.state, rfl, by simp, (forceState_after_nil groupID st).symm⟩
  | cons ref rest ih =>
    by_cases hseen : ref.PolicyID ∈ st.processedPolicies
    · obtain ⟨visits, state, hids, hcons, hrun⟩ := ih st
      refine ⟨visits, state, ?_, hcons, ?_⟩
      · simp only [List.map_cons, firstOccurrences, if_pos hseen, hids]
      · have hstep : forceStep gw groupID st ref = st := by
          unfold forceStep
          rw [if_pos hseen]
        rw [List.foldl_cons, hstep, hrun]
    · obtain ⟨v, s1, hid, hv, hstep⟩ := forceStep_new gw groupID st ref hseen
      obtain ⟨visits, state, hids, hcons, hrun⟩ := ih (ForceState.after groupID st [v] s1)
      refine ⟨v :: visits, state, ?_, ?_, ?_⟩
      · simp only [List.map_cons, firstOccurrences, if_neg hseen, hids, hid]
        simp [ForceState.after, hid]
      · intro w hw
        rcases List.mem_cons.mp hw with h | h
        · exact h ▸ hv
        · exact hcons w h
      · rw [List.foldl_cons, hstep, hrun, forceState_after_after]

theorem deleteEmptyPolicies_spec {σ : Type} (gw : Gateway σ) (ids : List String)
    (client : Client σ) (errors : List String) :
    ∃ outcomes : List (Option String), outcomes.length = ids.length ∧
      (deleteEmptyPolicies gw ids (client, errors)).1.trace =
        client.trace ++ List.zipWith Event.deletePolicy ids outcomes ∧
      (deleteEmptyPolicies gw ids (client, errors)).2 =
        errors ++ (List.zipWith deleteError ids outcomes).filterMap (fun e => e) := by
  induction ids generalizing client errors with
  | nil => exact ⟨[], rfl, by simp [deleteEmptyPolicies], by simp [deleteEmptyPolicies]⟩
  | cons policyID rest ih =>
    unfold deleteEmptyPolicies
    simp only [Client.deletePolicy]
    generalize gw.deletePolicy policyID client.state = r
    obtain ⟨outcome, s1⟩ := r
    cases outcome with
    | some err =>
      obtain ⟨outcomes, hlen, htrace, herrs⟩ := ih
        { state := s1, trace := client.trace ++ [Event.deletePolicy policyID (some err)] }
        (errors ++ ["policy " ++ policyID ++ ": deleting: " ++ err])
      refine ⟨some err :: outcomes, by simp [hlen], ?_, ?_⟩
      · simp only [htrace]
        simp
      · simp only [herrs]
        simp [deleteError]
    | none =>
      obtain ⟨outcomes, hlen, htrace, herrs⟩ := ih
        { state := s1, trace := client.trace ++ [Event.deletePolicy policyID none] } errors
      refine ⟨none :: outcomes, by simp [hlen], ?_, ?_⟩
      · simp only [htrace]
        simp
      · simp only [herrs]
        simp [deleteError]

/-- Full description of a run of `DeleteGroupForce` whose listing succeeds. -/
theorem DeleteGroupForce_run {σ : Type} (gw : Gateway σ) (groupID : String) (c : Client σ)
    (policies : List NetbirdPolicy)
    (hlist : (gw.getPolicies c.state).1 = Except.ok policies) :
    ∃ (visits : List Visit) (outcomes : List (Option String)) (gerr : Option String),
      visits.map Visit.policyID =
        firstOccurrences [] ((expectedReferences groupID policies).map (fun r => r.PolicyID)) ∧
      (∀ v ∈ visits, v.consistent groupID) ∧
      outcomes.length = (visits.filterMap Visit.toDelete).length ∧
      (DeleteGroupForce gw groupID c).client.trace =
        c.trace ++ [Event.getPolicies (.ok policies)] ++
          (visits.map (Visit.events groupID)).flatten ++
          List.zipWith Event.deletePolicy (visits.filterMap Visit.toDelete) outcomes ++
          [Event.deleteGroup groupID gerr] ∧
      (DeleteGroupForce gw groupID c).result = some
        { GroupID := groupID
          PoliciesModified := visits.filterMap Visit.modified
          Deleted := gerr.isNone
          Errors := visits.filterMap Visit.error ++
            (List.zipWith deleteError (visits.filterMap Visit.toDelete) outcomes).filterMap (fun e => e) ++
            groupDeleteErrors gerr } ∧
      (DeleteGroupForce gw groupID c).err = gerr.map (fun err => "deleting group: " ++ err) := by
  unfold DeleteGroupForce ListPoliciesByGroup Client.getPolicies
  simp only [hlist, scanPolicies_eq]
  obtain ⟨visits, state, hids, hcons, hrun⟩ :=
    forceLoop_visits gw groupID (expectedReferences groupID policies)
      { client := { state := (gw.getPolicies c.state).2,
                    trace := c.trace ++ [Event.getPolicies (.ok policies)] }
        result := { GroupID := groupID, PoliciesModified := [], Deleted := false, Errors := [] }
        processedPolicies := []
        policiesToDelete := [] }
  rw [hrun]
  simp only [ForceState.after, List.nil_append]
  obtain ⟨outcomes, hlen, htrace, herrs⟩ := deleteEmptyPolicies_spec gw
    (visits.filterMap Visit.toDelete)
    { state := state
      trace := c.trace ++ [Event.getPolicies (.ok policies)] ++
        (visits.map (Visit.events groupID)).flatten }
    (visits.filterMap Visit.error)
  generalize deleteEmptyPolicies gw (visits.filterMap Visit.toDelete)
    ({ state := state
       trace := c.trace ++ [Event.getPolicies (.ok policies)] ++
         (visits.map (Visit.events groupID)).flatten }, visits.filterMap Visit.error)
    = dres at htrace herrs ⊢
  obtain ⟨⟨s2, t2⟩, errs2⟩ := dres
  simp only at htrace herrs
  subst htrace herrs
  simp only [Client.deleteGroup]
  generalize gw.deleteGroup groupID s2 = fin
  obtain ⟨gerr, s3⟩ := fin
  refine ⟨visits, outcomes, gerr, hids, hcons, hlen, ?_⟩
  cases gerr with
  | some err => simp [groupDeleteErrors]
  | none => simp [groupDeleteErrors]

/-- A run of `DeleteGroupForce` whose listing fails makes that single call and returns a
nil result with an error. -/
theorem DeleteGroupForce_listFailed {σ : Type} (gw : Gateway σ) (groupID : String)
    (c : Client σ) (e : String) (hlist : (gw.getPolicies c.state).1 = Except.error e) :
    (DeleteGroupForce gw groupID c).result = none ∧
    (DeleteGroupForce gw groupID c).err =
      some ("finding policies with group " ++ groupID ++ ": " ++ ("fetching policies: " ++ e)) ∧
    (DeleteGroupForce gw groupID c).client.trace = c.trace ++ [Event.getPolicies (.error e)] := by
  unfold DeleteGroupForce ListPoliciesByGroup Client.getPolicies
  simp [hlist]

/-! ## The rules `DeleteGroupForce` keeps -/

theorem hasSourceAndDestination_strip (groupID : String) (rule : NetbirdPolicyRule) :
    hasSourceAndDestination (stripRule groupID rule) = keepsRule groupID rule := by
  simp only [hasSourceAndDestination, stripRule, removeGroup, elems, keepsRule,
    List.length_pos, gt_iff_lt]

theorem validRulesFrom_eq (groupID : String) (rules validRules : List NetbirdPolicyRule) :
    validRulesFrom groupID rules validRules =
      validRules ++ (rules.filter (keepsRule groupID)).map (stripRule groupID) := by
  induction rules generalizing validRules with
  | nil => simp [validRulesFrom]
  | cons rule rest ih =>
    unfold validRulesFrom
    simp only [hasSourceAndDestination_strip]
    by_cases hk : keepsRule groupID rule = true
    · simp [hk, ih]
    · simp [hk, ih]

/-! ## Reading events off the trace of `DeleteGroupForce` -/

theorem mem_zipWith_elim {α β γ : Type} (f : α → β → γ) (c : γ) (l1 : List α) (l2 : List β)
    (h : c ∈ List.zipWith f l1 l2) : ∃ a ∈ l1, ∃ b ∈ l2, c = f a b := by
  induction l1 generalizing l2 with
  | nil => simp at h
  | cons a l1 ih =>
    cases l2 with
    | nil => simp at h
    | cons b l2 =>
      simp only [List.zipWith_cons_cons, List.mem_cons] at h
      rcases h with h | h
      · exact ⟨a, List.mem_cons_self _ _, b, List.mem_cons_self _ _, h⟩
      · obtain ⟨a', ha, b', hb, hc⟩ := ih l2 h
        exact ⟨a', List.mem_cons_of_mem _ ha, b', List.mem_cons_of_mem _ hb, hc⟩

theorem mem_zipWith_intro {α β γ : Type} (f : α → β → γ) (a : α) (l1 : List α) (l2 : List β)
    (hlen : l2.length = l1.length) (ha : a ∈ l1) : ∃ b, f a b ∈ List.zipWith f l1 l2 := by
  induction l1 generalizing l2 with
  | nil => simp at ha
  | cons a' l1 ih =>
    cases l2 with
    | nil => simp at hlen
    | cons b l2 =>
      rcases List.mem_cons.mp ha with h | h
      · exact ⟨b, by simp [h]⟩
      · obtain ⟨b', hb⟩ := ih l2 (by simpa using hlen) h
        exact ⟨b', by simp [hb]⟩

theorem visit_of_put (groupID : String) (v : Visit) (id : String) (body : GoValue)
    (outcome : Option String) (h : Event.putPolicy id body outcome ∈ v.events groupID) :
    v.policyID = id ∧ ∃ policy, body = forceBody groupID policy ∧
      Event.getPolicy id (.ok policy) ∈ v.events groupID ∧
      ((∃ err, v = .updateFailed id policy err ∧ outcome = some err) ∨
        (v = .updated id policy ∧ outcome = none)) := by
  cases v with
  | fetchFailed i e => simp [Visit.events] at h
  | emptied i p => simp [Visit.events] at h
  | updateFailed i p e =>
    simp only [Visit.events, List.mem_cons, List.mem_singleton, Event.putPolicy.injEq,
      List.not_mem_nil, or_false, false_or, reduceCtorEq] at h
    obtain ⟨h1, h2, h3⟩ := h
    subst h1 h2 h3
    exact ⟨rfl, p, rfl, by simp [Visit.events], Or.inl ⟨e, rfl, rfl⟩⟩
  | updated i p =>
    simp only [Visit.events, List.mem_cons, List.mem_singleton, Event.putPolicy.injEq,
      List.not_mem_nil, or_false, false_or, reduceCtorEq] at h
    obtain ⟨h1, h2, h3⟩ := h
    subst h1 h2 h3
    exact ⟨rfl, p, rfl, by simp [Visit.events], Or.inr ⟨rfl, rfl⟩⟩

theorem Visit.of_get_ok (groupID : String) (v : Visit) (id : String) (policy : NetbirdPolicy)
    (h : Event.getPolicy id (.ok policy) ∈ v.events groupID) :
    v = .emptied id policy ∨ (∃ err, v = .updateFailed id policy err) ∨
      v = .updated id policy := by
  cases v with
  | fetchFailed i e => simp [Visit.events] at h
  | emptied i p =>
    simp only [Visit.events, List.mem_singleton, Event.getPolicy.injEq, Except.ok.injEq] at h
    obtain ⟨h1, h2⟩ := h
    subst h1 h2
    exact Or.inl rfl
  | updateFailed i p e =>
    simp only [Visit.events, List.mem_cons, List.mem_singleton, Event.getPolicy.injEq,
      Except.ok.injEq, List.not_mem_nil, or_false, reduceCtorEq] at h
    obtain ⟨h1, h2⟩ := h
    subst h1 h2
    exact Or.inr (Or.inl ⟨e, rfl⟩)
  | updated i p =>
    simp only [Visit.events, List.mem_cons, List.mem_singleton, Event.getPolicy.injEq,
      Except.ok.injEq, List.not_mem_nil, or_false, reduceCtorEq] at h
    obtain ⟨h1, h2⟩ := h
    subst h1 h2
    exact Or.inr (Or.inr rfl)

theorem Visit.no_getPolicies (groupID : String) (v : Visit)
    (resp : Except String (List NetbirdPolicy)) :
    Event.getPolicies resp ∉ v.events groupID := by
  cases v <;> simp [Visit.events]

theorem Visit.no_deletePolicy (groupID : String) (v : Visit) (id : String)
    (outcome : Option String) : Event.deletePolicy id outcome ∉ v.events groupID := by
  cases v <;> simp [Visit.events]

theorem Visit.no_deleteGroup (groupID : String) (v : Visit) (id : String)
    (outcome : Option String) : Event.deleteGroup id outcome ∉ v.events groupID := by
  cases v <;> simp [Visit.events]

/-- The parts of the trace of a run: the listing, the calls of the visits, the policy
deletions and the group deletion. -/
theorem mem_run_trace (groupID : String) (policies : List NetbirdPolicy) (visits : List Visit)
    (dels : List String) (outcomes : List (Option String)) (gerr : Option String)
    (ev : Event) :
    ev ∈ ([] : List Event) ++ [Event.getPolicies (.ok policies)] ++
        (visits.map (Visit.events groupID)).flatten ++
        List.zipWith Event.deletePolicy dels outcomes ++ [Event.deleteGroup groupID gerr] ↔
      ev = Event.getPolicies (.ok policies) ∨ (∃ v ∈ visits, ev ∈ v.events groupID) ∨
        ev ∈ List.zipWith Event.deletePolicy dels outcomes ∨
        ev = Event.deleteGroup groupID gerr := by
  simp only [List.nil_append, List.mem_append, List.mem_singleton, List.mem_flatten,
    List.mem_map, or_assoc]
  constructor
  · rintro (h | ⟨l, ⟨v, hv, rfl⟩, h⟩ | h | h)
    · exact Or.inl h
    · exact Or.inr (Or.inl ⟨v, hv, h⟩)
    · exact Or.inr (Or.inr (Or.inl h))
    · exact Or.inr (Or.inr (Or.inr h))
  · rintro (h | ⟨v, hv, h⟩ | h | h)
    · exact Or.inl h
    · exact Or.inr (Or.inl ⟨_, ⟨v, hv, rfl⟩, h⟩)
    · exact Or.inr (Or.inr (Or.inl h))
    · exact Or.inr (Or.inr (Or.inr h))

/-- Every `PUT` of a run of `DeleteGroupForce` follows a successful fetch of the same policy
and carries the body built from the fetched policy, which keeps some rule. -/
theorem force_put_origin {σ : Type} (gw : Gateway σ) (groupID : String) (s : σ)
    (id : String) (body : GoValue) (outcome : Option String)
    (hput : Event.putPolicy id body outcome ∈
      (DeleteGroupForce gw groupID { state := s, trace := [] }).client.trace) :
    ∃ policy, Event.getPolicy id (.ok policy) ∈
        (DeleteGroupForce gw groupID { state := s, trace := [] }).client.trace ∧
      body = forceBody groupID policy ∧ validRulesFrom groupID policy.Rules [] ≠ [] := by
  cases hlist : (gw.getPolicies s).1 with
  | error e =>
    have h := (DeleteGroupForce_listFailed gw groupID { state := s, trace := [] } e hlist).2.2
    rw [h] at hput
    simp at hput
  | ok policies =>
    obtain ⟨visits, outcomes, gerr, -, hcons, -, htrace, -, -⟩ :=
      DeleteGroupForce_run gw groupID { state := s, trace := [] } policies hlist
    rw [htrace] at hput ⊢
    rw [mem_run_trace] at hput
    rcases hput with h | ⟨v, hv, h⟩ | h | h
    · simp at h
    · obtain ⟨-, policy, hbody, hget, hkind⟩ := visit_of_put groupID v id body outcome h
      refine ⟨policy, (mem_run_trace _ _ _ _ _ _ _).mpr (Or.inr (Or.inl ⟨v, hv, hget⟩)),
        hbody, ?_⟩
      have hc := hcons v hv
      rcases hkind with ⟨err, rfl, -⟩ | ⟨rfl, -⟩
      · exact hc
      · exact hc
    · obtain ⟨a, -, b, -, hab⟩ := mem_zipWith_elim _ _ _ _ h
      simp at hab
    · simp at h

/-! ## What `DeleteGroupForce` sends (C2, C3) -/

theorem idsValue_removeGroup (groupID : String) (groups : Option (List NetbirdPeerGroup)) :
    idsValue (removeGroup groupID groups) = .strings (idsWithout groupID groups) := by
  simp only [removeGroup, idsValue, idsWithout, List.filter_map]
  rfl

theorem get_filtered_key (groupID : String) (ag : List (String × Option (List String))) :
    GoMap.get ((ag.filter (fun kv => decide (kv.1 ≠ groupID))).map
      (fun kv => (kv.1, stringsToValue kv.2))) groupID = none := by
  induction ag with
  | nil => rfl
  | cons kv rest ih =>
    simp only [ne_eq, decide_not] at ih ⊢
    by_cases h : kv.1 = groupID
    · simp [List.filter_cons, h, ih]
    · simp [List.filter_cons, h, ih, GoMap.get]

theorem sentRule_sources (rule : NetbirdPolicyRule) :
    GoMap.get (sentRule rule) "sources" = some (idsValue rule.Sources) := by
  simp [sentRule, GoMap.get]

theorem sentRule_destinations (rule : NetbirdPolicyRule) :
    GoMap.get (sentRule rule) "destinations" = some (idsValue rule.Destinations) := by
  simp [sentRule, GoMap.get]

theorem sentRule_authorizedGroups (rule : NetbirdPolicyRule) :
    GoMap.get (sentRule rule) "authorized_groups" =
      rule.AuthorizedGroups.map (fun ag =>
        GoValue.object (ag.map (fun kv => (kv.1, stringsToValue kv.2)))) := by
  obtain ⟨a, b, d, dst, e, i, n, p, src, pr, ag, sr, dr⟩ := rule
  cases pr <;> cases ag <;> cases sr <;> cases dr <;> simp [sentRule, GoMap.get, omitEmpty]

theorem sentWithoutGroup_strip (groupID : String) (rule : NetbirdPolicyRule) :
    SentWithoutGroup groupID rule (.object (sentRule (stripRule groupID rule))) := by
  refine ⟨_, rfl, ?_, ?_, ?_, ?_, ?_, ?_⟩
  · rw [sentRule_sources]
    exact congrArg some (idsValue_removeGroup groupID rule.Sources)
  · rw [sentRule_destinations]
    exact congrArg some (idsValue_removeGroup groupID rule.Destinations)
  · rw [sentRule_authorizedGroups]
    cases h : rule.AuthorizedGroups <;> simp [stripRule, h, deleteKey]
  · simp [idsWithout]
  · simp [idsWithout]
  · intro kvs hk
    rw [sentRule_authorizedGroups] at hk
    cases h : rule.AuthorizedGroups with
    | none => simp [stripRule, h] at hk
    | some ag =>
      simp only [stripRule, h, Option.map_some', deleteKey, Option.some.injEq,
        GoValue.object.injEq] at hk
      rw [← hk]
      exact get_filtered_key groupID ag

theorem forceBody_eq (groupID : String) (policy : NetbirdPolicy) :
    forceBody groupID policy =
      .object [("name", .string policy.Name), ("description", .string policy.Description),
        ("enabled", .bool policy.Enabled),
        ("rules", .slice ((policy.Rules.filter (keepsRule groupID)).map
          (fun r => GoValue.object (sentRule (stripRule groupID r)))))] := by
  simp [forceBody, updateBody, rulesMapToValue, validRulesFrom_eq, List.map_map,
    Function.comp_def]

/-- C2: every `PUT` that `DeleteGroupForce` issues for a policy follows a successful fetch
of that policy, and each rule it sends comes from a fetched rule, in order, with `sources`
and `destinations` equal to the fetched ID lists without the group (other IDs kept in
order) and `authorized_groups` without the group as key; so no rule sent references the
group in any of the three locations. -/
theorem C2_forceDelete_sent_rules_omit_group {σ : Type} (gw : Gateway σ) (groupID : String)
    (s : σ) (id : String) (body : GoValue) (outcome : Option String)
    (hput : Event.putPolicy id body outcome ∈
      (DeleteGroupForce gw groupID { state := s, trace := [] }).client.trace) :
    ∃ (policy : NetbirdPolicy) (kept : List NetbirdPolicyRule) (sent : List GoValue),
      Event.getPolicy id (.ok policy) ∈
        (DeleteGroupForce gw groupID { state := s, trace := [] }).client.trace ∧
      kept.Sublist policy.Rules ∧
      body = .object [("name", .string policy.Name),
        ("description", .string policy.Description), ("enabled", .bool policy.Enabled),
        ("rules", .slice sent)] ∧
      List.Forall₂ (SentWithoutGroup groupID) kept sent := by
  obtain ⟨policy, hget, hbody, -⟩ := force_put_origin gw groupID s id body outcome hput
  refine ⟨policy, policy.Rules.filter (keepsRule groupID), _, hget, List.filter_sublist _,
    hbody.trans (forceBody_eq groupID policy), ?_⟩
  rw [List.forall₂_map_right_iff, List.forall₂_same]
  intro rule _
  exact sentWithoutGroup_strip groupID rule

/-! ## Each policy is visited once (C4, C5, C6) -/

theorem firstOccurrences_fresh (seen ids : List String) :
    (∀ x ∈ firstOccurrences seen ids, x ∉ seen) ∧ (firstOccurrences seen ids).Nodup := by
  induction ids generalizing seen with
  | nil => simp [firstOccurrences]
  | cons id rest ih =>
    by_cases h : id ∈ seen
    · simp only [firstOccurrences, if_pos h]
      exact ih seen
    · simp only [firstOccurrences, if_neg h]
      obtain ⟨hfresh, hnodup⟩ := ih (seen ++ [id])
      constructor
      · intro x hx
        rcases List.mem_cons.mp hx with hx | hx
        · exact hx ▸ h
        · exact fun hmem => hfresh x hx (List.mem_append_left _ hmem)
      · refine List.nodup_cons.mpr ⟨fun hmem => ?_, hnodup⟩
        exact hfresh id hmem (by simp)

theorem firstOccurrences_nodup (ids : List String) : (firstOccurrences [] ids).Nodup :=
  (firstOccurrences_fresh [] ids).2

/-- Two visits of a run that are about the same policy are the same visit. -/
theorem visit_unique (visits : List Visit) (hnodup : (visits.map Visit.policyID).Nodup)
    (v w : Visit) (hv : v ∈ visits) (hw : w ∈ visits) (hid : v.policyID = w.policyID) :
    v = w :=
  List.inj_on_of_nodup_map hnodup hv hw hid

/-- A successful fetch in the trace of a run belongs to a visit of that policy. -/
theorem force_get_origin (groupID : String) (policies : List NetbirdPolicy)
    (visits : List Visit) (dels : List String) (outcomes : List (Option String))
    (gerr : Option String) (id : String) (policy : NetbirdPolicy)
    (hget : Event.getPolicy id (.ok policy) ∈ ([] : List Event) ++
        [Event.getPolicies (.ok policies)] ++ (visits.map (Visit.events groupID)).flatten ++
        List.zipWith Event.deletePolicy dels outcomes ++ [Event.deleteGroup groupID gerr]) :
    ∃ v ∈ visits, v = .emptied id policy ∨ (∃ err, v = .updateFailed id policy err) ∨
      v = .updated id policy := by
  rw [mem_run_trace] at hget
  rcases hget with h | ⟨v, hv, h⟩ | h | h
  · simp at h
  · exact ⟨v, hv, Visit.of_get_ok groupID v id policy h⟩
  · obtain ⟨a, -, b, -, hab⟩ := mem_zipWith_elim _ _ _ _ h
    simp at hab
  · simp at h

/-- C4: when a policy fetched by `DeleteGroupForce` keeps no rule once the group is
stripped, a `DELETE` is issued for it, no `PUT` is issued for it, and its ID is listed in
`PoliciesModified`. -/
theorem C4_forceDelete_deletes_emptied_policy {σ : Type} (gw : Gateway σ) (groupID : String)
    (s : σ) (id : String) (policy : NetbirdPolicy)
    (hget : Event.getPolicy id (.ok policy) ∈
      (DeleteGroupForce gw groupID { state := s, trace := [] }).client.trace)
    (hnone : policy.Rules.filter (keepsRule groupID) = []) :
    (∃ outcome, Event.deletePolicy id outcome ∈
      (DeleteGroupForce gw groupID { state := s, trace := [] }).client.trace) ∧
    (∀ body outcome, Event.putPolicy id body outcome ∉
      (DeleteGroupForce gw groupID { state := s, trace := [] }).client.trace) ∧
    ∃ res, (DeleteGroupForce gw groupID { state := s, trace := [] }).result = some res ∧
      id ∈ res.PoliciesModified := by
  cases hlist : (gw.getPolicies s).1 with
  | error e =>
    have h := (DeleteGroupForce_listFailed gw groupID { state := s, trace := [] } e hlist).2.2
    rw [h] at hget
    simp at hget
  | ok policies =>
    obtain ⟨visits, outcomes, gerr, hids, hcons, hlen, htrace, hres, -⟩ :=
      DeleteGroupForce_run gw groupID { state := s, trace := [] } policies hlist
    have hnodup : (visits.map Visit.policyID).Nodup := hids ▸ firstOccurrences_nodup _
    rw [htrace] at hget ⊢
    have hvalid : validRulesFrom groupID policy.Rules [] = [] := by
      simp [validRulesFrom_eq, hnone]
    obtain ⟨v, hv, hkind⟩ := force_get_origin _ _ _ _ _ _ _ _ hget
    have hc := hcons v hv
    have hv_eq : v = .emptied id policy := by
      rcases hkind with h | ⟨err, h⟩ | h
      · exact h
      · rw [h] at hc
        exact absurd hvalid hc
      · rw [h] at hc
        exact absurd hvalid hc
    subst hv_eq
    have hdel : id ∈ visits.filterMap Visit.toDelete :=
      List.mem_filterMap.mpr ⟨_, hv, rfl⟩
    refine ⟨?_, ?_, _, hres, List.mem_filterMap.mpr ⟨_, hv, rfl⟩⟩
    · obtain ⟨b, hb⟩ := mem_zipWith_intro Event.deletePolicy id _ outcomes hlen hdel
      exact ⟨b, (mem_run_trace _ _ _ _ _ _ _).mpr (Or.inr (Or.inr (Or.inl hb)))⟩
    · intro body outcome hput
      rw [mem_run_trace] at hput
      rcases hput with h | ⟨w, hw, h⟩ | h | h
      · simp at h
      · obtain ⟨hwid, p, -, -, hk⟩ := visit_of_put groupID w id body outcome h
        have heq : Visit.emptied id policy = w :=
          visit_unique visits hnodup _ w hv hw hwid.symm
        rcases hk with ⟨err, hk, -⟩ | ⟨hk, -⟩
        · rw [hk] at heq
          cases heq
        · rw [hk] at heq
          cases heq
      · obtain ⟨a, -, b, -, hab⟩ := mem_zipWith_elim _ _ _ _ h
        simp at hab
      · simp at h

/-- C5: when the listing succeeds, the calls of `DeleteGroupForce` are, in order: the
listing; for each distinct referencing policy ID, in order of first reference, one visit,
that is one `GET` of the policy followed by at most one `PUT` of it; one `DELETE` for each
visited policy that kept no rule, in the same order; and last one `DELETE` of the group.
No policy is visited twice. -/
theorem C5_forceDelete_call_order {σ : Type} (gw : Gateway σ) (groupID : String) (s : σ)
    (policies : List NetbirdPolicy) (hlist : (gw.getPolicies s).1 = Except.ok policies) :
    ∃ (visits : List Visit) (outcomes : List (Option String)) (gerr : Option String),
      visits.map Visit.policyID =
        firstOccurrences [] ((expectedReferences groupID policies).map (fun r => r.PolicyID)) ∧
      (visits.map Visit.policyID).Nodup ∧
      (∀ v ∈ visits, v.consistent groupID ∧
        ((∃ resp, v.events groupID = [Event.getPolicy v.policyID resp]) ∨
          (∃ policy body outcome, v.events groupID =
            [Event.getPolicy v.policyID (.ok policy),
             Event.putPolicy v.policyID body outcome]))) ∧
      outcomes.length = (visits.filterMap Visit.toDelete).length ∧
      (DeleteGroupForce gw groupID { state := s, trace := [] }).client.trace =
        [Event.getPolicies (.ok policies)] ++ (visits.map (Visit.events groupID)).flatten ++
          List.zipWith Event.deletePolicy (visits.filterMap Visit.toDelete) outcomes ++
          [Event.deleteGroup groupID gerr] := by
  obtain ⟨visits, outcomes, gerr, hids, hcons, hlen, htrace, -, -⟩ :=
    DeleteGroupForce_run gw groupID { state := s, trace := [] } policies hlist
  refine ⟨visits, outcomes, gerr, hids, hids ▸ firstOccurrences_nodup _, ?_, hlen, ?_⟩
  · intro v hv
    refine ⟨hcons v hv, ?_⟩
    cases v with
    | fetchFailed i e => exact Or.inl ⟨_, rfl⟩
    | emptied i p => exact Or.inl ⟨_, rfl⟩
    | updateFailed i p e => exact Or.inr ⟨_, _, _, rfl⟩
    | updated i p => exact Or.inr ⟨_, _, _, rfl⟩
  · rw [htrace]
    simp

/-- C6: when the listing succeeds, `DeleteGroupForce` ends with one `DELETE` of the group
and returns a non-nil result whose `GroupID` is the group, whose `PoliciesModified` are
those recorded by the visits and whose `Errors` are those recorded by the visits and the
policy deletions, followed by the group-deletion failure if there is one. The error is nil
and `Deleted` is true exactly when the group `DELETE` succeeds; when it fails the error is
non-nil and `Deleted` is false. -/
theorem C6_forceDelete_result_and_error {σ : Type} (gw : Gateway σ) (groupID : String)
    (s : σ) (policies : List NetbirdPolicy)
    (hlist : (gw.getPolicies s).1 = Except.ok policies) :
    ∃ (visits : List Visit) (outcomes : List (Option String)) (gerr : Option String)
      (res : ForceDeleteResult),
      (DeleteGroupForce gw groupID { state := s, trace := [] }).client.trace =
        [Event.getPolicies (.ok policies)] ++ (visits.map (Visit.events groupID)).flatten ++
          List.zipWith Event.deletePolicy (visits.filterMap Visit.toDelete) outcomes ++
          [Event.deleteGroup groupID gerr] ∧
      (DeleteGroupForce gw groupID { state := s, trace := [] }).result = some res ∧
      res.GroupID = groupID ∧
      res.PoliciesModified = visits.filterMap Visit.modified ∧
      res.Errors = visits.filterMap Visit.error ++
        (List.zipWith deleteError (visits.filterMap Visit.toDelete) outcomes).filterMap (fun e => e) ++
        groupDeleteErrors gerr ∧
      (((DeleteGroupForce gw groupID { state := s, trace := [] }).err = none ∧
          res.Deleted = true) ↔ gerr = none) ∧
      (∀ e, gerr = some e →
        (DeleteGroupForce gw groupID { state := s, trace := [] }).err =
          some ("deleting group: " ++ e) ∧
        res.Deleted = false ∧ groupDeleteErrors gerr = ["deleting group: " ++ e]) := by
  obtain ⟨visits, outcomes, gerr, -, -, -, htrace, hres, herr⟩ :=
    DeleteGroupForce_run gw groupID { state := s, trace := [] } policies hlist
  refine ⟨visits, outcomes, gerr, _, ?_, hres, rfl, rfl, rfl, ?_, ?_⟩
  · rw [htrace]
    simp
  · rw [herr]
    cases gerr <;> simp
  · intro e he
    rw [herr, he]
    simp [groupDeleteErrors]

/-! ## Which failures end the operation (C7) -/

theorem mem_filterMap_zipWith_deleteError (ids : List String) (outcomes : List (Option String))
    (id e : String) (h : Event.deletePolicy id (some e) ∈
      List.zipWith Event.deletePolicy ids outcomes) :
    ("policy " ++ id ++ ": deleting: " ++ e) ∈
      (List.zipWith deleteError ids outcomes).filterMap (fun e => e) := by
  induction ids generalizing outcomes with
  | nil => simp at h
  | cons a ids ih =>
    cases outcomes with
    | nil => simp at h
    | cons b outcomes =>
      simp only [List.zipWith_cons_cons, List.mem_cons, Event.deletePolicy.injEq] at h
      rcases h with ⟨h1, h2⟩ | h
      · subst h1 h2
        simp [deleteError]
      · have := ih outcomes h
        simp only [List.zipWith_cons_cons, List.filterMap_cons]
        cases deleteError a b with
        | none => exact this
        | some x => exact List.mem_cons_of_mem _ this

/-- C7 (amended): `DeleteGroupForce` returns a non-nil error exactly when the initial
listing fails or the final group deletion fails; a failed fetch, update or deletion of a
policy is recorded in the `Errors` of the result and does not decide the returned error. -/
theorem C7_forceDelete_terminal_errors {σ : Type} (gw : Gateway σ) (groupID : String)
    (s : σ) :
    ((DeleteGroupForce gw groupID { state := s, trace := [] }).err ≠ none ↔
      ((∃ e, (DeleteGroupForce gw groupID { state := s, trace := [] }).client.trace =
          [Event.getPolicies (.error e)]) ∨
        (∃ pre e, (DeleteGroupForce gw groupID { state := s, trace := [] }).client.trace =
          pre ++ [Event.deleteGroup groupID (some e)]))) ∧
    (∀ res, (DeleteGroupForce gw groupID { state := s, trace := [] }).result = some res →
      (∀ id e, Event.getPolicy id (.error e) ∈
          (DeleteGroupForce gw groupID { state := s, trace := [] }).client.trace →
        ("policy " ++ id ++ ": fetching: " ++ e) ∈ res.Errors) ∧
      (∀ id body e, Event.putPolicy id body (some e) ∈
          (DeleteGroupForce gw groupID { state := s, trace := [] }).client.trace →
        ("policy " ++ id ++ ": updating: " ++ e) ∈ res.Errors) ∧
      (∀ id e, Event.deletePolicy id (some e) ∈
          (DeleteGroupForce gw groupID { state := s, trace := [] }).client.trace →
        ("policy " ++ id ++ ": deleting: " ++ e) ∈ res.Errors)) := by
  cases hlist : (gw.getPolicies s).1 with
  | error e =>
    obtain ⟨hres, herr, htrace⟩ :=
      DeleteGroupForce_listFailed gw groupID { state := s, trace := [] } e hlist
    refine ⟨?_, ?_⟩
    · rw [herr, htrace]
      simp
    · intro res h
      rw [hres] at h
      cases h
  | ok policies =>
    obtain ⟨visits, outcomes, gerr, -, -, -, htrace, hres, herr⟩ :=
      DeleteGroupForce_run gw groupID { state := s, trace := [] } policies hlist
    refine ⟨?_, ?_⟩
    · rw [herr, htrace]
      constructor
      · intro h
        cases gerr with
        | none => simp at h
        | some e => exact Or.inr ⟨_, e, rfl⟩
      · rintro (⟨e, h⟩ | ⟨pre, e, h⟩)
        · have hfirst := congrArg List.head? h
          simp at hfirst
        · have hlast := congrArg List.getLast? h
          simp only [List.getLast?_append, List.getLast?_singleton, Option.or_some,
            Option.some.injEq, Event.deleteGroup.injEq, true_and] at hlast
          simp [hlast]
    · intro res h
      rw [hres] at h
      cases h
      rw [htrace]
      refine ⟨?_, ?_, ?_⟩
      · intro id e hmem
        rw [mem_run_trace] at hmem
        rcases hmem with h | ⟨v, hv, h⟩ | h | h
        · simp at h
        · have hv_eq : v = .fetchFailed id e := by
            cases v <;> simp [Visit.events] at h
            obtain ⟨h1, h2⟩ := h
            subst h1 h2
            rfl
          subst hv_eq
          exact List.mem_append_left _ (List.mem_append_left _
            (List.mem_filterMap.mpr ⟨_, hv, rfl⟩))
        · obtain ⟨a, -, b, -, hab⟩ := mem_zipWith_elim _ _ _ _ h
          simp at hab
        · simp at h
      · intro id body e hmem
        rw [mem_run_trace] at hmem
        rcases hmem with h | ⟨v, hv, h⟩ | h | h
        · simp at h
        · obtain ⟨-, p, -, -, hk⟩ := visit_of_put groupID v id body (some e) h
          rcases hk with ⟨err, hk, herr'⟩ | ⟨-, hk⟩
          · cases herr'
            subst hk
            exact List.mem_append_left _ (List.mem_append_left _
              (List.mem_filterMap.mpr ⟨_, hv, rfl⟩))
          · cases hk
        · obtain ⟨a, -, b, -, hab⟩ := mem_zipWith_elim _ _ _ _ h
          simp at hab
        · simp at h
      · intro id e hmem
        rw [mem_run_trace] at hmem
        rcases hmem with h | ⟨v, hv, h⟩ | h | h
        · simp at h
        · exact absurd h (Visit.no_deletePolicy groupID v id (some e))
        · exact List.mem_append_left _ (List.mem_append_right _
            (mem_filterMap_zipWith_deleteError _ _ _ _ h))
        · simp at h

/-! ## Replacement inside one policy -/

theorem replaceInGroups_eq (oldGroupID newGroupID : String) (gs : List NetbirdPeerGroup)
    (modified : Bool) :
    replaceInGroups oldGroupID newGroupID gs modified =
      (gs.map (renameGroup oldGroupID newGroupID),
        modified || gs.any (fun g => decide (g.ID = oldGroupID))) := by
  induction gs generalizing modified with
  | nil => simp [replaceInGroups]
  | cons g rest ih =>
    by_cases h : g.ID = oldGroupID
    · simp [replaceInGroups, h, ih, renameGroup]
    · simp [replaceInGroups, h, ih, renameGroup]

theorem replaceInSlice_eq (oldGroupID newGroupID : String)
    (groups : Option (List NetbirdPeerGroup)) (modified : Bool) :
    replaceInSlice oldGroupID newGroupID groups modified =
      (groups.map (List.map (renameGroup oldGroupID newGroupID)),
        modified || hasGroupID oldGroupID groups) := by
  cases groups with
  | none => simp [replaceInSlice, hasGroupID, elems]
  | some gs => simp [replaceInSlice, replaceInGroups_eq, hasGroupID, elems]

theorem lookupKey_isSome (key : String) (m : List (String × Option (List String))) :
    (lookupKey key m).isSome = m.any (fun kv => decide (kv.1 = key)) := by
  induction m with
  | nil => rfl
  | cons kv rest ih =>
    by_cases h : kv.1 = key
    · simp [lookupKey, h]
    · simp [lookupKey, h, ih]

theorem replaceInRule_modified (oldGroupID newGroupID : String) (rule : NetbirdPolicyRule)
    (modified : Bool) :
    (replaceInRule oldGroupID newGroupID rule modified).2 =
      (modified || ruleMentions oldGroupID rule) := by
  unfold replaceInRule ruleMentions hasAuthorizedKey
  simp only [replaceInSlice_eq]
  cases hag : rule.AuthorizedGroups with
  | none => simp [Bool.or_assoc]
  | some ag =>
    have hk := lookupKey_isSome oldGroupID ag
    cases hl : lookupKey oldGroupID ag with
    | none =>
      rw [hl] at hk
      simp only [Option.isSome_none] at hk
      simp [hl, ← hk, Bool.or_assoc]
    | some users =>
      rw [hl] at hk
      simp only [Option.isSome_some] at hk
      simp [hl, ← hk]

theorem replaceInRule_rule (oldGroupID newGroupID : String) (rule : NetbirdPolicyRule)
    (modified : Bool) :
    (replaceInRule oldGroupID newGroupID rule modified).1 =
      replacedRule oldGroupID newGroupID rule := by
  obtain ⟨a, b, d, dst, e, i, n, p, src, pr, ag, sr, dr⟩ := rule
  cases ag with
  | none => simp [replacedRule, replaceInRule, replaceInSlice_eq]
  | some ag =>
    cases hl : lookupKey oldGroupID ag <;>
      simp [replacedRule, replaceInRule, replaceInSlice_eq, hl]

theorem replaceInRules_eq (oldGroupID newGroupID : String) (rules : List NetbirdPolicyRule)
    (modified : Bool) :
    replaceInRules oldGroupID newGroupID rules modified =
      (rules.map (replacedRule oldGroupID newGroupID),
        modified || rules.any (ruleMentions oldGroupID)) := by
  induction rules generalizing modified with
  | nil => simp [replaceInRules]
  | cons rule rest ih =>
    simp [replaceInRules, ih, replaceInRule_rule, replaceInRule_modified, Bool.or_assoc]

theorem replaceRulesMap_eq (policyID : String) (rules : List NetbirdPolicyRule)
    (errors : List (String × String)) :
    replaceRulesMap policyID rules errors = (rules.map (fun r => some (sentRule r)), errors) := by
  induction rules generalizing errors with
  | nil => rfl
  | cons rule rest ih =>
    obtain ⟨ruleMap, h1, h2⟩ := format_structToMap rule
    simp [replaceRulesMap, h1, h2, ih]

/-! ## The main loop of `ReplaceGroupInPolicies` is a sequence of passes -/

theorem replaceState_after_nil {σ : Type} (oldGroupID newGroupID : String)
    (st : ReplaceState σ) :
    ReplaceState.after oldGroupID newGroupID st [] st.client.state = st := by
  obtain ⟨⟨s, t⟩, ⟨u, e⟩, up⟩ := st
  simp [ReplaceState.after]

theorem replaceState_after_after {σ : Type} (oldGroupID newGroupID : String)
    (st : ReplaceState σ) (v : ReplaceVisit) (vs : List ReplaceVisit) (s1 s2 : σ) :
    ReplaceState.after oldGroupID newGroupID
        (ReplaceState.after oldGroupID newGroupID st [v] s1) vs s2 =
      ReplaceState.after oldGroupID newGroupID st (v :: vs) s2 := by
  have hcons : v :: vs = [v] ++ vs := rfl
  rw [hcons]
  simp only [ReplaceState.after, List.filterMap_append, List.map_append, List.flatten_append,
    List.append_assoc, List.foldl_append]

theorem replaceStep_new {σ : Type} (gw : Gateway σ) (oldGroupID newGroupID : String)
    (st : ReplaceState σ) (ref : PolicyReference)
    (hnew : ref.PolicyID ∉ st.updatedPolicies) :
    ∃ v state, v.policyID = ref.PolicyID ∧ v.consistent oldGroupID ∧
      v.answeredBy gw oldGroupID newGroupID ∧
      replaceStep gw oldGroupID newGroupID st ref =
        ReplaceState.after oldGroupID newGroupID st [v] state := by
  unfold replaceStep
  rw [if_neg hnew]
  simp only [Client.getPolicy]
  generalize hfetch : gw.getPolicy ref.PolicyID st.client.state = fetched
  obtain ⟨resp, s1⟩ := fetched
  have hresp : (gw.getPolicy ref.PolicyID st.client.state).1 = resp := by rw [hfetch]
  cases resp with
  | error err =>
    refine ⟨.fetchFailed ref.PolicyID err, s1, rfl, trivial, ⟨_, hresp⟩, ?_⟩
    simp [ReplaceState.after, ReplaceVisit.events, ReplaceVisit.updatedID,
      ReplaceVisit.record]
  | ok policy =>
    simp only [replaceInRules_eq, Bool.false_or]
    by_cases hm : policy.Rules.any (ruleMentions oldGroupID) = true
    · simp only [hm, if_true, replaceRulesMap_eq, Client.putPolicy]
      have hbody : updateBody
          { policy with Rules := policy.Rules.map (replacedRule oldGroupID newGroupID) }
          ((policy.Rules.map (replacedRule oldGroupID newGroupID)).map
            (fun r => some (sentRule r))) = replaceBody oldGroupID newGroupID policy := rfl
      rw [hbody]
      generalize hsent :
        gw.putPolicy ref.PolicyID (replaceBody oldGroupID newGroupID policy) s1 = sent
      obtain ⟨outcome, s2⟩ := sent
      have hout : (gw.putPolicy ref.PolicyID (replaceBody oldGroupID newGroupID policy)
          s1).1 = outcome := by rw [hsent]
      cases outcome with
      | some err =>
        refine ⟨.updateFailed ref.PolicyID policy err, s2, rfl, hm,
          ⟨⟨_, hresp⟩, ⟨_, hout⟩⟩, ?_⟩
        simp [ReplaceState.after, ReplaceVisit.events, ReplaceVisit.updatedID,
          ReplaceVisit.record]
      | none =>
        refine ⟨.updated ref.PolicyID policy, s2, rfl, hm, ⟨⟨_, hresp⟩, ⟨_, hout⟩⟩, ?_⟩
        simp [ReplaceState.after, ReplaceVisit.events, ReplaceVisit.updatedID,
          ReplaceVisit.record]
    · have hm' : policy.Rules.any (ruleMentions oldGroupID) = false := by
        simpa using hm
      refine ⟨.unchanged ref.PolicyID policy, s1, rfl, hm', ⟨_, hresp⟩, ?_⟩
      simp [hm', ReplaceState.after, ReplaceVisit.events, ReplaceVisit.updatedID,
        ReplaceVisit.record]

theorem replaceLoop_visits {σ : Type} (gw : Gateway σ) (oldGroupID newGroupID : String)
    (refs : List PolicyReference) (st : ReplaceState σ) :
    ∃ visits state,
      PassesOf st.updatedPolicies (refs.map (fun r => r.PolicyID)) visits ∧
      (∀ v ∈ visits, v.consistent oldGroupID ∧ v.answeredBy gw oldGroupID newGroupID ∧
        ∃ ref ∈ refs, v.policyID = ref.PolicyID) ∧
      refs.foldl (replaceStep gw oldGroupID newGroupID) st =
        ReplaceState.after oldGroupID newGroupID st visits state := by
  induction refs generalizing st with
  | nil =>
    exact ⟨[], st.client.state, rfl, by simp, (replaceState_after_nil _ _ st).symm⟩
  | cons ref rest ih =>
    by_cases hseen : ref.PolicyID ∈ st.updatedPolicies
    · obtain ⟨visits, state, hpass, hvis, hrun⟩ := ih st
      refine ⟨visits, state, ?_, ?_, ?_⟩
      · simp only [List.map_cons, PassesOf, if_pos hseen]
        exact hpass
      · intro v hv
        obtain ⟨h1, h2, r, hr, h3⟩ := hvis v hv
        exact ⟨h1, h2, r, List.mem_cons_of_mem _ hr, h3⟩
      · have hstep : replaceStep gw oldGroupID newGroupID st ref = st := by
          unfold replaceStep
          rw [if_pos hseen]
        rw [List.foldl_cons, hstep, hrun]
    · obtain ⟨v, s1, hid, hv, ha, hstep⟩ :=
        replaceStep_new gw oldGroupID newGroupID st ref hseen
      obtain ⟨visits, state, hpass, hvis, hrun⟩ :=
        ih (ReplaceState.after oldGroupID newGroupID st [v] s1)
      refine ⟨v :: visits, state, ?_, ?_, ?_⟩
      · simp only [List.map_cons, PassesOf, if_neg hseen]
        exact ⟨v, visits, rfl, hid, hpass⟩
      · intro w hw
        rcases List.mem_cons.mp hw with h | h
        · subst h
          exact ⟨hv, ha, ref, List.mem_cons_self _ _, hid⟩
        · obtain ⟨h1, h2, r, hr, h3⟩ := hvis w h
          exact ⟨h1, h2, r, List.mem_cons_of_mem _ hr, h3⟩
      · rw [List.foldl_cons, hstep, hrun, replaceState_after_after]

/-- Full description of a run of `ReplaceGroupInPolicies` whose listing succeeds. -/
theorem ReplaceGroupInPolicies_run {σ : Type} (gw : Gateway σ)
    (oldGroupID newGroupID : String) (c : Client σ) (policies : List NetbirdPolicy)
    (hlist : (gw.getPolicies c.state).1 = Except.ok policies) :
    ∃ visits : List ReplaceVisit,
      PassesOf [] ((expectedReferences oldGroupID policies).map (fun r => r.PolicyID)) visits ∧
      (∀ v ∈ visits, v.consistent oldGroupID ∧ v.answeredBy gw oldGroupID newGroupID ∧
        ∃ ref ∈ expectedReferences oldGroupID policies, v.policyID = ref.PolicyID) ∧
      (ReplaceGroupInPolicies gw oldGroupID newGroupID c).client.trace =
        c.trace ++ [Event.getPolicies (.ok policies)] ++
          (visits.map (ReplaceVisit.events oldGroupID newGroupID)).flatten ∧
      (ReplaceGroupInPolicies gw oldGroupID newGroupID c).result = some
        { UpdatedPolicyIDs := visits.filterMap ReplaceVisit.updatedID
          Errors := visits.foldl ReplaceVisit.record [] } ∧
      (ReplaceGroupInPolicies gw oldGroupID newGroupID c).err = none := by
  unfold ReplaceGroupInPolicies ListPoliciesByGroup Client.getPolicies
  simp only [hlist, scanPolicies_eq]
  obtain ⟨visits, state, hpass, hvis, hrun⟩ :=
    replaceLoop_visits gw oldGroupID newGroupID (expectedReferences oldGroupID policies)
      { client := { state := (gw.getPolicies c.state).2,
                    trace := c.trace ++ [Event.getPolicies (.ok policies)] }
        result := { UpdatedPolicyIDs := [], Errors := [] }
        updatedPolicies := [] }
  rw [hrun]
  refine ⟨visits, hpass, hvis, ?_⟩
  simp [ReplaceState.after]

/-- A run of `ReplaceGroupInPolicies` whose listing fails makes that single call and returns
a nil result with an error. -/
theorem ReplaceGroupInPolicies_listFailed {σ : Type} (gw : Gateway σ)
    (oldGroupID newGroupID : String) (c : Client σ) (e : String)
    (hlist : (gw.getPolicies c.state).1 = Except.error e) :
    (ReplaceGroupInPolicies gw oldGroupID newGroupID c).result = none ∧
    (ReplaceGroupInPolicies gw oldGroupID newGroupID c).err =
      some ("finding policies with group " ++ oldGroupID ++ ": " ++
        ("fetching policies: " ++ e)) ∧
    (ReplaceGroupInPolicies gw oldGroupID newGroupID c).client.trace =
      c.trace ++ [Event.getPolicies (.error e)] := by
  unfold ReplaceGroupInPolicies ListPoliciesByGroup Client.getPolicies
  simp [hlist]

/-! ## What `ReplaceGroupInPolicies` sends (C10) -/

theorem get_stringsToValue (ag : List (String × Option (List String))) (k : String) :
    GoMap.get (ag.map (fun kv => (kv.1, stringsToValue kv.2))) k =
      (lookupKey k ag).map stringsToValue := by
  induction ag with
  | nil => rfl
  | cons kv rest ih =>
    by_cases h : kv.1 = k
    · simp [GoMap.get, lookupKey, h]
    · simp [GoMap.get, lookupKey, h, ih]

theorem lookupKey_setKey (m : List (String × Option (List String))) (k k2 : String)
    (v : Option (List String)) :
    lookupKey k (setKey m k2 v) = if k2 = k then some v else lookupKey k m := by
  induction m with
  | nil => simp [setKey, lookupKey]
  | cons kv rest ih =>
    by_cases h2 : kv.1 = k2
    · rw [setKey, if_pos h2]
      by_cases h : k2 = k
      · simp [lookupKey, h]
      · have h3 : ¬ kv.1 = k := fun h4 => h (h2 ▸ h4)
        simp [lookupKey, h, h3]
    · rw [setKey, if_neg h2]
      by_cases h3 : kv.1 = k
      · have h : ¬ k2 = k := fun h4 => h2 (h3.trans h4.symm)
        rw [lookupKey, if_pos h3, if_neg h, lookupKey, if_pos h3]
      · rw [lookupKey, if_neg h3, ih, lookupKey, if_neg h3]

theorem deleteKey_cons (k2 : String) (kv : String × Option (List String))
    (rest : List (String × Option (List String))) :
    deleteKey k2 (kv :: rest) =
      if kv.1 = k2 then deleteKey k2 rest else kv :: deleteKey k2 rest := by
  by_cases h : kv.1 = k2 <;> simp [deleteKey, List.filter_cons, h]

theorem lookupKey_deleteKey (m : List (String × Option (List String))) (k k2 : String) :
    lookupKey k (deleteKey k2 m) = if k2 = k then none else lookupKey k m := by
  induction m with
  | nil => simp [deleteKey, lookupKey]
  | cons kv rest ih =>
    rw [deleteKey_cons]
    by_cases h2 : kv.1 = k2
    · rw [if_pos h2, ih]
      by_cases h : k2 = k
      · rw [if_pos h, if_pos h]
      · have h3 : ¬ kv.1 = k := fun h4 => h (h2 ▸ h4)
        rw [if_neg h, if_neg h, lookupKey, if_neg h3]
    · rw [if_neg h2]
      by_cases h3 : kv.1 = k
      · have h : ¬ k2 = k := fun h4 => h2 (h3.trans h4.symm)
        rw [lookupKey, if_pos h3, if_neg h, lookupKey, if_pos h3]
      · rw [lookupKey, if_neg h3, ih, lookupKey, if_neg h3]

theorem idsValue_renamed (oldGroupID newGroupID : String)
    (groups : Option (List NetbirdPeerGroup)) :
    idsValue (groups.map (List.map (renameGroup oldGroupID newGroupID))) =
      renamedIDs oldGroupID newGroupID groups := by
  cases groups with
  | none => rfl
  | some gs =>
    simp only [Option.map_some', idsValue, renamedIDs, List.map_map, GoValue.strings.injEq]
    apply List.map_congr_left
    intro g _
    by_cases h : g.ID = oldGroupID <;> simp [renameGroup, h]

theorem replacedRule_sources (oldGroupID newGroupID : String) (rule : NetbirdPolicyRule) :
    (replacedRule oldGroupID newGroupID rule).Sources =
      rule.Sources.map (List.map (renameGroup oldGroupID newGroupID)) := by
  obtain ⟨a, b, d, dst, e, i, n, p, src, pr, ag, sr, dr⟩ := rule
  cases ag with
  | none => simp [replacedRule, replaceInRule, replaceInSlice_eq]
  | some ag =>
    cases hl : lookupKey oldGroupID ag <;>
      simp [replacedRule, replaceInRule, replaceInSlice_eq, hl]

theorem replacedRule_destinations (oldGroupID newGroupID : String)
    (rule : NetbirdPolicyRule) :
    (replacedRule oldGroupID newGroupID rule).Destinations =
      rule.Destinations.map (List.map (renameGroup oldGroupID newGroupID)) := by
  obtain ⟨a, b, d, dst, e, i, n, p, src, pr, ag, sr, dr⟩ := rule
  cases ag with
  | none => simp [replacedRule, replaceInRule, replaceInSlice_eq]
  | some ag =>
    cases hl : lookupKey oldGroupID ag <;>
      simp [replacedRule, replaceInRule, replaceInSlice_eq, hl]

theorem replacedRule_authorizedGroups (oldGroupID newGroupID : String)
    (rule : NetbirdPolicyRule) :
    (replacedRule oldGroupID newGroupID rule).AuthorizedGroups =
      match rule.AuthorizedGroups with
      | none => none
      | some ag =>
        match lookupKey oldGroupID ag with
        | none => some ag
        | some users => some (setKey (deleteKey oldGroupID ag) newGroupID users) := by
  obtain ⟨a, b, d, dst, e, i, n, p, src, pr, ag, sr, dr⟩ := rule
  cases ag with
  | none => rfl
  | some ag =>
    cases hl : lookupKey oldGroupID ag <;> simp [replacedRule, replaceInRule, hl]

theorem sentReplaced_replacedRule (oldGroupID newGroupID : String)
    (rule : NetbirdPolicyRule) (hlists : stringsToValue = principalsSent) :
    SentReplaced oldGroupID newGroupID rule
      (.object (sentRule (replacedRule oldGroupID newGroupID rule))) := by
  refine ⟨_, rfl, ?_, ?_, ?_⟩
  · rw [sentRule_sources, replacedRule_sources, idsValue_renamed]
  · rw [sentRule_destinations, replacedRule_destinations, idsValue_renamed]
  · rw [sentRule_authorizedGroups, replacedRule_authorizedGroups]
    cases hag : rule.AuthorizedGroups with
    | none => rfl
    | some ag =>
      cases hl : lookupKey oldGroupID ag with
      | none =>
        refine ⟨ag.map (fun kv => (kv.1, stringsToValue kv.2)), by simp [hl], ?_⟩
        simp only [RenamedKeys, hl, ← hlists]
        exact get_stringsToValue ag
      | some users =>
        refine ⟨(setKey (deleteKey oldGroupID ag) newGroupID users).map
          (fun kv => (kv.1, stringsToValue kv.2)), by simp [hl], ?_⟩
        simp only [RenamedKeys, hl, ← hlists]
        refine ⟨?_, ?_, ?_⟩
        · rw [get_stringsToValue, lookupKey_setKey]
          simp
        · intro hne
          rw [get_stringsToValue, lookupKey_setKey, lookupKey_deleteKey]
          simp [Ne.symm hne]
        · intro k hk1 hk2
          rw [get_stringsToValue, lookupKey_setKey, lookupKey_deleteKey]
          simp [Ne.symm hk1, Ne.symm hk2]

theorem replaceBody_eq (oldGroupID newGroupID : String) (policy : NetbirdPolicy) :
    replaceBody oldGroupID newGroupID policy =
      .object [("name", .string policy.Name), ("description", .string policy.Description),
        ("enabled", .bool policy.Enabled),
        ("rules", .slice (policy.Rules.map
          (fun r => GoValue.object (sentRule (replacedRule oldGroupID newGroupID r)))))] := by
  simp [replaceBody, updateBody, rulesMapToValue, List.map_map, Function.comp_def]

theorem replaceVisit_of_put (oldGroupID newGroupID : String) (v : ReplaceVisit) (id : String)
    (body : GoValue) (outcome : Option String)
    (h : Event.putPolicy id body outcome ∈ v.events oldGroupID newGroupID) :
    v.policyID = id ∧ ∃ policy, body = replaceBody oldGroupID newGroupID policy ∧
      Event.getPolicy id (.ok policy) ∈ v.events oldGroupID newGroupID ∧
      ((∃ err, v = .updateFailed id policy err ∧ outcome = some err) ∨
        (v = .updated id policy ∧ outcome = none)) := by
  cases v with
  | fetchFailed i e => simp [ReplaceVisit.events] at h
  | unchanged i p => simp [ReplaceVisit.events] at h
  | updateFailed i p e =>
    simp only [ReplaceVisit.events, List.mem_cons, List.mem_singleton,
      Event.putPolicy.injEq, List.not_mem_nil, or_false, false_or, reduceCtorEq] at h
    obtain ⟨h1, h2, h3⟩ := h
    subst h1 h2 h3
    exact ⟨rfl, p, rfl, by simp [ReplaceVisit.events], Or.inl ⟨e, rfl, rfl⟩⟩
  | updated i p =>
    simp only [ReplaceVisit.events, List.mem_cons, List.mem_singleton,
      Event.putPolicy.injEq, List.not_mem_nil, or_false, false_or, reduceCtorEq] at h
    obtain ⟨h1, h2, h3⟩ := h
    subst h1 h2 h3
    exact ⟨rfl, p, rfl, by simp [ReplaceVisit.events], Or.inr ⟨rfl, rfl⟩⟩

/-- Every `PUT` of a run of `ReplaceGroupInPolicies` belongs to a pass that fetched the
policy with success, and carries the body built from the fetched policy. -/
theorem replace_put_origin {σ : Type} (gw : Gateway σ) (oldGroupID newGroupID : String)
    (s : σ) (id : String) (body : GoValue) (outcome : Option String)
    (hput : Event.putPolicy id body outcome ∈
      (ReplaceGroupInPolicies gw oldGroupID newGroupID { state := s, trace := [] }).client.trace) :
    ∃ (policies : List NetbirdPolicy) (visits : List ReplaceVisit) (v : ReplaceVisit)
      (policy : NetbirdPolicy),
      (gw.getPolicies s).1 = Except.ok policies ∧
      (∀ w ∈ visits, w.consistent oldGroupID ∧ w.answeredBy gw oldGroupID newGroupID ∧
        ∃ ref ∈ expectedReferences oldGroupID policies, w.policyID = ref.PolicyID) ∧
      v ∈ visits ∧ v.policyID = id ∧
      Event.getPolicy id (.ok policy) ∈
        (ReplaceGroupInPolicies gw oldGroupID newGroupID
          { state := s, trace := [] }).client.trace ∧
      body = replaceBody oldGroupID newGroupID policy := by
  cases hlist : (gw.getPolicies s).1 with
  | error e =>
    have h := (ReplaceGroupInPolicies_listFailed gw oldGroupID newGroupID
      { state := s, trace := [] } e hlist).2.2
    rw [h] at hput
    simp at hput
  | ok policies =>
    obtain ⟨visits, -, hvis, htrace, -, -⟩ :=
      ReplaceGroupInPolicies_run gw oldGroupID newGroupID { state := s, trace := [] }
        policies hlist
    rw [htrace] at hput ⊢
    simp only [List.nil_append, List.mem_append, List.mem_singleton, List.mem_flatten,
      List.mem_map, reduceCtorEq, false_or] at hput
    obtain ⟨l, ⟨v, hv, rfl⟩, h⟩ := hput
    obtain ⟨hid, policy, hbody, hget, -⟩ :=
      replaceVisit_of_put oldGroupID newGroupID v id body outcome h
    refine ⟨policies, visits, v, policy, rfl, hvis, hv, hid, ?_, hbody⟩
    simp only [List.nil_append, List.mem_append, List.mem_singleton, List.mem_flatten,
      List.mem_map]
    exact Or.inr ⟨_, ⟨v, hv, rfl⟩, hget⟩

/-- C10: every `PUT` of `ReplaceGroupInPolicies` follows a successful fetch of the same
policy and its body carries the name, description and enabled flag of the fetched policy
and one rule map per fetched rule, in order; in each, `sources` and `destinations` are the
fetched ID lists with every occurrence of the old ID replaced by the new one (a nil list is
sent as `null`), and `authorized_groups` has the principal list of the old key under the
new key. -/
theorem C10_replace_put_body {σ : Type} (gw : Gateway σ) (oldGroupID newGroupID : String)
    (s : σ) (id : String) (body : GoValue) (outcome : Option String)
    (hput : Event.putPolicy id body outcome ∈
      (ReplaceGroupInPolicies gw oldGroupID newGroupID { state := s, trace := [] }).client.trace) :
    ∃ (policy : NetbirdPolicy) (sent : List GoValue),
      Event.getPolicy id (.ok policy) ∈
        (ReplaceGroupInPolicies gw oldGroupID newGroupID
          { state := s, trace := [] }).client.trace ∧
      body = .object [("name", .string policy.Name),
        ("description", .string policy.Description), ("enabled", .bool policy.Enabled),
        ("rules", .slice sent)] ∧
      sent.length = policy.Rules.length ∧
      List.Forall₂ (SentReplaced oldGroupID newGroupID) policy.Rules sent := by
  obtain ⟨-, -, -, policy, -, -, -, -, hget, hbody⟩ :=
    replace_put_origin gw oldGroupID newGroupID s id body outcome hput
  refine ⟨policy, _, hget, hbody.trans (replaceBody_eq oldGroupID newGroupID policy),
    by simp, ?_⟩
  have hlists : stringsToValue = principalsSent := by
    funext users
    cases users <;> rfl
  rw [List.forall₂_map_right_iff, List.forall₂_same]
  intro rule _
  exact sentReplaced_replacedRule oldGroupID newGroupID rule hlists

/-! ## Replacement when every call succeeds (C9) -/

theorem mem_firstOccurrences (seen ids : List String) (x : String) :
    x ∈ firstOccurrences seen ids ↔ x ∈ ids ∧ x ∉ seen := by
  induction ids generalizing seen with
  | nil => simp [firstOccurrences]
  | cons id rest ih =>
    by_cases h : id ∈ seen
    · rw [firstOccurrences, if_pos h, ih]
      constructor
      · rintro ⟨h1, h2⟩
        exact ⟨List.mem_cons_of_mem _ h1, h2⟩
      · rintro ⟨h1, h2⟩
        rcases List.mem_cons.mp h1 with h1 | h1
        · exact absurd (h1 ▸ h) h2
        · exact ⟨h1, h2⟩
    · rw [firstOccurrences, if_neg h, List.mem_cons, ih]
      constructor
      · rintro (h1 | ⟨h1, h2⟩)
        · exact ⟨List.mem_cons.mpr (Or.inl h1), h1 ▸ h⟩
        · exact ⟨List.mem_cons_of_mem _ h1, fun hs => h2 (List.mem_append_left _ hs)⟩
      · rintro ⟨h1, h2⟩
        rcases List.mem_cons.mp h1 with h1 | h1
        · exact Or.inl h1
        · by_cases hx : x = id
          · exact Or.inl hx
          · refine Or.inr ⟨h1, fun hs => ?_⟩
            rcases List.mem_append.mp hs with hs | hs
            · exact h2 hs
            · exact hx (List.mem_singleton.mp hs)

theorem firstOccurrences_block (seen rest block : List String) (id : String)
    (hall : ∀ x ∈ block, x = id) (hne : block ≠ []) :
    firstOccurrences seen (block ++ rest) = firstOccurrences seen (id :: rest) := by
  induction block generalizing seen with
  | nil => exact absurd rfl hne
  | cons x xs ih =>
    have hx : x = id := hall x (List.mem_cons_self _ _)
    subst hx
    have hall2 : ∀ y ∈ xs, y = x := fun y hy => hall y (List.mem_cons_of_mem _ hy)
    by_cases hxs : xs = []
    · subst hxs
      rfl
    · have hc : (x :: xs) ++ rest = x :: (xs ++ rest) := rfl
      by_cases hseen : x ∈ seen
      · rw [hc, firstOccurrences, if_pos hseen]
        exact ih seen hall2 hxs
      · have h1 : firstOccurrences (seen ++ [x]) (x :: rest) =
            firstOccurrences (seen ++ [x]) rest := by
          rw [firstOccurrences, if_pos (by simp)]
        have h2 : firstOccurrences seen (x :: rest) =
            x :: firstOccurrences (seen ++ [x]) rest := by
          rw [firstOccurrences, if_neg hseen]
        rw [hc, h2, firstOccurrences, if_neg hseen, ih (seen ++ [x]) hall2 hxs, h1]

theorem ruleReferences_policyID (groupID : String) (policy : NetbirdPolicy)
    (rule : NetbirdPolicyRule) (ref : PolicyReference)
    (h : ref ∈ ruleReferences groupID policy rule) : ref.PolicyID = policy.ID := by
  unfold ruleReferences at h
  simp only [List.mem_append] at h
  rcases h with (h | h) | h
  · split at h
    · simp only [List.mem_singleton] at h
      rw [h]
      rfl
    · simp at h
  · split at h
    · simp only [List.mem_singleton] at h
      rw [h]
      rfl
    · simp at h
  · split at h
    · simp only [List.mem_singleton] at h
      rw [h]
      rfl
    · simp at h

theorem ruleReferences_eq_nil (groupID : String) (policy : NetbirdPolicy)
    (rule : NetbirdPolicyRule) :
    ruleReferences groupID policy rule = [] ↔ ruleMentions groupID rule = false := by
  unfold ruleReferences ruleMentions
  cases hasGroupID groupID rule.Sources <;> cases hasGroupID groupID rule.Destinations <;>
    cases hasAuthorizedKey groupID rule <;> simp

theorem policyReferences_eq_nil (groupID : String) (policy : NetbirdPolicy) :
    policyReferences groupID policy = [] ↔ policyMentions groupID policy = false := by
  unfold policyReferences policyMentions
  rw [List.flatten_eq_nil_iff, List.any_eq_false]
  constructor
  · intro h r hr
    have := h _ (List.mem_map_of_mem _ hr)
    simpa using (ruleReferences_eq_nil groupID policy r).mp this
  · intro h l hl
    obtain ⟨r, hr, rfl⟩ := List.mem_map.mp hl
    exact (ruleReferences_eq_nil groupID policy r).mpr (by simpa using h r hr)

theorem policyReferences_policyID (groupID : String) (policy : NetbirdPolicy)
    (ref : PolicyReference) (h : ref ∈ policyReferences groupID policy) :
    ref.PolicyID = policy.ID := by
  unfold policyReferences at h
  obtain ⟨l, hl, hmem⟩ := List.mem_flatten.mp h
  obtain ⟨r, -, rfl⟩ := List.mem_map.mp hl
  exact ruleReferences_policyID groupID policy r ref hmem

theorem expectedReferences_cons (groupID : String) (policy : NetbirdPolicy)
    (rest : List NetbirdPolicy) :
    expectedReferences groupID (policy :: rest) =
      policyReferences groupID policy ++ expectedReferences groupID rest := by
  simp [expectedReferences, policyReferences]

theorem firstOccurrences_references (groupID : String) (policies : List NetbirdPolicy)
    (seen : List String) :
    firstOccurrences seen ((expectedReferences groupID policies).map (fun r => r.PolicyID)) =
      firstOccurrences seen
        ((policies.filter (policyMentions groupID)).map (fun p => p.ID)) := by
  induction policies generalizing seen with
  | nil => simp [expectedReferences]
  | cons policy rest ih =>
    rw [expectedReferences_cons, List.map_append]
    by_cases hm : policyMentions groupID policy = true
    · have hne : (policyReferences groupID policy).map (fun r => r.PolicyID) ≠ [] := by
        intro h
        have h2 := (policyReferences_eq_nil groupID policy).mp (List.map_eq_nil_iff.mp h)
        rw [hm] at h2
        cases h2
      have hall : ∀ x ∈ (policyReferences groupID policy).map (fun r => r.PolicyID),
          x = policy.ID := by
        intro x hx
        obtain ⟨r, hr, rfl⟩ := List.mem_map.mp hx
        exact policyReferences_policyID groupID policy r hr
      rw [firstOccurrences_block seen _ _ policy.ID hall hne, List.filter_cons, if_pos hm,
        List.map_cons]
      by_cases hseen : policy.ID ∈ seen
      · simp only [firstOccurrences, if_pos hseen]
        exact ih seen
      · simp only [firstOccurrences, if_neg hseen]
        rw [ih]
    · have hm2 : policyMentions groupID policy = false := by simpa using hm
      have hnil := (policyReferences_eq_nil groupID policy).mpr hm2
      rw [hnil, List.map_nil, List.nil_append, List.filter_cons, if_neg hm]
      exact ih seen

theorem C2_witness :
    Event.putPolicy "policy-1" (forceBody "g" mixedPolicy) none ∈
        (DeleteGroupForce (exampleGateway [mixedPolicy] [] [] false) "g"
          { state := 0, trace := [] }).client.trace ∧
    ∃ (policy : NetbirdPolicy) (kept : List NetbirdPolicyRule) (sent : List GoValue),
      Event.getPolicy "policy-1" (.ok policy) ∈
        (DeleteGroupForce (exampleGateway [mixedPolicy] [] [] false) "g"
          { state := 0, trace := [] }).client.trace ∧
      kept.Sublist policy.Rules ∧
      forceBody "g" mixedPolicy = .object [("name", .string policy.Name),
        ("description", .string policy.Description), ("enabled", .bool policy.Enabled),
        ("rules", .slice sent)] ∧
      List.Forall₂ (SentWithoutGroup "g") kept sent :=
  ⟨List.Mem.tail _ (List.Mem.tail _ (List.Mem.head _)),
   C2_forceDelete_sent_rules_omit_group (exampleGateway [mixedPolicy] [] [] false) "g" 0
    "policy-1" (forceBody "g" mixedPolicy) none
    (List.Mem.tail _ (List.Mem.tail _ (List.Mem.head _)))⟩

theorem C1_witness :
    ((exampleGateway [mixedPolicy, scenarioPolicy] [] [] false).getPolicies 0).1 =
        Except.ok [mixedPolicy, scenarioPolicy] ∧
    (ListPoliciesByGroup (exampleGateway [mixedPolicy, scenarioPolicy] [] [] false) "g"
        { state := 0, trace := [] }).1 =
      Except.ok (expectedReferences "g" [mixedPolicy, scenarioPolicy]) ∧
    (expectedReferences "g" [mixedPolicy, scenarioPolicy]).length =
      ([mixedPolicy, scenarioPolicy].map
        (fun policy => (policy.Rules.map (locationCount "g")).sum)).sum :=
  ⟨rfl, C1_listPoliciesByGroup_exact (exampleGateway [mixedPolicy, scenarioPolicy] [] [] false)
    "g" { state := 0, trace := [] } [mixedPolicy, scenarioPolicy] rfl⟩

/-- The example scenario of the specification yields exactly three references, one per
location. -/
theorem scenario_three_references :
    expectedReferences "g" [scenarioPolicy] =
      [{ PolicyID := "policy-2", PolicyName := "policy-2", RuleID := "rule-1",
         RuleName := "rule-1", Location := "sources" },
       { PolicyID := "policy-2", PolicyName := "policy-2", RuleID := "rule-1",
         RuleName := "rule-1", Location := "destinations" },
       { PolicyID := "policy-2", PolicyName := "policy-2", RuleID := "rule-1",
         RuleName := "rule-1", Location := "authorized_groups" }] := by
  decide

/-- Of the two rules of the example policy only the first is kept, without the group. -/
theorem mixed_policy_kept_rules :
    validRulesFrom "g" mixedPolicy.Rules [] =
      [{ exampleRule "rule-1" ["other"] ["dest"] (some [("h", none)]) with }] := by
  decide

theorem C4_witness :
    (Event.getPolicy "policy-2" (.ok scenarioPolicy) ∈
        (DeleteGroupForce (exampleGateway [scenarioPolicy] [] [] false) "g"
          { state := 0, trace := [] }).client.trace ∧
      scenarioPolicy.Rules.filter (keepsRule "g") = []) ∧
    (∃ outcome, Event.deletePolicy "policy-2" outcome ∈
      (DeleteGroupForce (exampleGateway [scenarioPolicy] [] [] false) "g"
        { state := 0, trace := [] }).client.trace) ∧
    (∀ body outcome, Event.putPolicy "policy-2" body outcome ∉
      (DeleteGroupForce (exampleGateway [scenarioPolicy] [] [] false) "g"
        { state := 0, trace := [] }).client.trace) ∧
    ∃ res, (DeleteGroupForce (exampleGateway [scenarioPolicy] [] [] false) "g"
        { state := 0, trace := [] }).result = some res ∧
      "policy-2" ∈ res.PoliciesModified :=
  ⟨⟨List.Mem.tail _ (List.Mem.head _), by decide⟩,
   C4_forceDelete_deletes_emptied_policy (exampleGateway [scenarioPolicy] [] [] false) "g" 0
    "policy-2" scenarioPolicy (List.Mem.tail _ (List.Mem.head _)) (by decide)⟩

/-- The example scenario of the specification, run: the policy is fetched, deleted and
reported as modified, and the group is deleted. -/
theorem scenario_force_delete :
    (DeleteGroupForce (exampleGateway [scenarioPolicy] [] [] false) "g"
        { state := 0, trace := [] }).client.trace =
      [Event.getPolicies (.ok [scenarioPolicy]),
       Event.getPolicy "policy-2" (.ok scenarioPolicy),
       Event.deletePolicy "policy-2" none, Event.deleteGroup "g" none] ∧
    (DeleteGroupForce (exampleGateway [scenarioPolicy] [] [] false) "g"
        { state := 0, trace := [] }).result =
      some { GroupID := "g", PoliciesModified := ["policy-2"], Deleted := true, Errors := [] } ∧
    (DeleteGroupForce (exampleGateway [scenarioPolicy] [] [] false) "g"
        { state := 0, trace := [] }).err = none :=
  ⟨rfl, rfl, rfl⟩

theorem C5_witness :
    ((exampleGateway [mixedPolicy, scenarioPolicy] [] [] false).getPolicies 0).1 =
        Except.ok [mixedPolicy, scenarioPolicy] ∧
    ∃ (visits : List Visit) (outcomes : List (Option String)) (gerr : Option String),
      visits.map Visit.policyID =
        firstOccurrences []
          ((expectedReferences "g" [mixedPolicy, scenarioPolicy]).map (fun r => r.PolicyID)) ∧
      (visits.map Visit.policyID).Nodup ∧
      (∀ v ∈ visits, v.consistent "g" ∧
        ((∃ resp, v.events "g" = [Event.getPolicy v.policyID resp]) ∨
          (∃ policy body outcome, v.events "g" =
            [Event.getPolicy v.policyID (.ok policy),
             Event.putPolicy v.policyID body outcome]))) ∧
      outcomes.length = (visits.filterMap Visit.toDelete).length ∧
      (DeleteGroupForce (exampleGateway [mixedPolicy, scenarioPolicy] [] [] false) "g"
          { state := 0, trace := [] }).client.trace =
        [Event.getPolicies (.ok [mixedPolicy, scenarioPolicy])] ++
          (visits.map (Visit.events "g")).flatten ++
          List.zipWith Event.deletePolicy (visits.filterMap Visit.toDelete) outcomes ++
          [Event.deleteGroup "g" gerr] :=
  ⟨rfl, C5_forceDelete_call_order (exampleGateway [mixedPolicy, scenarioPolicy] [] [] false)
    "g" 0 [mixedPolicy, scenarioPolicy] rfl⟩

/-- The calls of a run over two referencing policies, one updated and one emptied. -/
theorem two_policies_call_order :
    (DeleteGroupForce (exampleGateway [mixedPolicy, scenarioPolicy] [] [] false) "g"
        { state := 0, trace := [] }).client.trace =
      [Event.getPolicies (.ok [mixedPolicy, scenarioPolicy]),
       Event.getPolicy "policy-1" (.ok mixedPolicy),
       Event.putPolicy "policy-1" (forceBody "g" mixedPolicy) none,
       Event.getPolicy "policy-2" (.ok scenarioPolicy),
       Event.deletePolicy "policy-2" none, Event.deleteGroup "g" none] :=
  rfl

theorem C6_witness :
    ((exampleGateway [mixedPolicy] ["policy-1"] [] true).getPolicies 0).1 =
        Except.ok [mixedPolicy] ∧
    ∃ (visits : List Visit) (outcomes : List (Option String)) (gerr : Option String)
      (res : ForceDeleteResult),
      (DeleteGroupForce (exampleGateway [mixedPolicy] ["policy-1"] [] true) "g"
          { state := 0, trace := [] }).client.trace =
        [Event.getPolicies (.ok [mixedPolicy])] ++ (visits.map (Visit.events "g")).flatten ++
          List.zipWith Event.deletePolicy (visits.filterMap Visit.toDelete) outcomes ++
          [Event.deleteGroup "g" gerr] ∧
      (DeleteGroupForce (exampleGateway [mixedPolicy] ["policy-1"] [] true) "g"
          { state := 0, trace := [] }).result = some res ∧
      res.GroupID = "g" ∧
      res.PoliciesModified = visits.filterMap Visit.modified ∧
      res.Errors = visits.filterMap Visit.error ++
        (List.zipWith deleteError (visits.filterMap Visit.toDelete) outcomes).filterMap
          (fun e => e) ++
        groupDeleteErrors gerr ∧
      (((DeleteGroupForce (exampleGateway [mixedPolicy] ["policy-1"] [] true) "g"
            { state := 0, trace := [] }).err = none ∧
          res.Deleted = true) ↔ gerr = none) ∧
      (∀ e, gerr = some e →
        (DeleteGroupForce (exampleGateway [mixedPolicy] ["policy-1"] [] true) "g"
            { state := 0, trace := [] }).err =
          some ("deleting group: " ++ e) ∧
        res.Deleted = false ∧ groupDeleteErrors gerr = ["deleting group: " ++ e]) :=
  ⟨rfl, C6_forceDelete_result_and_error (exampleGateway [mixedPolicy] ["policy-1"] [] true)
    "g" 0 [mixedPolicy] rfl⟩

/-- A run whose update and group deletion both fail: the result is returned with the
error and carries both failures. -/
theorem failed_group_delete_result :
    (DeleteGroupForce (exampleGateway [mixedPolicy] ["policy-1"] [] true) "g"
        { state := 0, trace := [] }).result =
      some { GroupID := "g", PoliciesModified := [], Deleted := false,
             Errors := ["policy policy-1: updating: update refused",
                        "deleting group: group in use"] } ∧
    (DeleteGroupForce (exampleGateway [mixedPolicy] ["policy-1"] [] true) "g"
        { state := 0, trace := [] }).err = some "deleting group: group in use" := by
  decide

/-- C7, as stated, fails: when the listing fails the operation returns an error and a nil
result although no group deletion was attempted. -/
theorem C7_counterexample_listing_failure :
    (DeleteGroupForce failingGateway "g" { state := 0, trace := [] }).err =
      some "finding policies with group g: fetching policies: unreachable" ∧
    (DeleteGroupForce failingGateway "g" { state := 0, trace := [] }).result = none ∧
    (DeleteGroupForce failingGateway "g" { state := 0, trace := [] }).client.trace =
      [Event.getPolicies (.error "unreachable")] :=
  ⟨by decide, by decide, rfl⟩

theorem C7_witness :
    (DeleteGroupForce (exampleGateway [mixedPolicy] ["policy-1"] [] false) "g"
        { state := 0, trace := [] }).err = none ∧
    "policy " ++ "policy-1" ++ ": updating: " ++ "update refused" ∈
      ["policy policy-1: updating: update refused"] :=
  ⟨by decide,
   ((C7_forceDelete_terminal_errors (exampleGateway [mixedPolicy] ["policy-1"] [] false)
      "g" 0).2 _ rfl).2.1 "policy-1" (forceBody "g" mixedPolicy) "update refused"
      (List.Mem.tail _ (List.Mem.tail _ (List.Mem.head _)))⟩

/-- C8 fails on the code: a policy that kept no rule is listed in `PoliciesModified` when
it is scheduled for deletion, so it stays listed when its `DELETE` fails, next to the error
that reports the failure. -/
theorem C8_failed_delete_still_listed :
    (DeleteGroupForce (exampleGateway [scenarioPolicy] [] ["policy-2"] false) "g"
        { state := 0, trace := [] }).client.trace =
      [Event.getPolicies (.ok [scenarioPolicy]),
       Event.getPolicy "policy-2" (.ok scenarioPolicy),
       Event.deletePolicy "policy-2" (some "delete refused"), Event.deleteGroup "g" none] ∧
    (DeleteGroupForce (exampleGateway [scenarioPolicy] [] ["policy-2"] false) "g"
        { state := 0, trace := [] }).result =
      some { GroupID := "g", PoliciesModified := ["policy-2"], Deleted := true,
             Errors := ["policy policy-2: deleting: delete refused"] } ∧
    (DeleteGroupForce (exampleGateway [scenarioPolicy] [] ["policy-2"] false) "g"
        { state := 0, trace := [] }).err = none :=
  ⟨rfl, by decide, by decide⟩

/-- The calls of the run of the example above: the policy that does not mention the group
is neither fetched nor updated. -/
theorem replace_example_calls :
    (ReplaceGroupInPolicies (exampleGateway [replacePolicyA, replacePolicyB, replacePolicyC]
        [] [] false) "old" "new" { state := 0, trace := [] }).client.trace =
      [Event.getPolicies (.ok [replacePolicyA, replacePolicyB, replacePolicyC]),
       Event.getPolicy "policy-a" (.ok replacePolicyA),
       Event.putPolicy "policy-a" (replaceBody "old" "new" replacePolicyA) none,
       Event.getPolicy "policy-c" (.ok replacePolicyC),
       Event.putPolicy "policy-c" (replaceBody "old" "new" replacePolicyC) none] :=
  rfl

theorem C10_witness :
    Event.putPolicy "policy-a" replacedBodyA none ∈
        (ReplaceGroupInPolicies
          (exampleGateway [replacePolicyA, replacePolicyB, replacePolicyC] [] [] false)
          "old" "new" { state := 0, trace := [] }).client.trace ∧
    ∃ (policy : NetbirdPolicy) (sent : List GoValue),
      Event.getPolicy "policy-a" (.ok policy) ∈
        (ReplaceGroupInPolicies
          (exampleGateway [replacePolicyA, replacePolicyB, replacePolicyC] [] [] false)
          "old" "new" { state := 0, trace := [] }).client.trace ∧
      replacedBodyA = .object [("name", .string policy.Name),
        ("description", .string policy.Description), ("enabled", .bool policy.Enabled),
        ("rules", .slice sent)] ∧
      sent.length = policy.Rules.length ∧
      List.Forall₂ (SentReplaced "old" "new") policy.Rules sent :=
  ⟨List.Mem.tail _ (List.Mem.tail _ (List.Mem.head _)),
   C10_replace_put_body
    (exampleGateway [replacePolicyA, replacePolicyB, replacePolicyC] [] [] false)
    "old" "new" 0 "policy-a" replacedBodyA none
    (List.Mem.tail _ (List.Mem.tail _ (List.Mem.head _)))⟩

/-- The first rule of the example as it is sent: the old ID is replaced at both of its
occurrences among the sources and as a key of the authorized groups. -/
theorem replace_example_sent_rule :
    GoMap.get (sentRule (replacedRule "old" "new"
        (exampleRule "rule-1" ["old", "x", "old"] ["y"]
          (some [("old", some ["u1", "u2"]), ("other", some ["u3"])])))) "sources" =
      some (.strings ["new", "x", "new"]) ∧
    GoMap.get (sentRule (replacedRule "old" "new"
        (exampleRule "rule-1" ["old", "x", "old"] ["y"]
          (some [("old", some ["u1", "u2"]), ("other", some ["u3"])])))) "authorized_groups" =
      some (.object [("other", .slice [.string "u3"]),
        ("new", .slice [.string "u1", .string "u2"])]) :=
  ⟨rfl, rfl⟩

/-! ## Passes of `ReplaceGroupInPolicies` and failures (C11, C12) -/

theorem updatedID_eq_policyID (v : ReplaceVisit) (x : String)
    (h : v.updatedID = some x) : x = v.policyID := by
  cases v <;> simp [ReplaceVisit.updatedID] at h
  exact h.symm

theorem passes_sublist (updated ids : List String) (visits : List ReplaceVisit)
    (hpass : PassesOf updated ids visits) :
    (visits.map ReplaceVisit.policyID).Sublist ids := by
  induction ids generalizing updated visits with
  | nil =>
    simp only [PassesOf] at hpass
    subst hpass
    exact List.Sublist.slnil
  | cons id rest ih =>
    by_cases hseen : id ∈ updated
    · simp only [PassesOf, if_pos hseen] at hpass
      exact List.Sublist.cons _ (ih updated visits hpass)
    · simp only [PassesOf, if_neg hseen] at hpass
      obtain ⟨v, vs, rfl, hid, hrest⟩ := hpass
      rw [List.map_cons, hid]
      exact List.Sublist.cons₂ _ (ih _ vs hrest)

theorem passes_not_updated (updated ids : List String) (visits : List ReplaceVisit)
    (hpass : PassesOf updated ids visits) :
    ∀ v ∈ visits, v.policyID ∉ updated := by
  induction ids generalizing updated visits with
  | nil =>
    simp only [PassesOf] at hpass
    subst hpass
    simp
  | cons id rest ih =>
    by_cases hseen : id ∈ updated
    · simp only [PassesOf, if_pos hseen] at hpass
      exact ih updated visits hpass
    · simp only [PassesOf, if_neg hseen] at hpass
      obtain ⟨v, vs, rfl, hid, hrest⟩ := hpass
      intro w hw
      rcases List.mem_cons.mp hw with h | h
      · rw [h, hid]
        exact hseen
      · exact fun hmem => ih _ vs hrest w h (List.mem_append_left _ hmem)

theorem passes_none_after_update (updated ids : List String)
    (pre post : List ReplaceVisit) (v : ReplaceVisit) (x : String)
    (hpass : PassesOf updated ids (pre ++ v :: post)) (hv : v.updatedID = some x) :
    ∀ w ∈ post, w.policyID ≠ x := by
  induction ids generalizing updated pre with
  | nil =>
    simp only [PassesOf] at hpass
    simp at hpass
  | cons id rest ih =>
    by_cases hseen : id ∈ updated
    · simp only [PassesOf, if_pos hseen] at hpass
      exact ih updated pre hpass
    · simp only [PassesOf, if_neg hseen] at hpass
      obtain ⟨v0, vs, heq, -, hrest⟩ := hpass
      cases pre with
      | nil =>
        simp only [List.nil_append, List.cons.injEq] at heq
        obtain ⟨h1, h2⟩ := heq
        subst h1 h2
        intro w hw hwx
        have hnot := passes_not_updated _ _ _ hrest w hw
        apply hnot
        simp [hv, hwx]
      | cons p pre2 =>
        simp only [List.cons_append, List.cons.injEq] at heq
        obtain ⟨-, h2⟩ := heq
        subst h2
        exact ih _ pre2 hrest

theorem passes_updated_nodup (updated ids : List String) (visits : List ReplaceVisit)
    (hpass : PassesOf updated ids visits) :
    (visits.filterMap ReplaceVisit.updatedID).Nodup := by
  induction visits generalizing updated ids with
  | nil => simp
  | cons v vs ih =>
    have hsplit : PassesOf updated ids ([] ++ v :: vs) := hpass
    have htail : ∃ u2 ids2, PassesOf u2 ids2 vs := by
      clear hsplit ih
      induction ids generalizing updated with
      | nil =>
        simp only [PassesOf] at hpass
        cases hpass
      | cons id rest ihh =>
        by_cases hseen : id ∈ updated
        · simp only [PassesOf, if_pos hseen] at hpass
          exact ihh updated hpass
        · simp only [PassesOf, if_neg hseen] at hpass
          obtain ⟨v0, vs0, heq, -, hrest⟩ := hpass
          simp only [List.cons.injEq] at heq
          obtain ⟨-, h2⟩ := heq
          subst h2
          exact ⟨_, _, hrest⟩
    obtain ⟨u2, ids2, hp2⟩ := htail
    have hnd := ih u2 ids2 hp2
    cases hu : v.updatedID with
    | none => simpa [List.filterMap_cons, hu] using hnd
    | some x =>
      simp only [List.filterMap_cons, hu]
      refine List.nodup_cons.mpr ⟨?_, hnd⟩
      intro hmem
      obtain ⟨w, hw, hwx⟩ := List.mem_filterMap.mp hmem
      exact passes_none_after_update updated ids [] vs v x hsplit hu w hw
        (updatedID_eq_policyID w x hwx).symm

theorem passes_visit_of_mem (updated ids : List String) (visits : List ReplaceVisit)
    (hpass : PassesOf updated ids visits) (x : String) (hx : x ∈ ids)
    (hnot : x ∉ updated) : ∃ v ∈ visits, v.policyID = x := by
  induction ids generalizing updated visits with
  | nil => simp at hx
  | cons id rest ih =>
    by_cases hseen : id ∈ updated
    · simp only [PassesOf, if_pos hseen] at hpass
      rcases List.mem_cons.mp hx with h | h
      · exact absurd (h ▸ hseen) hnot
      · exact ih updated visits hpass h hnot
    · simp only [PassesOf, if_neg hseen] at hpass
      obtain ⟨v, vs, rfl, hid, hrest⟩ := hpass
      by_cases hxid : x = id
      · exact ⟨v, List.mem_cons_self _ _, hid.trans hxid.symm⟩
      · have hx2 : x ∈ rest := by
          rcases List.mem_cons.mp hx with h | h
          · exact absurd h hxid
          · exact h
        have hnot2 : x ∉ updated ++ [v].filterMap ReplaceVisit.updatedID := by
          intro hmem
          rcases List.mem_append.mp hmem with h | h
          · exact hnot h
          · obtain ⟨w, hw, hwx⟩ := List.mem_filterMap.mp h
            rw [List.mem_singleton] at hw
            subst hw
            exact hxid ((updatedID_eq_policyID w x hwx).trans hid)
        obtain ⟨w, hw, hwid⟩ := ih _ vs hrest hx2 hnot2
        exact ⟨w, List.mem_cons_of_mem _ hw, hwid⟩

theorem mem_keys_setError (m : List (String × String)) (k v x : String) :
    x ∈ (setError m k v).map Prod.fst ↔ x = k ∨ x ∈ m.map Prod.fst := by
  induction m with
  | nil => simp [setError]
  | cons kv rest ih =>
    by_cases h : kv.1 = k
    · rw [setError, if_pos h]
      simp only [List.map_cons, List.mem_cons]
      constructor
      · rintro (h1 | h1)
        · exact Or.inl h1
        · exact Or.inr (Or.inr h1)
      · rintro (h1 | h1 | h1)
        · exact Or.inl h1
        · exact Or.inl (h1.trans h)
        · exact Or.inr h1
    · rw [setError, if_neg h]
      simp only [List.map_cons, List.mem_cons, ih]
      constructor
      · rintro (h1 | h1 | h1)
        · exact Or.inr (Or.inl h1)
        · exact Or.inl h1
        · exact Or.inr (Or.inr h1)
      · rintro (h1 | h1 | h1)
        · exact Or.inr (Or.inl h1)
        · exact Or.inl h1
        · exact Or.inr (Or.inr h1)

theorem record_keeps_keys (errors : List (String × String)) (v : ReplaceVisit) (x : String)
    (hx : x ∈ errors.map Prod.fst) : x ∈ (v.record errors).map Prod.fst := by
  cases v with
  | fetchFailed i e => exact (mem_keys_setError _ _ _ _).mpr (Or.inr hx)
  | unchanged i p => exact hx
  | updateFailed i p e => exact (mem_keys_setError _ _ _ _).mpr (Or.inr hx)
  | updated i p => exact hx

theorem foldl_record_keeps_keys (visits : List ReplaceVisit) (errors : List (String × String))
    (x : String) (hx : x ∈ errors.map Prod.fst) :
    x ∈ (visits.foldl ReplaceVisit.record errors).map Prod.fst := by
  induction visits generalizing errors with
  | nil => exact hx
  | cons v vs ih => exact ih _ (record_keeps_keys errors v x hx)

/-- The ID of a pass whose fetch or update failed is a key of the `Errors` map from then
on. -/
theorem foldl_record_failed_key (visits : List ReplaceVisit) (errors : List (String × String))
    (v : ReplaceVisit) (hv : v ∈ visits)
    (hfail : (∃ e, v = .fetchFailed v.policyID e) ∨ (∃ p e, v = .updateFailed v.policyID p e)) :
    v.policyID ∈ (visits.foldl ReplaceVisit.record errors).map Prod.fst := by
  induction visits generalizing errors with
  | nil => simp at hv
  | cons w ws ih =>
    rcases List.mem_cons.mp hv with h | h
    · subst h
      rw [List.foldl_cons]
      apply foldl_record_keeps_keys
      rcases hfail with ⟨e, he⟩ | ⟨p, e, he⟩
      · rw [he]
        exact (mem_keys_setError _ _ _ _).mpr (Or.inl rfl)
      · rw [he]
        exact (mem_keys_setError _ _ _ _).mpr (Or.inl rfl)
    · exact ih _ h

theorem mem_replace_trace (oldGroupID newGroupID : String) (policies : List NetbirdPolicy)
    (visits : List ReplaceVisit) (ev : Event) :
    ev ∈ ([] : List Event) ++ [Event.getPolicies (.ok policies)] ++
        (visits.map (ReplaceVisit.events oldGroupID newGroupID)).flatten ↔
      ev = Event.getPolicies (.ok policies) ∨
        ∃ v ∈ visits, ev ∈ v.events oldGroupID newGroupID := by
  simp only [List.nil_append, List.mem_append, List.mem_singleton, List.mem_flatten,
    List.mem_map]
  constructor
  · rintro (h | ⟨l, ⟨v, hv, rfl⟩, h⟩)
    · exact Or.inl h
    · exact Or.inr ⟨v, hv, h⟩
  · rintro (h | ⟨v, hv, h⟩)
    · exact Or.inl h
    · exact Or.inr ⟨_, ⟨v, hv, rfl⟩, h⟩

theorem replaceVisit_of_get_error (oldGroupID newGroupID : String) (v : ReplaceVisit)
    (id e : String)
    (h : Event.getPolicy id (.error e) ∈ v.events oldGroupID newGroupID) :
    v = .fetchFailed id e := by
  cases v <;> simp [ReplaceVisit.events] at h
  obtain ⟨h1, h2⟩ := h
  subst h1 h2
  rfl

theorem mem_updatedIDs (visits : List ReplaceVisit) (x : String) :
    x ∈ visits.filterMap ReplaceVisit.updatedID ↔ ∃ p, ReplaceVisit.updated x p ∈ visits := by
  rw [List.mem_filterMap]
  constructor
  · rintro ⟨v, hv, h⟩
    cases v <;> simp [ReplaceVisit.updatedID] at h
    subst h
    exact ⟨_, hv⟩
  · rintro ⟨p, hp⟩
    exact ⟨_, hp, rfl⟩

/-- What `ReplaceGroupInPolicies` returns when calls fail, the listing having succeeded: a
nil error whatever happens to the policies; the ID of a policy whose fetch or update failed
is a key of `Errors`; an ID is in `UpdatedPolicyIDs` exactly when a `PUT` for it succeeded;
and a listed policy that mentions the old group, whose fetches return it as listed and
whose updates succeed, is in `UpdatedPolicyIDs`, whatever fails for the other policies. -/
theorem replace_partial_failure {σ : Type} (gw : Gateway σ)
    (oldGroupID newGroupID : String) (s : σ) (policies : List NetbirdPolicy)
    (hlist : (gw.getPolicies s).1 = Except.ok policies) :
    (ReplaceGroupInPolicies gw oldGroupID newGroupID { state := s, trace := [] }).err = none ∧
    ∃ res,
      (ReplaceGroupInPolicies gw oldGroupID newGroupID { state := s, trace := [] }).result =
        some res ∧
      (∀ id e, Event.getPolicy id (.error e) ∈
          (ReplaceGroupInPolicies gw oldGroupID newGroupID
            { state := s, trace := [] }).client.trace →
        id ∈ res.Errors.map Prod.fst) ∧
      (∀ id body e, Event.putPolicy id body (some e) ∈
          (ReplaceGroupInPolicies gw oldGroupID newGroupID
            { state := s, trace := [] }).client.trace →
        id ∈ res.Errors.map Prod.fst) ∧
      (∀ id, id ∈ res.UpdatedPolicyIDs ↔
        ∃ body, Event.putPolicy id body none ∈
          (ReplaceGroupInPolicies gw oldGroupID newGroupID
            { state := s, trace := [] }).client.trace) ∧
      (∀ p ∈ policies, policyMentions oldGroupID p = true →
        (∀ s2, (gw.getPolicy p.ID s2).1 = Except.ok p) →
        (∀ body s2, (gw.putPolicy p.ID body s2).1 = none) →
        p.ID ∈ res.UpdatedPolicyIDs) := by
  obtain ⟨visits, hpass, hvis, htrace, hres, herr⟩ :=
    ReplaceGroupInPolicies_run gw oldGroupID newGroupID { state := s, trace := [] }
      policies hlist
  refine ⟨herr, _, hres, ?_, ?_, ?_, ?_⟩
  · intro id e hmem
    rw [htrace, mem_replace_trace] at hmem
    rcases hmem with h | ⟨v, hv, h⟩
    · simp at h
    · have hv_eq := replaceVisit_of_get_error oldGroupID newGroupID v id e h
      subst hv_eq
      exact foldl_record_failed_key visits [] _ hv (Or.inl ⟨e, rfl⟩)
  · intro id body e hmem
    rw [htrace, mem_replace_trace] at hmem
    rcases hmem with h | ⟨v, hv, h⟩
    · simp at h
    · obtain ⟨-, p, -, -, hk⟩ := replaceVisit_of_put oldGroupID newGroupID v id body (some e) h
      rcases hk with ⟨err, hk, herr2⟩ | ⟨-, hk⟩
      · subst hk
        exact foldl_record_failed_key visits [] _ hv (Or.inr ⟨p, err, rfl⟩)
      · cases hk
  · intro id
    show id ∈ visits.filterMap ReplaceVisit.updatedID ↔ _
    rw [mem_updatedIDs, htrace]
    constructor
    · rintro ⟨p, hp⟩
      exact ⟨replaceBody oldGroupID newGroupID p, (mem_replace_trace _ _ _ _ _).mpr
        (Or.inr ⟨_, hp, by simp [ReplaceVisit.events]⟩)⟩
    · rintro ⟨body, hmem⟩
      rw [mem_replace_trace] at hmem
      rcases hmem with h | ⟨v, hv, h⟩
      · simp at h
      · obtain ⟨-, p, -, -, hk⟩ := replaceVisit_of_put oldGroupID newGroupID v id body none h
        rcases hk with ⟨err, -, hk⟩ | ⟨hk, -⟩
        · cases hk
        · subst hk
          exact ⟨p, hv⟩
  · intro p hp hm hget hput
    show p.ID ∈ visits.filterMap ReplaceVisit.updatedID
    have hmem : p.ID ∈ (expectedReferences oldGroupID policies).map (fun r => r.PolicyID) := by
      have h1 : p.ID ∈ firstOccurrences []
          ((expectedReferences oldGroupID policies).map (fun r => r.PolicyID)) := by
        rw [firstOccurrences_references, mem_firstOccurrences]
        exact ⟨List.mem_map.mpr ⟨p, List.mem_filter.mpr ⟨hp, hm⟩, rfl⟩, by simp⟩
      exact ((mem_firstOccurrences _ _ _).mp h1).1
    obtain ⟨v, hv, hvid⟩ := passes_visit_of_mem _ _ _ hpass p.ID hmem (by simp)
    obtain ⟨hc, ha, -⟩ := hvis v hv
    rw [mem_updatedIDs]
    cases v with
    | fetchFailed i e =>
      obtain ⟨s2, h⟩ := ha
      have hi : i = p.ID := hvid
      subst hi
      rw [hget s2] at h
      cases h
    | unchanged i q =>
      obtain ⟨s2, h⟩ := ha
      have hi : i = p.ID := hvid
      subst hi
      rw [hget s2] at h
      cases h
      simp only [ReplaceVisit.consistent] at hc
      rw [hm] at hc
      cases hc
    | updateFailed i q e =>
      obtain ⟨-, s2, h⟩ := ha
      have hi : i = p.ID := hvid
      subst hi
      rw [hput] at h
      cases h
    | updated i q =>
      have hi : i = p.ID := hvid
      subst hi
      exact ⟨q, hv⟩

/-- C11: the policy `policy-t` references the old group in two rules and its first fetch
fails. `ReplaceGroupInPolicies` marks a policy as done only after a successful update, so
the pass made for the second reference fetches the policy again and updates it: the ID of
the policy whose fetch failed is a key of `Errors` and is also in `UpdatedPolicyIDs`. On
the same gateway `DeleteGroupForce`, which marks a policy before it fetches it, makes no
second pass. -/
theorem C11_failed_policy_listed_as_updated :
    (ReplaceGroupInPolicies (flakyGateway [twiceReferencedPolicy] [1]) "old" "new"
        { state := 0, trace := [] }).client.trace =
      [Event.getPolicies (.ok [twiceReferencedPolicy]),
       Event.getPolicy "policy-t" (.error "temporarily unavailable"),
       Event.getPolicy "policy-t" (.ok twiceReferencedPolicy),
       Event.putPolicy "policy-t" (replaceBody "old" "new" twiceReferencedPolicy) none] ∧
    (ReplaceGroupInPolicies (flakyGateway [twiceReferencedPolicy] [1]) "old" "new"
        { state := 0, trace := [] }).result =
      some { UpdatedPolicyIDs := ["policy-t"]
             Errors := [("policy-t", "fetching policy: temporarily unavailable")] } ∧
    (ReplaceGroupInPolicies (flakyGateway [twiceReferencedPolicy] [1]) "old" "new"
        { state := 0, trace := [] }).err = none ∧
    (DeleteGroupForce (flakyGateway [twiceReferencedPolicy] [1]) "old"
        { state := 0, trace := [] }).client.trace =
      [Event.getPolicies (.ok [twiceReferencedPolicy]),
       Event.getPolicy "policy-t" (.error "temporarily unavailable"),
       Event.deleteGroup "old" none] :=
  ⟨rfl, by decide, rfl, rfl⟩

theorem replace_partial_failure_example :
    ((exampleGateway [replacePolicyA, replacePolicyC] ["policy-a"] [] false).getPolicies 0).1 =
        Except.ok [replacePolicyA, replacePolicyC] ∧
    (ReplaceGroupInPolicies (exampleGateway [replacePolicyA, replacePolicyC] ["policy-a"] []
        false) "old" "new" { state := 0, trace := [] }).err = none ∧
    ∃ res,
      (ReplaceGroupInPolicies (exampleGateway [replacePolicyA, replacePolicyC] ["policy-a"] []
          false) "old" "new" { state := 0, trace := [] }).result = some res ∧
      (∀ id e, Event.getPolicy id (.error e) ∈
          (ReplaceGroupInPolicies (exampleGateway [replacePolicyA, replacePolicyC]
            ["policy-a"] [] false) "old" "new" { state := 0, trace := [] }).client.trace →
        id ∈ res.Errors.map Prod.fst) ∧
      (∀ id body e, Event.putPolicy id body (some e) ∈
          (ReplaceGroupInPolicies (exampleGateway [replacePolicyA, replacePolicyC]
            ["policy-a"] [] false) "old" "new" { state := 0, trace := [] }).client.trace →
        id ∈ res.Errors.map Prod.fst) ∧
      (∀ id, id ∈ res.UpdatedPolicyIDs ↔
        ∃ body, Event.putPolicy id body none ∈
          (ReplaceGroupInPolicies (exampleGateway [replacePolicyA, replacePolicyC]
            ["policy-a"] [] false) "old" "new" { state := 0, trace := [] }).client.trace) ∧
      (∀ p ∈ [replacePolicyA, replacePolicyC], policyMentions "old" p = true →
        (∀ s2, ((exampleGateway [replacePolicyA, replacePolicyC] ["policy-a"] []
          false).getPolicy p.ID s2).1 = Except.ok p) →
        (∀ body s2, ((exampleGateway [replacePolicyA, replacePolicyC] ["policy-a"] []
          false).putPolicy p.ID body s2).1 = none) →
        p.ID ∈ res.UpdatedPolicyIDs) :=
  ⟨rfl, replace_partial_failure
    (exampleGateway [replacePolicyA, replacePolicyC] ["policy-a"] [] false) "old" "new" 0
    [replacePolicyA, replacePolicyC] rfl⟩

/-- The run of the example above: the update of the first policy fails at each of its
three references, the second policy is updated all the same. -/
theorem partial_failure_result :
    (ReplaceGroupInPolicies (exampleGateway [replacePolicyA, replacePolicyC] ["policy-a"] []
        false) "old" "new" { state := 0, trace := [] }).result =
      some { UpdatedPolicyIDs := ["policy-c"]
             Errors := [("policy-a", "updating policy: update refused")] } := by
  decide

/-- The calls that `ReplaceGroupInPolicies` makes, the listing having succeeded: after the
listing they are those of a sequence of passes, at most one pass per reference and in the
order of the references; a pass is one `GET` of its policy followed by at most one `PUT` of
it; at most one pass updates a given policy, and no pass is made for a policy after the
pass that updated it. -/
theorem replace_passes {σ : Type} (gw : Gateway σ) (oldGroupID newGroupID : String)
    (s : σ) (policies : List NetbirdPolicy)
    (hlist : (gw.getPolicies s).1 = Except.ok policies) :
    ∃ visits : List ReplaceVisit,
      (ReplaceGroupInPolicies gw oldGroupID newGroupID
          { state := s, trace := [] }).client.trace =
        [Event.getPolicies (.ok policies)] ++
          (visits.map (ReplaceVisit.events oldGroupID newGroupID)).flatten ∧
      (visits.map ReplaceVisit.policyID).Sublist
        ((expectedReferences oldGroupID policies).map (fun r => r.PolicyID)) ∧
      (∀ v ∈ visits,
        (∃ resp, v.events oldGroupID newGroupID = [Event.getPolicy v.policyID resp]) ∨
        (∃ policy body outcome, v.events oldGroupID newGroupID =
          [Event.getPolicy v.policyID (.ok policy),
           Event.putPolicy v.policyID body outcome])) ∧
      (visits.filterMap ReplaceVisit.updatedID).Nodup ∧
      (∀ pre v post x, visits = pre ++ v :: post → v.updatedID = some x →
        ∀ w ∈ post, w.policyID ≠ x) ∧
      (∀ x, (visits.map ReplaceVisit.policyID).count x ≤
        ((expectedReferences oldGroupID policies).map (fun r => r.PolicyID)).count x) := by
  obtain ⟨visits, hpass, -, htrace, -, -⟩ :=
    ReplaceGroupInPolicies_run gw oldGroupID newGroupID { state := s, trace := [] }
      policies hlist
  have hsub := passes_sublist _ _ _ hpass
  refine ⟨visits, ?_, hsub, ?_, passes_updated_nodup _ _ _ hpass, ?_,
    fun x => hsub.count_le x⟩
  · rw [htrace]
    simp
  · intro v _
    cases v with
    | fetchFailed i e => exact Or.inl ⟨_, rfl⟩
    | unchanged i p => exact Or.inl ⟨_, rfl⟩
    | updateFailed i p e => exact Or.inr ⟨_, _, _, rfl⟩
    | updated i p => exact Or.inr ⟨_, _, _, rfl⟩
  · intro pre v post x hsplit hv
    rw [hsplit] at hpass
    exact passes_none_after_update _ _ pre post v x hpass hv

/-- C12: the policy `policy-a` references the old group at three places and its update
fails. `ReplaceGroupInPolicies` marks a policy as done only after a successful update, so
the policy is fetched and sent once per reference: three `GET` and three `PUT` for one
policy ID. On the same gateway `DeleteGroupForce`, which marks a policy before it fetches
it, fetches and sends the policy once. -/
theorem C12_failed_update_repeated_per_reference :
    (expectedReferences "old" [replacePolicyA]).map (fun r => r.PolicyID) =
      ["policy-a", "policy-a", "policy-a"] ∧
    (ReplaceGroupInPolicies (exampleGateway [replacePolicyA] ["policy-a"] [] false)
        "old" "new" { state := 0, trace := [] }).client.trace =
      [Event.getPolicies (.ok [replacePolicyA]),
       Event.getPolicy "policy-a" (.ok replacePolicyA),
       Event.putPolicy "policy-a" (replaceBody "old" "new" replacePolicyA)
         (some "update refused"),
       Event.getPolicy "policy-a" (.ok replacePolicyA),
       Event.putPolicy "policy-a" (replaceBody "old" "new" replacePolicyA)
         (some "update refused"),
       Event.getPolicy "policy-a" (.ok replacePolicyA),
       Event.putPolicy "policy-a" (replaceBody "old" "new" replacePolicyA)
         (some "update refused")] ∧
    (DeleteGroupForce (exampleGateway [replacePolicyA] ["policy-a"] [] false) "old"
        { state := 0, trace := [] }).client.trace =
      [Event.getPolicies (.ok [replacePolicyA]),
       Event.getPolicy "policy-a" (.ok replacePolicyA),
       Event.putPolicy "policy-a" (forceBody "old" replacePolicyA) (some "update refused"),
       Event.deleteGroup "old" none] :=
  ⟨rfl, rfl, rfl⟩

theorem replace_passes_example :
    ((flakyGateway [twiceReferencedPolicy, replacePolicyC] [1]).getPolicies 0).1 =
        Except.ok [twiceReferencedPolicy, replacePolicyC] ∧
    ∃ visits : List ReplaceVisit,
      (ReplaceGroupInPolicies (flakyGateway [twiceReferencedPolicy, replacePolicyC] [1])
          "old" "new" { state := 0, trace := [] }).client.trace =
        [Event.getPolicies (.ok [twiceReferencedPolicy, replacePolicyC])] ++
          (visits.map (ReplaceVisit.events "old" "new")).flatten ∧
      (visits.map ReplaceVisit.policyID).Sublist
        ((expectedReferences "old" [twiceReferencedPolicy, replacePolicyC]).map
          (fun r => r.PolicyID)) ∧
      (∀ v ∈ visits,
        (∃ resp, v.events "old" "new" = [Event.getPolicy v.policyID resp]) ∨
        (∃ policy body outcome, v.events "old" "new" =
          [Event.getPolicy v.policyID (.ok policy),
           Event.putPolicy v.policyID body outcome])) ∧
      (visits.filterMap ReplaceVisit.updatedID).Nodup ∧
      (∀ pre v post x, visits = pre ++ v :: post → v.updatedID = some x →
        ∀ w ∈ post, w.policyID ≠ x) ∧
      (∀ x, (visits.map ReplaceVisit.policyID).count x ≤
        ((expectedReferences "old" [twiceReferencedPolicy, replacePolicyC]).map
          (fun r => r.PolicyID)).count x) :=
  ⟨rfl, replace_passes (flakyGateway [twiceReferencedPolicy, replacePolicyC] [1])
    "old" "new" 0 [twiceReferencedPolicy, replacePolicyC] rfl⟩

/-! ## `FormatRuleForAPI` on any rule map (C13, C14, C15) -/

theorem goMap_get_set (m : GoMap) (k : String) (v : GoValue) (k2 : String) :
    GoMap.get (GoMap.set m k v) k2 = if k = k2 then some v else GoMap.get m k2 := by
  induction m with
  | nil => simp [GoMap.set, GoMap.get]
  | cons kv rest ih =>
    by_cases h : kv.1 = k
    · rw [GoMap.set, if_pos h]
      by_cases h2 : k = k2
      · simp [GoMap.get, h2]
      · have h3 : ¬ kv.1 = k2 := fun h4 => h2 (h.symm.trans h4)
        simp [GoMap.get, h2, h3]
    · rw [GoMap.set, if_neg h]
      by_cases h3 : kv.1 = k2
      · have h2 : ¬ k = k2 := fun h4 => h (h3.trans h4.symm)
        rw [GoMap.get, if_pos h3, if_neg h2, GoMap.get, if_pos h3]
      · rw [GoMap.get, if_neg h3, ih, GoMap.get, if_neg h3]

theorem goMap_set_keys (m : GoMap) (k : String) (v : GoValue)
    (h : (GoMap.get m k).isSome = true) :
    (GoMap.set m k v).map Prod.fst = m.map Prod.fst := by
  induction m with
  | nil => simp [GoMap.get] at h
  | cons kv rest ih =>
    by_cases hk : kv.1 = k
    · rw [GoMap.set, if_pos hk]
      simp [hk]
    · rw [GoMap.set, if_neg hk]
      rw [GoMap.get, if_neg hk] at h
      simp [ih h]

theorem convertItems_refs (fieldName : String) (xs : List GoValue) (i : Nat)
    (result : List String) (hall : ∀ x ∈ xs, (refID x).isSome = true) :
    ∃ ids, convertItems fieldName i xs result = .ok (result ++ ids) ∧
      xs.map refID = ids.map some := by
  induction xs generalizing i result with
  | nil => exact ⟨[], by simp [convertItems], rfl⟩
  | cons x rest ih =>
    have hx := hall x (List.mem_cons_self _ _)
    have hrest : ∀ y ∈ rest, (refID y).isSome = true :=
      fun y hy => hall y (List.mem_cons_of_mem _ hy)
    cases x with
    | string s =>
      obtain ⟨ids, h1, h2⟩ := ih (i + 1) (result ++ [s]) hrest
      refine ⟨s :: ids, ?_, by simp [refID, h2]⟩
      rw [convertItems, h1]
      simp
    | object m =>
      cases hid : GoMap.get m "id" with
      | none => simp [refID, hid] at hx
      | some v =>
        cases v with
        | string id =>
          obtain ⟨ids, h1, h2⟩ := ih (i + 1) (result ++ [id]) hrest
          refine ⟨id :: ids, ?_, by simp [refID, hid, h2]⟩
          rw [convertItems]
          simp only [hid]
          rw [h1]
          simp
        | _ => simp [refID, hid] at hx
    | _ => simp [refID] at hx

theorem convertItems_bad (fieldName : String) (pre post : List GoValue) (bad : GoValue)
    (i : Nat) (result : List String) (hpre : ∀ x ∈ pre, (refID x).isSome = true)
    (hbad : refID bad = none) :
    convertItems fieldName i (pre ++ bad :: post) result =
      .error (elementError fieldName (i + pre.length) bad) := by
  induction pre generalizing i result with
  | nil =>
    cases bad with
    | string s => simp [refID] at hbad
    | object m =>
      cases hid : GoMap.get m "id" with
      | none => simp [convertItems, hid, elementError]
      | some v =>
        cases v <;> first
          | (simp [refID, hid] at hbad; done)
          | simp [convertItems, hid, elementError]
    | _ => simp [convertItems, elementError]
  | cons x rest ih =>
    have hx := hpre x (List.mem_cons_self _ _)
    have hrest : ∀ y ∈ rest, (refID y).isSome = true :=
      fun y hy => hpre y (List.mem_cons_of_mem _ hy)
    have hidx : i + (x :: rest).length = (i + 1) + rest.length := by
      simp only [List.length_cons]
      omega
    rw [hidx]
    cases x with
    | string s =>
      rw [List.cons_append, convertItems]
      exact ih (i + 1) _ hrest
    | object m =>
      cases hid : GoMap.get m "id" with
      | none => simp [refID, hid] at hx
      | some v =>
        cases v with
        | string id =>
          rw [List.cons_append, convertItems]
          simp only [hid]
          exact ih (i + 1) _ hrest
        | _ => simp [refID, hid] at hx
    | _ => simp [refID] at hx

theorem exists_first_bad (xs : List GoValue) (h : ∃ x ∈ xs, refID x = none) :
    ∃ pre bad post, xs = pre ++ bad :: post ∧ (∀ x ∈ pre, (refID x).isSome = true) ∧
      refID bad = none := by
  induction xs with
  | nil => simp at h
  | cons x rest ih =>
    cases hx : refID x with
    | none => exact ⟨[], x, rest, rfl, by simp, hx⟩
    | some id =>
      obtain ⟨y, hy, hyn⟩ := h
      have hy2 : y ∈ rest := by
        rcases List.mem_cons.mp hy with h1 | h1
        · rw [h1, hx] at hyn
          cases hyn
        · exact h1
      obtain ⟨pre, bad, post, h1, h2, h3⟩ := ih ⟨y, hy2, hyn⟩
      refine ⟨x :: pre, bad, post, by rw [h1]; rfl, ?_, h3⟩
      intro z hz
      rcases List.mem_cons.mp hz with h4 | h4
      · rw [h4, hx]
        rfl
      · exact h2 z h4

theorem formatStage_eq (rule : GoMap) (field : String) (formatted : GoMap) :
    formatStage rule field formatted =
      match fieldOutcome rule field with
      | .error err => .error err
      | .ok ids => .ok (applyIDs field ids formatted) := by
  unfold formatStage fieldOutcome
  cases GoMap.get rule field with
  | none => rfl
  | some v =>
    cases v with
    | nil => rfl
    | bool b => simp only []; cases convertToStringArray (GoValue.bool b) field <;> rfl
    | int n => simp only []; cases convertToStringArray (GoValue.int n) field <;> rfl
    | float64 q => simp only []; cases convertToStringArray (GoValue.float64 q) field <;> rfl
    | string x => simp only []; cases convertToStringArray (GoValue.string x) field <;> rfl
    | strings xs => simp only []; cases convertToStringArray (GoValue.strings xs) field <;> rfl
    | slice xs => simp only []; cases convertToStringArray (GoValue.slice xs) field <;> rfl
    | object kvs => simp only []; cases convertToStringArray (GoValue.object kvs) field <;> rfl

theorem format_stages (rule : GoMap) :
    FormatRuleForAPI (some rule) =
      match formatStage rule "sources" rule with
      | .error err => .error err
      | .ok formatted => formatStage rule "destinations" formatted :=
  rfl

theorem format_eq (rule : GoMap) :
    FormatRuleForAPI (some rule) =
      match fieldOutcome rule "sources" with
      | .error err => .error err
      | .ok src =>
        match fieldOutcome rule "destinations" with
        | .error err => .error err
        | .ok dst => .ok (applyIDs "destinations" dst (applyIDs "sources" src rule)) := by
  rw [format_stages, formatStage_eq]
  cases fieldOutcome rule "sources" with
  | error e => rfl
  | ok src => exact formatStage_eq rule "destinations" _

theorem get_applyIDs (field : String) (ids : Option (List String)) (m : GoMap) (k : String) :
    GoMap.get (applyIDs field ids m) k =
      match ids with
      | none => GoMap.get m k
      | some xs => if field = k then some (GoValue.strings xs) else GoMap.get m k := by
  cases ids with
  | none => rfl
  | some xs => exact goMap_get_set m field _ k

theorem fieldOutcome_present (rule : GoMap) (field : String) (ids : List String)
    (h : fieldOutcome rule field = .ok (some ids)) :
    (GoMap.get rule field).isSome = true := by
  unfold fieldOutcome at h
  cases hg : GoMap.get rule field with
  | none => simp [hg] at h
  | some v => rfl

theorem fieldOutcome_skip (rule : GoMap) (field : String)
    (h : fieldOutcome rule field = .ok none) :
    GoMap.get rule field = none ∨ GoMap.get rule field = some GoValue.nil := by
  unfold fieldOutcome at h
  cases hg : GoMap.get rule field with
  | none => exact Or.inl rfl
  | some v =>
    cases v with
    | nil => exact Or.inr rfl
    | bool b => simp only [hg] at h; split at h <;> simp at h
    | int n => simp only [hg] at h; split at h <;> simp at h
    | float64 q => simp only [hg] at h; split at h <;> simp at h
    | string x => simp only [hg] at h; split at h <;> simp at h
    | strings xs => simp only [hg] at h; split at h <;> simp at h
    | slice xs => simp only [hg] at h; split at h <;> simp at h
    | object kvs => simp only [hg] at h; split at h <;> simp at h

theorem fieldOutcome_strings (rule : GoMap) (field : String) (xs : List String)
    (h : GoMap.get rule field = some (GoValue.strings xs)) :
    fieldOutcome rule field = .ok (some xs) := by
  simp [fieldOutcome, h, convertToStringArray]

theorem fieldOutcome_refs (rule : GoMap) (field : String) (xs : List GoValue)
    (h : GoMap.get rule field = some (GoValue.slice xs))
    (hall : ∀ x ∈ xs, (refID x).isSome = true) :
    ∃ ids, fieldOutcome rule field = .ok (some ids) ∧ xs.map refID = ids.map some := by
  obtain ⟨ids, h1, h2⟩ := convertItems_refs field xs 0 [] hall
  refine ⟨ids, ?_, h2⟩
  simp [fieldOutcome, h, convertToStringArray, h1]

theorem fieldOutcome_first_bad (rule : GoMap) (field : String) (pre post : List GoValue)
    (bad : GoValue) (h : GoMap.get rule field = some (GoValue.slice (pre ++ bad :: post)))
    (hpre : ∀ x ∈ pre, (refID x).isSome = true) (hbad : refID bad = none) :
    fieldOutcome rule field = .error (elementError field pre.length bad) := by
  have hc := convertItems_bad field pre post bad 0 [] hpre hbad
  simp only [Nat.zero_add] at hc
  simp [fieldOutcome, h, convertToStringArray, hc]

theorem fieldOutcome_convertible (rule : GoMap) (field : String)
    (h : FieldConvertible rule field) : ∃ o, fieldOutcome rule field = .ok o := by
  rcases h with h | h | ⟨xs, h⟩ | ⟨xs, h, hall⟩
  · exact ⟨none, by simp [fieldOutcome, h]⟩
  · exact ⟨none, by simp [fieldOutcome, h]⟩
  · exact ⟨_, fieldOutcome_strings rule field xs h⟩
  · obtain ⟨ids, h1, -⟩ := fieldOutcome_refs rule field xs h hall
    exact ⟨_, h1⟩

theorem fieldOutcome_error_iff (rule : GoMap) (field : String) :
    (∃ e, fieldOutcome rule field = .error e) ↔ FieldMalformed rule field := by
  constructor
  · rintro ⟨e, he⟩
    cases hg : GoMap.get rule field with
    | none => simp [fieldOutcome, hg] at he
    | some v =>
      by_cases hs : ∃ xs, v = GoValue.strings xs
      · obtain ⟨xs, rfl⟩ := hs
        rw [fieldOutcome_strings rule field xs hg] at he
        cases he
      · by_cases hl : ∃ xs, v = GoValue.slice xs
        · obtain ⟨xs, rfl⟩ := hl
          refine ⟨_, hg, by simp, Or.inr ⟨xs, rfl, ?_⟩⟩
          by_contra hno
          have hall : ∀ x ∈ xs, (refID x).isSome = true := by
            intro x hx
            cases hr : refID x with
            | none => exact absurd ⟨x, hx, hr⟩ hno
            | some id => rfl
          obtain ⟨ids, h1, -⟩ := fieldOutcome_refs rule field xs hg hall
          rw [h1] at he
          cases he
        · refine ⟨v, hg, ?_, Or.inl ⟨fun xs hx => hs ⟨xs, hx⟩, fun xs hx => hl ⟨xs, hx⟩⟩⟩
          rintro rfl
          simp [fieldOutcome, hg] at he
  · rintro ⟨v, hg, hnil, hbad⟩
    rcases hbad with ⟨h1, h2⟩ | ⟨xs, rfl, hx⟩
    · cases v with
      | nil => exact absurd rfl hnil
      | strings xs => exact absurd rfl (h1 xs)
      | slice xs => exact absurd rfl (h2 xs)
      | bool b => exact ⟨_, by simp [fieldOutcome, hg, convertToStringArray]; rfl⟩
      | int n => exact ⟨_, by simp [fieldOutcome, hg, convertToStringArray]; rfl⟩
      | float64 q => exact ⟨_, by simp [fieldOutcome, hg, convertToStringArray]; rfl⟩
      | string x => exact ⟨_, by simp [fieldOutcome, hg, convertToStringArray]; rfl⟩
      | object kvs => exact ⟨_, by simp [fieldOutcome, hg, convertToStringArray]; rfl⟩
    · obtain ⟨pre, bad, post, h1, h2, h3⟩ := exists_first_bad xs hx
      rw [h1] at hg
      exact ⟨_, fieldOutcome_first_bad rule field pre post bad hg h2 h3⟩

/-- The output of a successful `FormatRuleForAPI`, read at one of its two fields. -/
theorem format_ok_fields (rule out : GoMap) (h : FormatRuleForAPI (some rule) = .ok out) :
    ∃ src dst, fieldOutcome rule "sources" = .ok src ∧
      fieldOutcome rule "destinations" = .ok dst ∧
      out = applyIDs "destinations" dst (applyIDs "sources" src rule) := by
  rw [format_eq] at h
  cases hs : fieldOutcome rule "sources" with
  | error e => simp [hs] at h
  | ok src =>
    cases hd : fieldOutcome rule "destinations" with
    | error e => simp [hs, hd] at h
    | ok dst =>
      simp only [hs, hd, Except.ok.injEq] at h
      exact ⟨src, dst, rfl, rfl, h.symm⟩

theorem get_formatted_sources (rule : GoMap) (src dst : Option (List String)) :
    GoMap.get (applyIDs "destinations" dst (applyIDs "sources" src rule)) "sources" =
      match src with
      | none => GoMap.get rule "sources"
      | some xs => some (GoValue.strings xs) := by
  rw [get_applyIDs]
  cases dst <;> cases src <;> simp [get_applyIDs]

theorem get_formatted_destinations (rule : GoMap) (src dst : Option (List String)) :
    GoMap.get (applyIDs "destinations" dst (applyIDs "sources" src rule)) "destinations" =
      match dst with
      | none => GoMap.get rule "destinations"
      | some xs => some (GoValue.strings xs) := by
  rw [get_applyIDs]
  cases dst <;> cases src <;> simp [get_applyIDs]

theorem get_formatted_other (rule : GoMap) (src dst : Option (List String)) (k : String)
    (hs : k ≠ "sources") (hd : k ≠ "destinations") :
    GoMap.get (applyIDs "destinations" dst (applyIDs "sources" src rule)) k =
      GoMap.get rule k := by
  rw [get_applyIDs]
  cases dst <;> cases src <;> simp [get_applyIDs, Ne.symm hs, Ne.symm hd]

/-- C13: on a non-nil rule map whose `sources` and `destinations` are each absent, null, a
list of ID strings or a list of ID strings and objects with a string `id`, `FormatRuleForAPI`
succeeds; a field given as a `[]string` is returned as it is, and a field given as a list of
references is returned as the `[]string` of their IDs, same length and same order. -/
theorem C13_format_converts_references (rule : GoMap)
    (hsrc : FieldConvertible rule "sources") (hdst : FieldConvertible rule "destinations") :
    ∃ out, FormatRuleForAPI (some rule) = .ok out ∧
      ∀ field, field = "sources" ∨ field = "destinations" →
        (∀ xs, GoMap.get rule field = some (GoValue.strings xs) →
          GoMap.get out field = some (GoValue.strings xs)) ∧
        (∀ xs, GoMap.get rule field = some (GoValue.slice xs) →
          ∃ ids, GoMap.get out field = some (GoValue.strings ids) ∧
            ids.length = xs.length ∧ xs.map refID = ids.map some) := by
  obtain ⟨src, hs⟩ := fieldOutcome_convertible rule "sources" hsrc
  obtain ⟨dst, hd⟩ := fieldOutcome_convertible rule "destinations" hdst
  refine ⟨applyIDs "destinations" dst (applyIDs "sources" src rule), ?_, ?_⟩
  · rw [format_eq, hs, hd]
  · have hlen : ∀ (xs : List GoValue) (ids : List String),
        xs.map refID = ids.map some → ids.length = xs.length := by
      intro xs ids h
      have := congrArg List.length h
      simpa using this.symm
    have hall : ∀ field (xs : List GoValue),
        FieldConvertible rule field → GoMap.get rule field = some (GoValue.slice xs) →
        ∀ x ∈ xs, (refID x).isSome = true := by
      intro field xs hc hg
      rcases hc with h | h | ⟨ys, h⟩ | ⟨ys, h, hall⟩
      · rw [hg] at h
        cases h
      · rw [hg] at h
        cases h
      · rw [hg] at h
        cases h
      · rw [hg] at h
        cases h
        exact hall
    rintro field (rfl | rfl)
    · rw [get_formatted_sources]
      constructor
      · intro xs hg
        rw [fieldOutcome_strings rule _ xs hg] at hs
        cases hs
        rfl
      · intro xs hg
        obtain ⟨ids, h1, h2⟩ := fieldOutcome_refs rule _ xs hg (hall _ xs hsrc hg)
        rw [h1] at hs
        cases hs
        exact ⟨ids, rfl, hlen xs ids h2, h2⟩
    · rw [get_formatted_destinations]
      constructor
      · intro xs hg
        rw [fieldOutcome_strings rule _ xs hg] at hd
        cases hd
        rfl
      · intro xs hg
        obtain ⟨ids, h1, h2⟩ := fieldOutcome_refs rule _ xs hg (hall _ xs hdst hg)
        rw [h1] at hd
        cases hd
        exact ⟨ids, rfl, hlen xs ids h2, h2⟩

theorem applyIDs_keys (field : String) (ids : Option (List String)) (m : GoMap)
    (h : ids.isSome = true → (GoMap.get m field).isSome = true) :
    (applyIDs field ids m).map Prod.fst = m.map Prod.fst := by
  cases ids with
  | none => rfl
  | some xs => exact goMap_set_keys m field _ (h rfl)

/-- C14: when `FormatRuleForAPI` succeeds, its output has the keys of its input (the rule is
then not nil), every key other than `sources` and `destinations` has the value it has in
the input, and a `sources` or `destinations` that is null in the input is null in the
output. -/
theorem C14_format_preserves_other_keys (rule : Option GoMap) (out : GoMap)
    (h : FormatRuleForAPI rule = .ok out) :
    ∃ m, rule = some m ∧
      out.map Prod.fst = m.map Prod.fst ∧
      (∀ k, (GoMap.get out k).isSome = (GoMap.get m k).isSome) ∧
      (∀ k, k ≠ "sources" → k ≠ "destinations" → GoMap.get out k = GoMap.get m k) ∧
      (∀ k, k = "sources" ∨ k = "destinations" → GoMap.get m k = some GoValue.nil →
        GoMap.get out k = some GoValue.nil) := by
  cases rule with
  | none => simp [FormatRuleForAPI] at h
  | some m =>
    obtain ⟨src, dst, hs, hd, rfl⟩ := format_ok_fields m out h
    have hps : src.isSome = true → (GoMap.get m "sources").isSome = true := by
      intro hsome
      cases src with
      | none => cases hsome
      | some xs => exact fieldOutcome_present m _ xs hs
    have hpd : dst.isSome = true → (GoMap.get m "destinations").isSome = true := by
      intro hsome
      cases dst with
      | none => cases hsome
      | some xs => exact fieldOutcome_present m _ xs hd
    refine ⟨m, rfl, ?_, ?_, ?_, ?_⟩
    · rw [applyIDs_keys, applyIDs_keys _ _ _ hps]
      intro hsome
      rw [get_applyIDs]
      cases src with
      | none => exact hpd hsome
      | some xs => simpa using hpd hsome
    · intro k
      by_cases hks : k = "sources"
      · subst hks
        rw [get_formatted_sources]
        cases src with
        | none => rfl
        | some xs => simp [hps rfl]
      · by_cases hkd : k = "destinations"
        · subst hkd
          rw [get_formatted_destinations]
          cases dst with
          | none => rfl
          | some xs => simp [hpd rfl]
        · rw [get_formatted_other m src dst k hks hkd]
    · intro k hks hkd
      exact get_formatted_other m src dst k hks hkd
    · rintro k (rfl | rfl) hnil
      · rw [get_formatted_sources]
        cases src with
        | none => exact hnil
        | some xs => simp [fieldOutcome, hnil] at hs
      · rw [get_formatted_destinations]
        cases dst with
        | none => exact hnil
        | some xs => simp [fieldOutcome, hnil] at hd

/-- C15 (amended): `FormatRuleForAPI` returns an error exactly when the rule is nil, or
`sources` or `destinations` is present, non-null and is not an array or holds an element
that is neither a string nor an object with a string `id`. The error is that of the first
such element of the first such field, `sources` before `destinations`: when that element is
an object, the message names the field and the index of the element. -/
theorem C15_format_errors (rule : Option GoMap) :
    ((∃ e, FormatRuleForAPI rule = .error e) ↔
      rule = none ∨
        ∃ m, rule = some m ∧ (FieldMalformed m "sources" ∨ FieldMalformed m "destinations")) ∧
    (∀ m field pre bad post, rule = some m →
      field = "sources" ∨ (field = "destinations" ∧ ¬ FieldMalformed m "sources") →
      GoMap.get m field = some (GoValue.slice (pre ++ bad :: post)) →
      (∀ x ∈ pre, (refID x).isSome = true) → refID bad = none →
      FormatRuleForAPI rule = .error (elementError field pre.length bad) ∧
      ∀ o, bad = GoValue.object o →
        FormatRuleForAPI rule = .error (field ++ "[" ++ toString pre.length ++
          "]: object missing 'id' field or 'id' is not a string")) := by
  constructor
  · cases rule with
    | none => simp [FormatRuleForAPI]
    | some m =>
      simp only [reduceCtorEq, Option.some.injEq, exists_eq_left', false_or]
      rw [format_eq, ← fieldOutcome_error_iff, ← fieldOutcome_error_iff]
      cases hs : fieldOutcome m "sources" with
      | error e => simp
      | ok src =>
        cases hd : fieldOutcome m "destinations" with
        | error e => simp
        | ok dst => simp
  · intro m field pre bad post hrule hfield hget hpre hbad
    subst hrule
    have hout := fieldOutcome_first_bad m field pre post bad hget hpre hbad
    have hmain : FormatRuleForAPI (some m) = .error (elementError field pre.length bad) := by
      rw [format_eq]
      rcases hfield with rfl | ⟨rfl, hok⟩
      · rw [hout]
      · cases hs : fieldOutcome m "sources" with
        | error e => exact absurd ((fieldOutcome_error_iff m "sources").mp ⟨e, hs⟩) hok
        | ok src => simp only [hout]
    refine ⟨hmain, ?_⟩
    intro o ho
    subst ho
    exact hmain

theorem C13_witness :
    FieldConvertible mixedReferenceRule "sources" ∧
    FieldConvertible mixedReferenceRule "destinations" ∧
    FormatRuleForAPI (some mixedReferenceRule) = .ok
      [("name", GoValue.string "web"),
       ("sources", GoValue.strings ["g1", "g2"]),
       ("destinations", GoValue.strings ["g3"]),
       ("sourceResource", GoValue.nil)] ∧
    ∃ out, FormatRuleForAPI (some mixedReferenceRule) = .ok out ∧
      ∀ field, field = "sources" ∨ field = "destinations" →
        (∀ xs, GoMap.get mixedReferenceRule field = some (GoValue.strings xs) →
          GoMap.get out field = some (GoValue.strings xs)) ∧
        (∀ xs, GoMap.get mixedReferenceRule field = some (GoValue.slice xs) →
          ∃ ids, GoMap.get out field = some (GoValue.strings ids) ∧
            ids.length = xs.length ∧ xs.map refID = ids.map some) :=
  have hs : FieldConvertible mixedReferenceRule "sources" :=
    Or.inr (Or.inr (Or.inr ⟨_, rfl, by
      intro x hx
      simp only [List.mem_cons, List.mem_singleton, List.not_mem_nil, or_false] at hx
      rcases hx with rfl | rfl <;> rfl⟩))
  have hd : FieldConvertible mixedReferenceRule "destinations" :=
    Or.inr (Or.inr (Or.inl ⟨_, rfl⟩))
  ⟨hs, hd, rfl, C13_format_converts_references mixedReferenceRule hs hd⟩

theorem C14_witness :
    FormatRuleForAPI (some mixedReferenceRule) = .ok
      [("name", GoValue.string "web"),
       ("sources", GoValue.strings ["g1", "g2"]),
       ("destinations", GoValue.strings ["g3"]),
       ("sourceResource", GoValue.nil)] ∧
    ∃ m, some mixedReferenceRule = some m ∧
      List.map Prod.fst
        [("name", GoValue.string "web"),
         ("sources", GoValue.strings ["g1", "g2"]),
         ("destinations", GoValue.strings ["g3"]),
         ("sourceResource", GoValue.nil)] = m.map Prod.fst ∧
      (∀ k, (GoMap.get
        [("name", GoValue.string "web"),
         ("sources", GoValue.strings ["g1", "g2"]),
         ("destinations", GoValue.strings ["g3"]),
         ("sourceResource", GoValue.nil)] k).isSome = (GoMap.get m k).isSome) ∧
      (∀ k, k ≠ "sources" → k ≠ "destinations" → GoMap.get
        [("name", GoValue.string "web"),
         ("sources", GoValue.strings ["g1", "g2"]),
         ("destinations", GoValue.strings ["g3"]),
         ("sourceResource", GoValue.nil)] k = GoMap.get m k) ∧
      (∀ k, k = "sources" ∨ k = "destinations" → GoMap.get m k = some GoValue.nil →
        GoMap.get
        [("name", GoValue.string "web"),
         ("sources", GoValue.strings ["g1", "g2"]),
         ("destinations", GoValue.strings ["g3"]),
         ("sourceResource", GoValue.nil)] k = some GoValue.nil) :=
  ⟨rfl, C14_format_preserves_other_keys (some mixedReferenceRule) _ rfl⟩

set_option maxRecDepth 8000 in
/-- C15, the sentence as written fails: the sources `[5.0, {}]` hold at index 1 an object
without `id`, and the error is that of the number at index 0; it names no index 1. -/
theorem C15_counterexample_earlier_element_reported :
    GoMap.get malformedSourcesRule "sources" =
      some (GoValue.slice [GoValue.float64 5, GoValue.object []]) ∧
    refID (GoValue.object []) = none ∧
    FormatRuleForAPI (some malformedSourcesRule) = .error
      "sources[0]: unsupported type float64, expected string or object with 'id' field" ∧
    ¬ Mentions
      "sources[0]: unsupported type float64, expected string or object with 'id' field"
      "[1]" :=
  ⟨rfl, rfl, rfl, by decide⟩

/-! ## `ValidatePolicyRules`, check by check -/

theorem validActions_lookup (a : String) :
    (validActions.lookup a).getD false = decide (a = "accept" ∨ a = "drop") := by
  by_cases h1 : a = "accept"
  · subst h1
    rfl
  · by_cases h2 : a = "drop"
    · subst h2
      rfl
    · have e1 : (a == "accept") = false := by simpa using h1
      have e2 : (a == "drop") = false := by simpa using h2
      simp [validActions, List.lookup, h1, h2, e1, e2]

theorem validProtocols_lookup (p : String) :
    (validProtocols.lookup p).getD false =
      decide (p = "tcp" ∨ p = "udp" ∨ p = "icmp" ∨ p = "all") := by
  by_cases h1 : p = "tcp"
  · subst h1
    rfl
  · by_cases h2 : p = "udp"
    · subst h2
      rfl
    · by_cases h3 : p = "icmp"
      · subst h3
        rfl
      · by_cases h4 : p = "all"
        · subst h4
          rfl
        · have e1 : (p == "tcp") = false := by simpa using h1
          have e2 : (p == "udp") = false := by simpa using h2
          have e3 : (p == "icmp") = false := by simpa using h3
          have e4 : (p == "all") = false := by simpa using h4
          simp [validProtocols, List.lookup, h1, h2, h3, h4, e1, e2, e3, e4]

theorem getRuleIdentifier_eq (rule : GoMap) (index : Nat) :
    getRuleIdentifier rule index = ruleIdentifier rule index := by
  unfold getRuleIdentifier ruleIdentifier
  split
  · rename_i name h
    by_cases hn : name = "" <;> simp [hn]
  · rfl

theorem validateRule_eq (outOfRange : Rat → Int) (i : Nat) (rule : GoMap) :
    validateRule outOfRange i rule =
      firstFailure outOfRange (getRuleIdentifier rule i) rule checkOrder := by
  unfold validateRule
  simp only []
  generalize getRuleIdentifier rule i = ident
  simp only [checkOrder, firstFailure, checkError, requiredFields, firstMissing,
    validateRequiredField]
  cases h1 : GoMap.get rule "name" with
  | none => simp
  | some v1 =>
    cases h2 : GoMap.get rule "enabled" with
    | none => simp
    | some v2 =>
      cases h3 : GoMap.get rule "action" with
      | none => simp
      | some v3 =>
        cases h4 : GoMap.get rule "bidirectional" with
        | none => simp
        | some v4 =>
          cases h5 : GoMap.get rule "protocol" with
          | none => simp
          | some v5 =>
            simp only [Option.isSome_some, if_true, Option.map_none']
            cases v3 with
            | string a =>
              simp only [validActions_lookup]
              by_cases ha : a = "accept" ∨ a = "drop"
              · simp only [ha, decide_True, Bool.not_true, if_true, Bool.false_eq_true, if_false]
                cases v5 with
                | string p =>
                  simp only [validProtocols_lookup]
                  by_cases hp : p = "tcp" ∨ p = "udp" ∨ p = "icmp" ∨ p = "all"
                  · simp only [hp, decide_True, Bool.not_true, if_true, Bool.false_eq_true,
                      if_false]
                    cases hpr : GoMap.get rule "port_ranges" with
                    | none =>
                      cases hs : hasEndpoint rule "sources" "sourceResource" <;>
                        cases hd : hasEndpoint rule "destinations" "destinationResource" <;>
                        simp
                    | some pr =>
                      cases pr <;>
                        cases hs : hasEndpoint rule "sources" "sourceResource" <;>
                        cases hd : hasEndpoint rule "destinations" "destinationResource" <;>
                        simp
                  · simp [hp]
                | _ => rfl
              · simp [ha]
            | _ => rfl

theorem firstMissing_eq_none (rule : GoMap) (fields : List String) :
    firstMissing rule fields = none ↔ ∀ f ∈ fields, (GoMap.get rule f).isSome = true := by
  induction fields with
  | nil => simp [firstMissing]
  | cons f rest ih =>
    by_cases h : (GoMap.get rule f).isSome = true
    · simp [firstMissing, h, ih]
    · simp [firstMissing, h]

theorem firstMissing_spec (rule : GoMap) (fields : List String) (f : String)
    (h : firstMissing rule fields = some f) :
    ∃ pre post, fields = pre ++ f :: post ∧ GoMap.get rule f = none ∧
      ∀ g ∈ pre, (GoMap.get rule g).isSome = true := by
  induction fields with
  | nil => simp [firstMissing] at h
  | cons g rest ih =>
    by_cases hg : (GoMap.get rule g).isSome = true
    · simp only [firstMissing, hg, if_true] at h
      obtain ⟨pre, post, h1, h2, h3⟩ := ih h
      refine ⟨g :: pre, post, by rw [h1]; rfl, h2, ?_⟩
      intro x hx
      rcases List.mem_cons.mp hx with rfl | hx
      · exact hg
      · exact h3 x hx
    · simp only [firstMissing, hg] at h
      simp only [Bool.false_eq_true, if_false, Option.some.injEq] at h
      subst h
      refine ⟨[], rest, rfl, ?_, by simp⟩
      cases hv : GoMap.get rule g with
      | none => rfl
      | some v => simp [hv] at hg

theorem validatePortRangesFrom_eq_none (outOfRange : Rat → Int) (ruleName : String)
    (entries : List GoValue) (i : Nat) :
    validatePortRangesFrom outOfRange ruleName i entries = none ↔
      ∀ e ∈ entries, ValidPortRange outOfRange e := by
  induction entries generalizing i with
  | nil => simp [validatePortRangesFrom]
  | cons e rest ih =>
    rw [List.forall_mem_cons, ← ih (i + 1)]
    cases e with
    | object m =>
      cases hs : GoMap.get m "start" with
      | none =>
        simp only [validatePortRangesFrom, hs, reduceCtorEq, false_iff, not_and]
        rintro ⟨m2, sv, ev, s, t, hm, h1, _⟩
        cases hm
        rw [hs] at h1
        cases h1
      | some sv =>
        cases he : GoMap.get m "end" with
        | none =>
          simp only [validatePortRangesFrom, hs, he, reduceCtorEq, false_iff, not_and]
          rintro ⟨m2, sv2, ev, s, t, hm, _, h2, _⟩
          cases hm
          rw [he] at h2
          cases h2
        | some ev =>
          cases hps : portNumber outOfRange sv with
          | none =>
            simp only [validatePortRangesFrom, hs, he, hps, reduceCtorEq, false_iff, not_and]
            rintro ⟨m2, sv2, ev2, s, t, hm, h1, _, h3, _⟩
            cases hm
            rw [hs] at h1
            cases h1
            rw [hps] at h3
            cases h3
          | some s =>
            cases hpe : portNumber outOfRange ev with
            | none =>
              simp only [validatePortRangesFrom, hs, he, hps, hpe, reduceCtorEq, false_iff,
                not_and]
              rintro ⟨m2, sv2, ev2, s2, t, hm, _, h2, _, h4, _⟩
              cases hm
              rw [he] at h2
              cases h2
              rw [hpe] at h4
              cases h4
            | some t =>
              by_cases hst : s > t
              · simp only [validatePortRangesFrom, hs, he, hps, hpe, hst, if_true,
                  reduceCtorEq, false_iff, not_and]
                rintro ⟨m2, sv2, ev2, s2, t2, hm, h1, h2, h3, h4, hle⟩
                cases hm
                rw [hs] at h1
                rw [he] at h2
                cases h1
                cases h2
                rw [hps] at h3
                rw [hpe] at h4
                cases h3
                cases h4
                omega
              · simp only [validatePortRangesFrom, hs, he, hps, hpe, hst, if_false]
                constructor
                · intro h
                  exact ⟨⟨m, sv, ev, s, t, rfl, hs, he, hps, hpe, by omega⟩, h⟩
                · intro h
                  exact h.2
    | _ =>
      simp only [validatePortRangesFrom, reduceCtorEq, false_iff, not_and]
      rintro ⟨m2, sv, ev, s, t, hm, _⟩
      cases hm

theorem hasEndpoint_iff (rule : GoMap) (listKey resourceKey : String) :
    hasEndpoint rule listKey resourceKey = true ↔
      NonEmptyArray (GoMap.get rule listKey) ∨ NonNull (GoMap.get rule resourceKey) := by
  have hlist : (match GoMap.get rule listKey with
      | some (GoValue.slice arr) => decide (arr.length > 0)
      | some (GoValue.strings arr) => decide (arr.length > 0)
      | _ => false) = true ↔ NonEmptyArray (GoMap.get rule listKey) := by
    unfold NonEmptyArray
    cases GoMap.get rule listKey with
    | none => simp
    | some v =>
      cases v with
      | slice arr => cases arr <;> simp
      | strings arr => cases arr <;> simp
      | _ => simp
  unfold hasEndpoint
  simp only []
  cases hr : GoMap.get rule resourceKey with
  | none =>
    rw [hlist]
    simp [NonNull]
  | some w =>
    cases w with
    | nil =>
      rw [hlist]
      simp [NonNull]
    | _ => simp [NonNull]

theorem checkError_action_none (outOfRange : Rat → Int) (ident : String) (rule : GoMap) :
    checkError outOfRange ident rule .action = none ↔
      ∃ a, GoMap.get rule "action" = some (GoValue.string a) ∧ (a = "accept" ∨ a = "drop") := by
  unfold checkError
  cases GoMap.get rule "action" with
  | none => simp
  | some v =>
    cases v with
    | string a => by_cases h : a = "accept" ∨ a = "drop" <;> simp [h]
    | _ => simp

theorem checkError_protocol_none (outOfRange : Rat → Int) (ident : String) (rule : GoMap) :
    checkError outOfRange ident rule .protocol = none ↔
      ∃ p, GoMap.get rule "protocol" = some (GoValue.string p) ∧
        (p = "tcp" ∨ p = "udp" ∨ p = "icmp" ∨ p = "all") := by
  unfold checkError
  cases GoMap.get rule "protocol" with
  | none => simp
  | some v =>
    cases v with
    | string p => by_cases h : p = "tcp" ∨ p = "udp" ∨ p = "icmp" ∨ p = "all" <;> simp [h]
    | _ => simp

theorem checkError_portRanges_none (outOfRange : Rat → Int) (ident : String) (rule : GoMap) :
    checkError outOfRange ident rule .portRanges = none ↔
      (GoMap.get rule "port_ranges" = none ∨ GoMap.get rule "port_ranges" = some GoValue.nil ∨
        ∃ entries, GoMap.get rule "port_ranges" = some (GoValue.slice entries) ∧
          ∀ e ∈ entries, ValidPortRange outOfRange e) := by
  unfold checkError
  cases GoMap.get rule "port_ranges" with
  | none => simp
  | some v =>
    cases v with
    | nil => simp
    | slice entries =>
      simp [validatePortRanges, validatePortRangesFrom_eq_none]
    | _ => simp [validatePortRanges]

theorem checkError_eq_none (outOfRange : Rat → Int) (ident : String) (rule : GoMap) :
    (∀ c ∈ checkOrder, checkError outOfRange ident rule c = none) ↔
      ValidRule outOfRange rule := by
  unfold ValidRule ValidRuleWith
  rw [← checkError_action_none outOfRange ident, ← checkError_protocol_none outOfRange ident,
    ← checkError_portRanges_none outOfRange ident, ← hasEndpoint_iff, ← hasEndpoint_iff,
    ← firstMissing_eq_none]
  simp [checkOrder, checkError]

theorem firstFailure_eq_none (outOfRange : Rat → Int) (ident : String) (rule : GoMap)
    (checks : List RuleCheck) :
    firstFailure outOfRange ident rule checks = none ↔
      ∀ c ∈ checks, checkError outOfRange ident rule c = none := by
  induction checks with
  | nil => simp [firstFailure]
  | cons c rest ih =>
    cases h : checkError outOfRange ident rule c with
    | none => simp [firstFailure, h, ih]
    | some e => simp [firstFailure, h]

theorem firstFailure_spec (outOfRange : Rat → Int) (ident : String) (rule : GoMap)
    (checks : List RuleCheck) (msg : String)
    (h : firstFailure outOfRange ident rule checks = some msg) :
    ∃ before check after, checks = before ++ check :: after ∧
      (∀ c ∈ before, checkError outOfRange ident rule c = none) ∧
      checkError outOfRange ident rule check = some msg := by
  induction checks with
  | nil => simp [firstFailure] at h
  | cons c rest ih =>
    cases hc : checkError outOfRange ident rule c with
    | none =>
      simp only [firstFailure, hc] at h
      obtain ⟨before, check, after, h1, h2, h3⟩ := ih h
      refine ⟨c :: before, check, after, by rw [h1]; rfl, ?_, h3⟩
      intro x hx
      rcases List.mem_cons.mp hx with rfl | hx
      · exact hc
      · exact h2 x hx
    | some e =>
      simp only [firstFailure, hc, Option.some.injEq] at h
      subst h
      exact ⟨[], c, rest, rfl, by simp, hc⟩

theorem validateRule_eq_none (outOfRange : Rat → Int) (i : Nat) (rule : GoMap) :
    validateRule outOfRange i rule = none ↔ ValidRule outOfRange rule := by
  rw [validateRule_eq, firstFailure_eq_none, checkError_eq_none]

theorem validateRulesFrom_eq_none (outOfRange : Rat → Int) (rules : List GoMap) (i : Nat) :
    validateRulesFrom outOfRange i rules = none ↔ ∀ rule ∈ rules, ValidRule outOfRange rule := by
  induction rules generalizing i with
  | nil => simp [validateRulesFrom]
  | cons rule rest ih =>
    rw [List.forall_mem_cons, ← ih (i + 1), ← validateRule_eq_none outOfRange i rule]
    cases h : validateRule outOfRange i rule with
    | none => simp [validateRulesFrom, h]
    | some e => simp [validateRulesFrom, h]

theorem validateRulesFrom_first_invalid (outOfRange : Rat → Int) (pre post : List GoMap)
    (rule : GoMap) (i : Nat) (hpre : ∀ r ∈ pre, ValidRule outOfRange r)
    (hrule : ¬ ValidRule outOfRange rule) :
    validateRulesFrom outOfRange i (pre ++ rule :: post) =
      validateRule outOfRange (i + pre.length) rule ∧
    ∃ msg, validateRule outOfRange (i + pre.length) rule = some msg := by
  induction pre generalizing i with
  | nil =>
    cases h : validateRule outOfRange i rule with
    | none => exact absurd ((validateRule_eq_none outOfRange i rule).mp h) hrule
    | some e =>
      simp only [List.nil_append, validateRulesFrom, List.length_nil, Nat.add_zero, h]
      exact ⟨trivial, e, rfl⟩
  | cons r rest ih =>
    have hr := (validateRule_eq_none outOfRange i r).mpr (hpre r (List.mem_cons_self _ _))
    have := ih (i + 1) (fun x hx => hpre x (List.mem_cons_of_mem _ hx))
    have hlen : i + (r :: rest).length = i + 1 + rest.length := by
      simp only [List.length_cons]
      omega
    rw [hlen]
    simpa only [List.cons_append, validateRulesFrom, hr] using this

/-! ## Whole-number port bounds -/

theorem floatToInt_whole (outOfRange : Rat → Int) (v : Rat) (h : WholeFloat v) :
    floatToInt outOfRange v = v.num ∧ ((v.num : Int) : Rat) = v := by
  obtain ⟨hden, hlo, hhi⟩ := h
  constructor
  · unfold floatToInt truncate
    simp only [hden, Nat.cast_one, Int.tdiv_one]
    rw [if_pos ⟨hlo, hhi⟩]
  · exact (Rat.den_eq_one_iff v).mp hden

theorem portNumber_whole (outOfRange : Rat → Int) (x : GoValue)
    (h : ∀ v, x = GoValue.float64 v → WholeFloat v) :
    (portNumber outOfRange x).map (fun (n : Int) => (n : Rat)) = numericValue x := by
  cases x with
  | float64 v =>
    obtain ⟨h1, h2⟩ := floatToInt_whole outOfRange v (h v rfl)
    simp [portNumber, numericValue, h1, h2]
  | _ => rfl

theorem validPortRange_whole (outOfRange : Rat → Int) (e : GoValue)
    (h : ∀ m k v, e = GoValue.object m → k = "start" ∨ k = "end" →
      GoMap.get m k = some (GoValue.float64 v) → WholeFloat v) :
    ValidPortRange outOfRange e ↔ PortRangeAsWritten e := by
  constructor
  · rintro ⟨m, sv, ev, s, t, hm, h1, h2, h3, h4, hle⟩
    have hs := portNumber_whole outOfRange sv
      (fun v hv => h m "start" v hm (Or.inl rfl) (by rw [h1, hv]))
    have ht := portNumber_whole outOfRange ev
      (fun v hv => h m "end" v hm (Or.inr rfl) (by rw [h2, hv]))
    rw [h3] at hs
    rw [h4] at ht
    exact ⟨m, sv, ev, s, t, hm, h1, h2, hs.symm, ht.symm, by exact_mod_cast hle⟩
  · rintro ⟨m, sv, ev, s, t, hm, h1, h2, h3, h4, hle⟩
    have hs := portNumber_whole outOfRange sv
      (fun v hv => h m "start" v hm (Or.inl rfl) (by rw [h1, hv]))
    have ht := portNumber_whole outOfRange ev
      (fun v hv => h m "end" v hm (Or.inr rfl) (by rw [h2, hv]))
    rw [h3] at hs
    rw [h4] at ht
    cases hps : portNumber outOfRange sv with
    | none => simp [hps] at hs
    | some s2 =>
      cases hpt : portNumber outOfRange ev with
      | none => simp [hpt] at ht
      | some t2 =>
        simp only [hps, hpt, Option.map_some', Option.some.injEq] at hs ht
        subst hs
        subst ht
        exact ⟨m, sv, ev, s2, t2, hm, h1, h2, hps, hpt, by exact_mod_cast hle⟩

theorem validRule_whole (outOfRange : Rat → Int) (rule : GoMap) (h : WholePorts rule) :
    ValidRule outOfRange rule ↔ ValidRuleAsWritten rule := by
  have key : ∀ entries, GoMap.get rule "port_ranges" = some (GoValue.slice entries) →
      ((∀ e ∈ entries, ValidPortRange outOfRange e) ↔ ∀ e ∈ entries, PortRangeAsWritten e) := by
    intro entries hget
    constructor
    · intro hall e he
      exact (validPortRange_whole outOfRange e
        (fun m k v hm hk hv => h entries e m k v hget he hm hk hv)).mp (hall e he)
    · intro hall e he
      exact (validPortRange_whole outOfRange e
        (fun m k v hm hk hv => h entries e m k v hget he hm hk hv)).mpr (hall e he)
  unfold ValidRule ValidRuleAsWritten ValidRuleWith
  constructor
  · rintro ⟨h1, h2, h3, h4, h5, h6⟩
    refine ⟨h1, h2, h3, ?_, h5, h6⟩
    rcases h4 with h4 | h4 | ⟨entries, hget, hall⟩
    · exact Or.inl h4
    · exact Or.inr (Or.inl h4)
    · exact Or.inr (Or.inr ⟨entries, hget, (key entries hget).mp hall⟩)
  · rintro ⟨h1, h2, h3, h4, h5, h6⟩
    refine ⟨h1, h2, h3, ?_, h5, h6⟩
    rcases h4 with h4 | h4 | ⟨entries, hget, hall⟩
    · exact Or.inl h4
    · exact Or.inr (Or.inl h4)
    · exact Or.inr (Or.inr ⟨entries, hget, (key entries hget).mpr hall⟩)

/-- C17 (amended): `ValidatePolicyRules` returns no error exactly when every rule of the
batch is valid, the bounds of a port range being compared after their conversion to `int`
(a `float64` is truncated); a nil or empty batch is valid. On a batch whose `float64` port
bounds are whole numbers in the range of `int`, that is validity with `start <= end` read
on the numbers themselves. -/
theorem C17_validate_accepts_exactly_valid (outOfRange : Rat → Int)
    (rules : Option (List GoMap)) :
    (ValidatePolicyRules outOfRange rules = none ↔
      ∀ rule ∈ elems rules, ValidRule outOfRange rule) ∧
    ValidatePolicyRules outOfRange none = none ∧
    ValidatePolicyRules outOfRange (some []) = none ∧
    ((∀ rule ∈ elems rules, WholePorts rule) →
      (ValidatePolicyRules outOfRange rules = none ↔
        ∀ rule ∈ elems rules, ValidRuleAsWritten rule)) := by
  have main : ValidatePolicyRules outOfRange rules = none ↔
      ∀ rule ∈ elems rules, ValidRule outOfRange rule := by
    cases rules with
    | none => simp [ValidatePolicyRules, elems]
    | some rs => simpa [ValidatePolicyRules, elems] using validateRulesFrom_eq_none outOfRange rs 0
  refine ⟨main, rfl, rfl, ?_⟩
  intro hwhole
  rw [main]
  constructor
  · intro h rule hr
    exact (validRule_whole outOfRange rule (hwhole rule hr)).mp (h rule hr)
  · intro h rule hr
    exact (validRule_whole outOfRange rule (hwhole rule hr)).mpr (h rule hr)

/-- C17, the sentence as written fails: the port range of `fractionalPortsRule` has start
1.5 and end 1.25, so the rule is not valid in the words of the claim, and the batch is
accepted, both bounds being converted to 1. -/
theorem C17_counterexample_fractional_bounds :
    fiveQuarters < threeHalves ∧
    GoMap.get fractionalPortsRule "port_ranges" = some (GoValue.slice
      [GoValue.object [("start", GoValue.float64 threeHalves),
        ("end", GoValue.float64 fiveQuarters)]]) ∧
    ¬ ValidRuleAsWritten fractionalPortsRule ∧
    ∀ outOfRange, ValidatePolicyRules outOfRange (some [fractionalPortsRule]) = none := by
  refine ⟨by decide, rfl, ?_, fun _ => rfl⟩
  rintro ⟨_, _, _, h4, _, _⟩
  rcases h4 with h4 | h4 | ⟨entries, hget, hall⟩
  · cases h4
  · cases h4
  · have hent : entries = [GoValue.object [("start", GoValue.float64 threeHalves),
        ("end", GoValue.float64 fiveQuarters)]] := by
      have h := hget.symm
      simp only [fractionalPortsRule] at h
      cases h
      rfl
    subst hent
    obtain ⟨m, sv, ev, s, t, hm, h1, h2, h3, h4, hle⟩ := hall _ (List.mem_singleton.mpr rfl)
    cases hm
    cases h1
    cases h2
    cases h3
    cases h4
    exact absurd hle (by decide)

/-! ## What the messages mention -/

theorem mentions_mid (a p b : String) : Mentions (a ++ p ++ b) p := by
  unfold Mentions
  exact ⟨a.data, b.data, by simp [String.data_append]⟩

theorem validateRule_missing (outOfRange : Rat → Int) (i : Nat) (rule : GoMap) (g : String)
    (h : firstMissing rule requiredFields = some g) :
    validateRule outOfRange i rule =
      some ("rule " ++ ruleIdentifier rule i ++ ": missing required field '" ++ g ++ "'") := by
  rw [validateRule_eq, getRuleIdentifier_eq]
  simp [checkOrder, firstFailure, checkError, h]

theorem not_valid_of_missing (outOfRange : Rat → Int) (rule : GoMap) (f : String)
    (hf : f ∈ requiredFields) (hmiss : GoMap.get rule f = none) :
    ¬ ValidRule outOfRange rule := by
  rintro ⟨h1, _⟩
  have := h1 f hf
  rw [hmiss] at this
  cases this

/-- C18 (amended): a batch in which the rule of index `i` lacks a required field is always
rejected. When the rules before it are valid, the message is the missing-field message of
that rule for the first required field it lacks, in the order name, enabled, action,
bidirectional, protocol, and it mentions that field; that field is the given one when the
rule lacks no other required field. -/
theorem C18_missing_required_field (outOfRange : Rat → Int) (pre post : List GoMap)
    (rule : GoMap) (f : String) (hf : f ∈ requiredFields)
    (hmiss : GoMap.get rule f = none) :
    (∃ msg, ValidatePolicyRules outOfRange (some (pre ++ rule :: post)) = some msg) ∧
    ((∀ r ∈ pre, ValidRule outOfRange r) →
      ∃ g msg, firstMissing rule requiredFields = some g ∧
        msg = "rule " ++ ruleIdentifier rule pre.length ++ ": missing required field '" ++
          g ++ "'" ∧
        ValidatePolicyRules outOfRange (some (pre ++ rule :: post)) = some msg ∧
        Mentions msg g ∧
        ((∀ k ∈ requiredFields, k ≠ f → (GoMap.get rule k).isSome = true) → g = f)) := by
  have hinvalid := not_valid_of_missing outOfRange rule f hf hmiss
  constructor
  · cases h : ValidatePolicyRules outOfRange (some (pre ++ rule :: post)) with
    | some msg => exact ⟨msg, rfl⟩
    | none =>
      have hall := (validateRulesFrom_eq_none outOfRange (pre ++ rule :: post) 0).mp h
      exact absurd (hall rule (by simp)) hinvalid
  · intro hpre
    cases hg : firstMissing rule requiredFields with
    | none =>
      have hall := (firstMissing_eq_none rule requiredFields).mp hg f hf
      rw [hmiss] at hall
      cases hall
    | some g =>
      obtain ⟨hrun, _⟩ := validateRulesFrom_first_invalid outOfRange pre post rule 0 hpre hinvalid
      rw [Nat.zero_add, validateRule_missing outOfRange pre.length rule g hg] at hrun
      refine ⟨g, _, rfl, rfl, hrun, mentions_mid _ g "'", ?_⟩
      intro hothers
      by_contra hne
      obtain ⟨p1, p2, hsplit, hnone, _⟩ := firstMissing_spec rule requiredFields g hg
      have hmem : g ∈ requiredFields := by
        rw [hsplit]
        simp
      have := hothers g hmem hne
      rw [hnone] at this
      cases this

theorem C18_witness :
    "protocol" ∈ requiredFields ∧ GoMap.get noProtocolRule "protocol" = none ∧
    (∃ msg, ValidatePolicyRules (fun _ => 0)
      (some ([validRuleMap "first"] ++ noProtocolRule :: [])) = some msg) ∧
    ((∀ r ∈ [validRuleMap "first"], ValidRule (fun _ => 0) r) →
      ∃ g msg, firstMissing noProtocolRule requiredFields = some g ∧
        msg = "rule " ++ ruleIdentifier noProtocolRule [validRuleMap "first"].length ++
          ": missing required field '" ++ g ++ "'" ∧
        ValidatePolicyRules (fun _ => 0)
          (some ([validRuleMap "first"] ++ noProtocolRule :: [])) = some msg ∧
        Mentions msg g ∧
        ((∀ k ∈ requiredFields, k ≠ "protocol" →
          (GoMap.get noProtocolRule k).isSome = true) → g = "protocol")) :=
  ⟨by decide, rfl,
    C18_missing_required_field (fun _ => 0) [validRuleMap "first"] [] noProtocolRule "protocol"
      (by decide) rfl⟩

theorem missing_protocol_message :
    ValidatePolicyRules (fun _ => 0) (some [validRuleMap "first", noProtocolRule]) =
      some "rule 'second': missing required field 'protocol'" :=
  rfl

set_option maxRecDepth 8000 in
/-- C18, the sentence as written fails: the second rule of the batch lacks `protocol` and
nothing else, and the error is that of the first rule, whose action is no valid action; it
does not mention `protocol`. -/
theorem C18_counterexample_earlier_rule_reported :
    "protocol" ∈ requiredFields ∧ GoMap.get noProtocolRule "protocol" = none ∧
    (∀ outOfRange, ValidatePolicyRules outOfRange (some [badActionRule, noProtocolRule]) =
      some "rule 'first': invalid action 'allow', must be 'accept' or 'drop'") ∧
    ¬ Mentions "rule 'first': invalid action 'allow', must be 'accept' or 'drop'" "protocol" :=
  ⟨by decide, rfl, fun _ => rfl, by decide⟩

/-! ## The conversion of port bounds keeps their order -/

theorem truncate_nonneg (v : Rat) (h : 0 ≤ v) : truncate v = ⌊v⌋ := by
  unfold truncate
  rw [Rat.floor_def, Int.tdiv_eq_ediv (Rat.num_nonneg.mpr h) (by positivity)]

theorem truncate_neg (v : Rat) : truncate (-v) = -truncate v := by
  unfold truncate
  simp [Int.neg_tdiv]

theorem truncate_nonpos (v : Rat) (h : v ≤ 0) : truncate v = ⌈v⌉ := by
  have h1 := truncate_nonneg (-v) (by linarith)
  rw [truncate_neg, Int.floor_neg] at h1
  omega

theorem truncate_mono (v w : Rat) (h : v ≤ w) : truncate v ≤ truncate w := by
  rcases le_total 0 v with hv | hv
  · rw [truncate_nonneg v hv, truncate_nonneg w (le_trans hv h)]
    exact Int.floor_mono h
  · rcases le_total 0 w with hw | hw
    · rw [truncate_nonpos v hv, truncate_nonneg w hw]
      have h1 : ⌈v⌉ ≤ 0 := Int.ceil_le.mpr (by simpa using hv)
      have h2 : 0 ≤ ⌊w⌋ := Int.le_floor.mpr (by simpa using hw)
      omega
    · rw [truncate_nonpos v hv, truncate_nonpos w hw]
      exact Int.ceil_mono h

theorem truncate_intCast (n : Int) : truncate (n : Rat) = n := by
  unfold truncate
  simp

theorem portNumber_inRange (outOfRange : Rat → Int) (x : GoValue)
    (h : ∀ v, x = GoValue.float64 v → InIntRange v) :
    portNumber outOfRange x = (numericValue x).map truncate := by
  cases x with
  | int n => simp [portNumber, numericValue, truncate_intCast]
  | float64 v =>
    have hv := h v rfl
    have hv2 : -(2 ^ 63) ≤ truncate v ∧ truncate v < 2 ^ 63 := hv
    simp only [portNumber, numericValue, Option.map_some', floatToInt]
    rw [if_pos hv2]
  | _ => rfl

theorem validPortRange_of_asWritten (outOfRange : Rat → Int) (e : GoValue)
    (hrange : ∀ m k v, e = GoValue.object m → k = "start" ∨ k = "end" →
      GoMap.get m k = some (GoValue.float64 v) → InIntRange v)
    (h : PortRangeAsWritten e) : ValidPortRange outOfRange e := by
  obtain ⟨m, sv, ev, s, t, hm, h1, h2, h3, h4, hle⟩ := h
  have hs := portNumber_inRange outOfRange sv
    (fun v hv => hrange m "start" v hm (Or.inl rfl) (by rw [h1, hv]))
  have ht := portNumber_inRange outOfRange ev
    (fun v hv => hrange m "end" v hm (Or.inr rfl) (by rw [h2, hv]))
  rw [h3] at hs
  rw [h4] at ht
  exact ⟨m, sv, ev, truncate s, truncate t, hm, h1, h2, hs, ht, truncate_mono s t hle⟩

theorem validatePortRangesFrom_first_bad (outOfRange : Rat → Int) (ruleName : String)
    (before after : List GoValue) (m : GoMap) (sv ev : GoValue) (s t : Int) (i : Nat)
    (hbefore : ∀ e ∈ before, ValidPortRange outOfRange e)
    (h1 : GoMap.get m "start" = some sv) (h2 : GoMap.get m "end" = some ev)
    (h3 : portNumber outOfRange sv = some s) (h4 : portNumber outOfRange ev = some t)
    (hst : s > t) :
    validatePortRangesFrom outOfRange ruleName i (before ++ GoValue.object m :: after) =
      some ("rule " ++ ruleName ++ ": port_ranges[" ++ toString (i + before.length) ++
        "] invalid: start (" ++ toString s ++ ") must be <= end (" ++ toString t ++ ")") := by
  induction before generalizing i with
  | nil => simp [validatePortRangesFrom, h1, h2, h3, h4, hst]
  | cons e rest ih =>
    obtain ⟨m2, sv2, ev2, s2, t2, hm, g1, g2, g3, g4, hle⟩ := hbefore e (List.mem_cons_self _ _)
    subst hm
    have hlen : i + (GoValue.object m2 :: rest).length = i + 1 + rest.length := by
      simp only [List.length_cons]
      omega
    rw [hlen, ← ih (i + 1) (fun x hx => hbefore x (List.mem_cons_of_mem _ hx))]
    have hns : ¬ s2 > t2 := by omega
    simp [validatePortRangesFrom, g1, g2, g3, g4, hns]

theorem validateRule_port_error (outOfRange : Rat → Int) (i : Nat) (rule : GoMap)
    (entries : List GoValue) (msg : String)
    (hreq : ∀ f ∈ requiredFields, (GoMap.get rule f).isSome = true)
    (hact : ∃ a, GoMap.get rule "action" = some (GoValue.string a) ∧
      (a = "accept" ∨ a = "drop"))
    (hproto : ∃ p, GoMap.get rule "protocol" = some (GoValue.string p) ∧
      (p = "tcp" ∨ p = "udp" ∨ p = "icmp" ∨ p = "all"))
    (hget : GoMap.get rule "port_ranges" = some (GoValue.slice entries))
    (hmsg : validatePortRangesFrom outOfRange (ruleIdentifier rule i) 0 entries = some msg) :
    validateRule outOfRange i rule = some msg := by
  rw [validateRule_eq, getRuleIdentifier_eq]
  have h1 : checkError outOfRange (ruleIdentifier rule i) rule .requiredFields = none := by
    simp [checkError, (firstMissing_eq_none rule requiredFields).mpr hreq]
  have h2 := (checkError_action_none outOfRange (ruleIdentifier rule i) rule).mpr hact
  have h3 := (checkError_protocol_none outOfRange (ruleIdentifier rule i) rule).mpr hproto
  have h4 : checkError outOfRange (ruleIdentifier rule i) rule .portRanges = some msg := by
    simp [checkError, hget, validatePortRanges, hmsg]
  simp [checkOrder, firstFailure, h1, h2, h3, h4]

/-- C19 (amended): when the rules before a rule are valid, the rule passes the checks of
the required fields, the action and the protocol, and the first entry of its `port_ranges`
that is not in order has numeric bounds whose conversions to `int` are `s > t`, the batch is
rejected with the message of that entry, which mentions `s` and `t`. An entry with numeric
bounds `start <= end` whose integer parts are in the range of `int` causes no failure: a
rule that is valid but for its entries, all of that kind, is accepted among valid rules. -/
theorem C19_port_range_order (outOfRange : Rat → Int) (rule : GoMap) :
    (∀ (pre post : List GoMap) (before after : List GoValue) (m : GoMap) (sv ev : GoValue)
        (s t : Int),
      (∀ r ∈ pre, ValidRule outOfRange r) →
      (∀ f ∈ requiredFields, (GoMap.get rule f).isSome = true) →
      (∃ a, GoMap.get rule "action" = some (GoValue.string a) ∧ (a = "accept" ∨ a = "drop")) →
      (∃ p, GoMap.get rule "protocol" = some (GoValue.string p) ∧
        (p = "tcp" ∨ p = "udp" ∨ p = "icmp" ∨ p = "all")) →
      GoMap.get rule "port_ranges" = some (GoValue.slice (before ++ GoValue.object m :: after)) →
      (∀ e ∈ before, ValidPortRange outOfRange e) →
      GoMap.get m "start" = some sv → GoMap.get m "end" = some ev →
      portNumber outOfRange sv = some s → portNumber outOfRange ev = some t → s > t →
      ∃ msg, msg = "rule " ++ ruleIdentifier rule pre.length ++ ": port_ranges[" ++
          toString before.length ++ "] invalid: start (" ++ toString s ++
          ") must be <= end (" ++ toString t ++ ")" ∧
        ValidatePolicyRules outOfRange (some (pre ++ rule :: post)) = some msg ∧
        Mentions msg (toString s) ∧ Mentions msg (toString t)) ∧
    (∀ (pre post : List GoMap),
      (∀ r ∈ pre ++ post, ValidRule outOfRange r) →
      ValidRuleWith (fun _ => True) rule →
      (∀ entries, GoMap.get rule "port_ranges" = some (GoValue.slice entries) →
        ∀ e ∈ entries, PortRangeAsWritten e) →
      BoundsInRange rule →
      ValidatePolicyRules outOfRange (some (pre ++ rule :: post)) = none) := by
  constructor
  · intro pre post before after m sv ev s t hpre hreq hact hproto hget hbefore h1 h2 h3 h4 hst
    have hbad := validatePortRangesFrom_first_bad outOfRange (ruleIdentifier rule pre.length)
      before after m sv ev s t 0 hbefore h1 h2 h3 h4 hst
    rw [Nat.zero_add] at hbad
    have hrule := validateRule_port_error outOfRange pre.length rule _ _ hreq hact hproto hget
      hbad
    have hinvalid : ¬ ValidRule outOfRange rule := by
      intro hv
      have := (validateRule_eq_none outOfRange pre.length rule).mpr hv
      rw [hrule] at this
      cases this
    obtain ⟨hrun, _⟩ := validateRulesFrom_first_invalid outOfRange pre post rule 0 hpre hinvalid
    rw [Nat.zero_add, hrule] at hrun
    refine ⟨_, rfl, hrun, ?_, mentions_mid _ (toString t) ")"⟩
    have hassoc : "rule " ++ ruleIdentifier rule pre.length ++ ": port_ranges[" ++
          toString before.length ++ "] invalid: start (" ++ toString s ++
          ") must be <= end (" ++ toString t ++ ")" =
        "rule " ++ ruleIdentifier rule pre.length ++ ": port_ranges[" ++
          toString before.length ++ "] invalid: start (" ++ toString s ++
          (") must be <= end (" ++ toString t ++ ")") := by
      simp only [String.append_assoc]
    rw [hassoc]
    exact mentions_mid _ (toString s) _
  · intro pre post hothers hvalid hentries hrange
    have hrule : ValidRule outOfRange rule := by
      obtain ⟨c1, c2, c3, c4, c5, c6⟩ := hvalid
      refine ⟨c1, c2, c3, ?_, c5, c6⟩
      rcases c4 with c4 | c4 | ⟨entries, hget, _⟩
      · exact Or.inl c4
      · exact Or.inr (Or.inl c4)
      · refine Or.inr (Or.inr ⟨entries, hget, ?_⟩)
        intro e he
        exact validPortRange_of_asWritten outOfRange e
          (fun m k v hm hk hv => hrange entries e m k v hget he hm hk hv)
          (hentries entries hget e he)
    have hall : ∀ r ∈ pre ++ rule :: post, ValidRule outOfRange r := by
      intro r hr
      rcases List.mem_append.mp hr with h | h
      · exact hothers r (List.mem_append.mpr (Or.inl h))
      · rcases List.mem_cons.mp h with rfl | h
        · exact hrule
        · exact hothers r (List.mem_append.mpr (Or.inr h))
    exact (validateRulesFrom_eq_none outOfRange _ 0).mpr hall

theorem validRuleMap_valid (outOfRange : Rat → Int) (name : String) :
    ValidRule outOfRange (validRuleMap name) :=
  (validateRule_eq_none outOfRange 0 (validRuleMap name)).mp rfl

theorem ruleWithPorts_required (name : String) (portRanges : GoValue) :
    ∀ f ∈ requiredFields, (GoMap.get (ruleWithPorts name portRanges) f).isSome = true := by
  intro f hf
  simp only [requiredFields, List.mem_cons, List.mem_singleton, List.not_mem_nil, or_false] at hf
  rcases hf with rfl | rfl | rfl | rfl | rfl <;> rfl

theorem ruleWithPorts_otherwise_valid (name : String) (entries : List GoValue) :
    ValidRuleWith (fun _ => True) (ruleWithPorts name (GoValue.slice entries)) :=
  ⟨ruleWithPorts_required name _, ⟨"accept", rfl, Or.inl rfl⟩, ⟨"tcp", rfl, Or.inl rfl⟩,
    Or.inr (Or.inr ⟨entries, rfl, fun _ _ => trivial⟩),
    Or.inl (Or.inr ⟨"g1", [], rfl⟩), Or.inl (Or.inr ⟨"g2", [], rfl⟩)⟩

theorem C19_witness :
    ValidatePolicyRules (fun _ => 0)
      (some ([validRuleMap "first"] ++ descendingPortsRule :: [])) =
      some "rule 'web': port_ranges[1] invalid: start (9) must be <= end (3)" ∧
    Mentions "rule 'web': port_ranges[1] invalid: start (9) must be <= end (3)" "9" ∧
    Mentions "rule 'web': port_ranges[1] invalid: start (9) must be <= end (3)" "3" ∧
    thirteenQuarters ≤ sevenHalves ∧
    ValidatePolicyRules (fun _ => 0) (some ([] ++ ascendingPortsRule :: [])) = none := by
  have hA := (C19_port_range_order (fun _ => 0) descendingPortsRule).1
    [validRuleMap "first"] [] [portEntry (GoValue.int 80) (GoValue.int 90)] []
    [("start", GoValue.int 9), ("end", GoValue.int 3)] (GoValue.int 9) (GoValue.int 3) 9 3
    (by
      intro r hr
      rw [List.mem_singleton] at hr
      subst hr
      exact validRuleMap_valid _ _)
    (ruleWithPorts_required _ _) ⟨"accept", rfl, Or.inl rfl⟩ ⟨"tcp", rfl, Or.inl rfl⟩ rfl
    (by
      intro e he
      rw [List.mem_singleton] at he
      subst he
      exact ⟨_, _, _, 80, 90, rfl, rfl, rfl, rfl, rfl, by decide⟩)
    rfl rfl rfl rfl (by decide)
  have hB := (C19_port_range_order (fun _ => 0) ascendingPortsRule).2 [] []
    (by simp) (ruleWithPorts_otherwise_valid _ _)
    (by
      intro entries hget e he
      have h := hget.symm
      simp only [ascendingPortsRule, ruleWithPorts] at h
      cases h
      rw [List.mem_singleton] at he
      subst he
      exact ⟨_, _, _, thirteenQuarters, sevenHalves, rfl, rfl, rfl, rfl, rfl, by decide⟩)
    (by
      intro entries e m k v hget he hm hk hv
      have h := hget.symm
      simp only [ascendingPortsRule, ruleWithPorts] at h
      cases h
      rw [List.mem_singleton] at he
      subst he
      cases hm
      rcases hk with rfl | rfl
      · cases hv
        exact ⟨by decide, by decide⟩
      · cases hv
        exact ⟨by decide, by decide⟩)
  obtain ⟨msg, hmsg, hrun, hs, ht⟩ := hA
  subst hmsg
  exact ⟨hrun, hs, ht, by decide, hB⟩

/-- C19, the sentence as written fails: the port range of `truncatedPortsRule` has start
3.5 and end 3.25, and the batch is accepted, both bounds being converted to 3. -/
theorem C19_counterexample_truncated_bounds :
    GoMap.get truncatedPortsRule "port_ranges" = some (GoValue.slice
      [GoValue.object [("start", GoValue.float64 sevenHalves),
        ("end", GoValue.float64 thirteenQuarters)]]) ∧
    thirteenQuarters < sevenHalves ∧
    floatToInt (fun _ => 0) sevenHalves = 3 ∧ floatToInt (fun _ => 0) thirteenQuarters = 3 ∧
    ∀ outOfRange, ValidatePolicyRules outOfRange (some [truncatedPortsRule]) = none :=
  ⟨rfl, by decide, rfl, rfl, fun _ => rfl⟩

/-! ## The messages name the rule -/

theorem startsWith_base (p lit : String) (h : StartsWith lit ": ") :
    StartsWith (p ++ lit) (p ++ ": ") := by
  unfold StartsWith at *
  obtain ⟨t, ht⟩ := h
  refine ⟨t, ?_⟩
  rw [String.data_append, String.data_append, ← ht]
  simp

theorem startsWith_step (m c p : String) (h : StartsWith m p) : StartsWith (m ++ c) p := by
  unfold StartsWith at *
  obtain ⟨t, ht⟩ := h
  refine ⟨t ++ c.data, ?_⟩
  rw [String.data_append, ← ht]
  simp

theorem validatePortRangesFrom_startsWith (outOfRange : Rat → Int) (ruleName : String)
    (entries : List GoValue) (i : Nat) (msg : String)
    (h : validatePortRangesFrom outOfRange ruleName i entries = some msg) :
    StartsWith msg ("rule " ++ ruleName ++ ": ") := by
  induction entries generalizing i with
  | nil => simp [validatePortRangesFrom] at h
  | cons e rest ih =>
    cases e with
    | object m =>
      cases hs : GoMap.get m "start" with
      | none =>
        simp only [validatePortRangesFrom, hs, Option.some.injEq] at h
        subst h
        repeat (first | exact startsWith_base _ _ (by decide) | apply startsWith_step)
      | some sv =>
        cases he : GoMap.get m "end" with
        | none =>
          simp only [validatePortRangesFrom, hs, he, Option.some.injEq] at h
          subst h
          repeat (first | exact startsWith_base _ _ (by decide) | apply startsWith_step)
        | some ev =>
          cases hps : portNumber outOfRange sv with
          | none =>
            simp only [validatePortRangesFrom, hs, he, hps, Option.some.injEq] at h
            subst h
            repeat (first | exact startsWith_base _ _ (by decide) | apply startsWith_step)
          | some s =>
            cases hpe : portNumber outOfRange ev with
            | none =>
              simp only [validatePortRangesFrom, hs, he, hps, hpe, Option.some.injEq] at h
              subst h
              repeat (first | exact startsWith_base _ _ (by decide) | apply startsWith_step)
            | some t =>
              by_cases hst : s > t
              · simp only [validatePortRangesFrom, hs, he, hps, hpe, hst, if_true,
                  Option.some.injEq] at h
                subst h
                repeat (first | exact startsWith_base _ _ (by decide) | apply startsWith_step)
              · simp only [validatePortRangesFrom, hs, he, hps, hpe, hst, if_false] at h
                exact ih (i + 1) h
    | _ =>
      simp only [validatePortRangesFrom, Option.some.injEq] at h
      subst h
      repeat (first | exact startsWith_base _ _ (by decide) | apply startsWith_step)

theorem checkError_startsWith (outOfRange : Rat → Int) (ident : String) (rule : GoMap)
    (c : RuleCheck) (msg : String) (h : checkError outOfRange ident rule c = some msg) :
    StartsWith msg ("rule " ++ ident ++ ": ") := by
  cases c with
  | requiredFields =>
    cases hf : firstMissing rule requiredFields with
    | none => simp [checkError, hf] at h
    | some f =>
      simp only [checkError, hf, Option.map_some', Option.some.injEq] at h
      subst h
      repeat (first | exact startsWith_base _ _ (by decide) | apply startsWith_step)
  | action =>
    simp only [checkError] at h
    split at h
    · split at h
      · cases h
      · simp only [Option.some.injEq] at h
        subst h
        repeat (first | exact startsWith_base _ _ (by decide) | apply startsWith_step)
    · simp only [Option.some.injEq] at h
      subst h
      repeat (first | exact startsWith_base _ _ (by decide) | apply startsWith_step)
  | protocol =>
    simp only [checkError] at h
    split at h
    · split at h
      · cases h
      · simp only [Option.some.injEq] at h
        subst h
        repeat (first | exact startsWith_base _ _ (by decide) | apply startsWith_step)
    · simp only [Option.some.injEq] at h
      subst h
      repeat (first | exact startsWith_base _ _ (by decide) | apply startsWith_step)
  | portRanges =>
    simp only [checkError] at h
    split at h
    · cases h
    · cases h
    · rename_i v _ _
      cases v with
      | slice entries => exact validatePortRangesFrom_startsWith outOfRange ident entries 0 msg h
      | _ =>
        simp only [validatePortRanges, Option.some.injEq] at h
        subst h
        repeat (first | exact startsWith_base _ _ (by decide) | apply startsWith_step)
  | source =>
    simp only [checkError] at h
    split at h
    · cases h
    · simp only [Option.some.injEq] at h
      subst h
      repeat (first | exact startsWith_base _ _ (by decide) | apply startsWith_step)
  | destination =>
    simp only [checkError] at h
    split at h
    · cases h
    · simp only [Option.some.injEq] at h
      subst h
      repeat (first | exact startsWith_base _ _ (by decide) | apply startsWith_step)

/-- C20: when the rules before a rule are valid and the rule is not, `ValidatePolicyRules`
returns the error of that rule for the first check that fails on it, in the order required
fields, action, protocol, port ranges, source, destination. The message begins with
`rule`, the identifier of the rule and a colon; the identifier is the quoted name when the
rule has a non-empty string name, else its index in the batch in brackets. -/
theorem C20_first_invalid_rule_first_check (outOfRange : Rat → Int) (pre post : List GoMap)
    (rule : GoMap) (hpre : ∀ r ∈ pre, ValidRule outOfRange r)
    (hrule : ¬ ValidRule outOfRange rule) :
    ∃ ident before check after msg,
      checkOrder = before ++ check :: after ∧
      (∀ c ∈ before, checkError outOfRange ident rule c = none) ∧
      checkError outOfRange ident rule check = some msg ∧
      ValidatePolicyRules outOfRange (some (pre ++ rule :: post)) = some msg ∧
      StartsWith msg ("rule " ++ ident ++ ": ") ∧
      (∀ name, GoMap.get rule "name" = some (GoValue.string name) → name ≠ "" →
        ident = "'" ++ name ++ "'") ∧
      ((∀ name, GoMap.get rule "name" = some (GoValue.string name) → name = "") →
        ident = "[" ++ toString pre.length ++ "]") := by
  obtain ⟨hrun, msg, hmsg⟩ :=
    validateRulesFrom_first_invalid outOfRange pre post rule 0 hpre hrule
  rw [Nat.zero_add] at hrun hmsg
  have hfail := hmsg
  rw [validateRule_eq] at hfail
  obtain ⟨before, check, after, h1, h2, h3⟩ := firstFailure_spec outOfRange _ rule _ msg hfail
  refine ⟨getRuleIdentifier rule pre.length, before, check, after, msg, h1, h2, h3, ?_,
    checkError_startsWith outOfRange _ rule check msg h3, ?_, ?_⟩
  · rw [← hmsg]
    exact hrun
  · intro name hname hne
    simp [getRuleIdentifier, hname, hne]
  · intro hnone
    unfold getRuleIdentifier
    split
    · rename_i name hname
      simp [hnone name hname]
    · rfl

set_option maxRecDepth 8000 in
theorem C20_witness :
    (∀ r ∈ [validRuleMap "first"], ValidRule (fun _ => 0) r) ∧
    ¬ ValidRule (fun _ => 0) unnamedNoSourceRule ∧
    ValidatePolicyRules (fun _ => 0)
      (some ([validRuleMap "first"] ++ unnamedNoSourceRule :: [validRuleMap "third"])) =
      some "rule [1]: must have at least one source (sources or sourceResource)" ∧
    StartsWith "rule [1]: must have at least one source (sources or sourceResource)"
      "rule [1]: " ∧
    ∃ ident before check after msg,
      checkOrder = before ++ check :: after ∧
      (∀ c ∈ before, checkError (fun _ => 0) ident unnamedNoSourceRule c = none) ∧
      checkError (fun _ => 0) ident unnamedNoSourceRule check = some msg ∧
      ValidatePolicyRules (fun _ => 0)
        (some ([validRuleMap "first"] ++ unnamedNoSourceRule :: [validRuleMap "third"])) =
        some msg ∧
      StartsWith msg ("rule " ++ ident ++ ": ") ∧
      (∀ name, GoMap.get unnamedNoSourceRule "name" = some (GoValue.string name) → name ≠ "" →
        ident = "'" ++ name ++ "'") ∧
      ((∀ name, GoMap.get unnamedNoSourceRule "name" = some (GoValue.string name) →
        name = "") → ident = "[" ++ toString [validRuleMap "first"].length ++ "]") :=
  have hpre : ∀ r ∈ [validRuleMap "first"], ValidRule (fun _ => 0) r := by
    intro r hr
    rw [List.mem_singleton] at hr
    subst hr
    exact validRuleMap_valid _ _
  have hrule : ¬ ValidRule (fun _ => 0) unnamedNoSourceRule := by
    intro hv
    have h := (validateRule_eq_none (fun _ => 0) 1 unnamedNoSourceRule).mpr hv
    cases h
  ⟨hpre, hrule, rfl, by decide,
    C20_first_invalid_rule_first_check (fun _ => 0) [validRuleMap "first"]
      [validRuleMap "third"] unnamedNoSourceRule hpre hrule⟩

/-! ## Rules that come from a struct are sent with bare group IDs -/

theorem policyRulesMap_eq (rules : List NetbirdPolicyRule) (i : Nat) :
    policyRulesMap i rules = .ok (rules.map ruleMapOf) := by
  induction rules generalizing i with
  | nil => rfl
  | cons rule rest ih =>
    have h : structToMap rule = .ok (ruleMapOf rule) := rfl
    simp only [policyRulesMap, h, ih, List.map_cons]

theorem formatRules_eq (rules : List NetbirdPolicyRule) (i : Nat) :
    formatRules i (rules.map ruleMapOf) = .ok (rules.map sentRule) := by
  induction rules generalizing i with
  | nil => rfl
  | cons rule rest ih =>
    obtain ⟨ruleMap, h1, h2⟩ := format_structToMap rule
    have h : ruleMapOf rule = ruleMap := by
      unfold ruleMapOf
      rw [h1]
    simp only [List.map_cons, formatRules, h, h2, ih]

theorem createRequestBody_rules (args : CreateNetbirdPolicyParams)
    (formattedRules : List GoMap) :
    GoMap.get (createRequestBody args formattedRules) "rules" =
      some (GoValue.slice (formattedRules.map GoValue.object)) := by
  unfold createRequestBody
  cases args.Description <;> cases args.Enabled <;> simp [goMap_get_set] <;> rfl

theorem updateRequestBody_rules (args : UpdateNetbirdPolicyParams)
    (formattedRules : List GoMap) :
    GoMap.get (updateRequestBody args formattedRules) "rules" =
      some (GoValue.slice (formattedRules.map GoValue.object)) := by
  unfold updateRequestBody
  cases args.Name <;> cases args.Description <;> cases args.Enabled <;>
    simp [goMap_get_set] <;> rfl

/-- C16: for every `NetbirdPolicyRule`, `structToMap` followed by `FormatRuleForAPI`
succeeds, and the result holds under `sources` and `destinations` the IDs of the groups of
the rule, in order, when those slices are not nil. So none of the loops that prepare the
rules of `createNetbirdPolicy`, `updateNetbirdPolicy`, `DeleteGroupForce` and
`ReplaceGroupInPolicies` takes an error branch: each yields the formatted rules and
leaves the recorded errors as they were, and `createNetbirdPolicy` and
`updateNetbirdPolicy`, given at least one rule, either stop at a validation error or make
their call with a body whose rules are the formatted rules. -/
theorem C16_struct_rules_sent_with_ids (r : NetbirdPolicyRule)
    (rules : List NetbirdPolicyRule) :
    (∃ ruleMap out, structToMap r = .ok ruleMap ∧ FormatRuleForAPI (some ruleMap) = .ok out ∧
      out = sentRule r ∧
      (∀ gs, r.Sources = some gs →
        GoMap.get out "sources" = some (GoValue.strings (gs.map (fun g => g.ID)))) ∧
      (∀ gs, r.Destinations = some gs →
        GoMap.get out "destinations" = some (GoValue.strings (gs.map (fun g => g.ID))))) ∧
    (∃ rulesMap, policyRulesMap 0 rules = .ok rulesMap ∧
      formatRules 0 rulesMap = .ok (rules.map sentRule)) ∧
    (∀ policyID errors, forceRulesMap policyID rules errors =
      (rules.map (fun x => some (sentRule x)), errors)) ∧
    (∀ policyID errors, replaceRulesMap policyID rules errors =
      (rules.map (fun x => some (sentRule x)), errors)) ∧
    (∀ (σ : Type) (svc : PolicyService σ) (outOfRange : Rat → Int)
        (args : CreateNetbirdPolicyParams) (c : PolicyClient σ),
      args.Rules = some rules → rules ≠ [] →
      createNetbirdPolicy svc outOfRange args c =
        (match ValidatePolicyRules outOfRange (some (rules.map ruleMapOf)) with
        | some err => (.error ("validation error: " ++ err), c)
        | none =>
          PolicyClient.post svc "/policies"
            (.object (createRequestBody args (rules.map sentRule))) c) ∧
      GoMap.get (createRequestBody args (rules.map sentRule)) "rules" =
        some (GoValue.slice (rules.map (fun x => GoValue.object (sentRule x))))) ∧
    (∀ (σ : Type) (svc : PolicyService σ) (outOfRange : Rat → Int)
        (args : UpdateNetbirdPolicyParams) (c : PolicyClient σ),
      args.Rules = some rules → rules ≠ [] →
      updateNetbirdPolicy svc outOfRange args c =
        (match ValidatePolicyRules outOfRange (some (rules.map ruleMapOf)) with
        | some err => (.error ("validation error: " ++ err), c)
        | none =>
          PolicyClient.put svc ("/policies/" ++ args.PolicyID)
            (.object (updateRequestBody args (rules.map sentRule))) c) ∧
      GoMap.get (updateRequestBody args (rules.map sentRule)) "rules" =
        some (GoValue.slice (rules.map (fun x => GoValue.object (sentRule x))))) := by
  refine ⟨?_, ?_, ?_, ?_, ?_, ?_⟩
  · obtain ⟨ruleMap, h1, h2⟩ := format_structToMap r
    refine ⟨ruleMap, sentRule r, h1, h2, rfl, ?_, ?_⟩
    · intro gs hgs
      rw [sentRule_sources, hgs]
      rfl
    · intro gs hgs
      rw [sentRule_destinations, hgs]
      rfl
  · exact ⟨rules.map ruleMapOf, policyRulesMap_eq rules 0, formatRules_eq rules 0⟩
  · intro policyID errors
    exact forceRulesMap_eq policyID rules errors
  · intro policyID errors
    exact replaceRulesMap_eq policyID rules errors
  · intro σ svc outOfRange args c hrules hne
    constructor
    · cases rules with
      | nil => exact absurd rfl hne
      | cons first others =>
        unfold createNetbirdPolicy
        rw [hrules]
        simp only [policyRulesMap_eq]
        cases ValidatePolicyRules outOfRange (some ((first :: others).map ruleMapOf)) with
        | some err => rfl
        | none => simp only [formatRules_eq]
    · rw [createRequestBody_rules, List.map_map]
      rfl
  · intro σ svc outOfRange args c hrules hne
    constructor
    · cases rules with
      | nil => exact absurd rfl hne
      | cons first others =>
        unfold updateNetbirdPolicy
        rw [hrules]
        simp only [policyRulesMap_eq]
        cases ValidatePolicyRules outOfRange (some ((first :: others).map ruleMapOf)) with
        | some err => rfl
        | none => simp only [formatRules_eq]
    · rw [updateRequestBody_rules, List.map_map]
      rfl

theorem C16_witness :
    (createNetbirdPolicy acceptingService (fun _ => 0) exampleCreateArgs
      { state := 0, calls := [] }).2.calls =
      [PolicyCall.post "/policies"
        (GoValue.object
          [("name", GoValue.string "web"),
           ("rules", GoValue.slice [GoValue.object
              [("action", GoValue.string "accept"), ("bidirectional", GoValue.bool false),
               ("description", GoValue.string ""),
               ("destinations", GoValue.strings ["g2"]),
               ("enabled", GoValue.bool true), ("id", GoValue.string "r1"),
               ("name", GoValue.string "r1"), ("protocol", GoValue.string "tcp"),
               ("sources", GoValue.strings ["g1"])]]),
           ("description", GoValue.string "front")])
        (.ok (examplePolicy "policy-0" []))] ∧
    (updateNetbirdPolicy acceptingService (fun _ => 0) exampleUpdateArgs
      { state := 0, calls := [] }).2.calls =
      [PolicyCall.put "/policies/p1"
        (GoValue.object
          [("rules", GoValue.slice [GoValue.object
              [("action", GoValue.string "accept"), ("bidirectional", GoValue.bool false),
               ("description", GoValue.string ""),
               ("destinations", GoValue.strings ["g2"]),
               ("enabled", GoValue.bool true), ("id", GoValue.string "r1"),
               ("name", GoValue.string "r1"), ("protocol", GoValue.string "tcp"),
               ("sources", GoValue.strings ["g1"])]]),
           ("enabled", GoValue.bool true)])
        (.ok (examplePolicy "policy-0" []))] ∧
    createNetbirdPolicy acceptingService (fun _ => 0) exampleCreateArgs
      { state := 0, calls := [] } =
      (match ValidatePolicyRules (fun _ => 0)
          (some ([exampleRule "r1" ["g1"] ["g2"] none].map ruleMapOf)) with
        | some err => (.error ("validation error: " ++ err), { state := 0, calls := [] })
        | none =>
          PolicyClient.post acceptingService "/policies"
            (.object (createRequestBody exampleCreateArgs
              ([exampleRule "r1" ["g1"] ["g2"] none].map sentRule)))
            { state := 0, calls := [] }) :=
  ⟨rfl, rfl,
    ((C16_struct_rules_sent_with_ids (exampleRule "r1" ["g1"] ["g2"] none)
      [exampleRule "r1" ["g1"] ["g2"] none]).2.2.2.2.1 Nat acceptingService (fun _ => 0)
      exampleCreateArgs { state := 0, calls := [] } rfl (by simp)).1⟩

/-! ## A validation error stops `createNetbirdPolicy` and `updateNetbirdPolicy` -/

theorem mentions_start (p b : String) : Mentions (p ++ b) p := by
  unfold Mentions
  exact ⟨[], b.data, by simp [String.data_append]⟩

/-- C21: when `ValidatePolicyRules` rejects the maps of the rules given to
`createNetbirdPolicy` or `updateNetbirdPolicy`, the function returns the error
`validation error: ` followed by the message of the validator, and the client is as it was:
no call is made. -/
theorem C21_validation_error_before_any_call (outOfRange : Rat → Int)
    (rules : Option (List NetbirdPolicyRule)) (err : String)
    (hreject : ValidatePolicyRules outOfRange (some ((elems rules).map ruleMapOf)) = some err) :
    (∀ (σ : Type) (svc : PolicyService σ) (args : CreateNetbirdPolicyParams)
        (c : PolicyClient σ), args.Rules = rules →
      createNetbirdPolicy svc outOfRange args c = (.error ("validation error: " ++ err), c) ∧
      (createNetbirdPolicy svc outOfRange args c).2.calls = c.calls) ∧
    (∀ (σ : Type) (svc : PolicyService σ) (args : UpdateNetbirdPolicyParams)
        (c : PolicyClient σ), args.Rules = rules →
      updateNetbirdPolicy svc outOfRange args c = (.error ("validation error: " ++ err), c) ∧
      (updateNetbirdPolicy svc outOfRange args c).2.calls = c.calls) ∧
    Mentions ("validation error: " ++ err) "validation error" := by
  have hne : ∃ first others, rules = some (first :: others) := by
    cases rules with
    | none => cases hreject
    | some rs =>
      cases rs with
      | nil => cases hreject
      | cons first others => exact ⟨first, others, rfl⟩
  obtain ⟨first, others, rfl⟩ := hne
  have hcreate : ∀ (σ : Type) (svc : PolicyService σ) (args : CreateNetbirdPolicyParams)
      (c : PolicyClient σ), args.Rules = some (first :: others) →
      createNetbirdPolicy svc outOfRange args c =
        (.error ("validation error: " ++ err), c) := by
    intro σ svc args c hargs
    unfold createNetbirdPolicy
    rw [hargs]
    simp only [policyRulesMap_eq]
    rw [show (first :: others).map ruleMapOf = (elems (some (first :: others))).map ruleMapOf
      from rfl, hreject]
  have hupdate : ∀ (σ : Type) (svc : PolicyService σ) (args : UpdateNetbirdPolicyParams)
      (c : PolicyClient σ), args.Rules = some (first :: others) →
      updateNetbirdPolicy svc outOfRange args c =
        (.error ("validation error: " ++ err), c) := by
    intro σ svc args c hargs
    unfold updateNetbirdPolicy
    rw [hargs]
    simp only [policyRulesMap_eq]
    rw [show (first :: others).map ruleMapOf = (elems (some (first :: others))).map ruleMapOf
      from rfl, hreject]
  refine ⟨?_, ?_, ?_⟩
  · intro σ svc args c hargs
    rw [hcreate σ svc args c hargs]
    exact ⟨rfl, rfl⟩
  · intro σ svc args c hargs
    rw [hupdate σ svc args c hargs]
    exact ⟨rfl, rfl⟩
  · have h : "validation error: " ++ err = "validation error" ++ (": " ++ err) := by
      rw [← String.append_assoc]
      rfl
    rw [h]
    exact mentions_start _ _

theorem C21_witness :
    ValidatePolicyRules (fun _ => 0) (some ((elems (some [sourcelessRule])).map ruleMapOf)) =
      some "rule 'r1': must have at least one source (sources or sourceResource)" ∧
    createNetbirdPolicy acceptingService (fun _ => 0)
      { Name := "web", Description := none, Enabled := none, Rules := some [sourcelessRule] }
      { state := 0, calls := [] } =
      (.error ("validation error: " ++
        "rule 'r1': must have at least one source (sources or sourceResource)"),
        { state := 0, calls := [] }) ∧
    updateNetbirdPolicy acceptingService (fun _ => 0)
      { PolicyID := "p1", Name := none, Description := none, Enabled := none,
        Rules := some [sourcelessRule] }
      { state := 0, calls := [] } =
      (.error ("validation error: " ++
        "rule 'r1': must have at least one source (sources or sourceResource)"),
        { state := 0, calls := [] }) :=
  have h := C21_validation_error_before_any_call (fun _ => 0) (some [sourcelessRule])
    "rule 'r1': must have at least one source (sources or sourceResource)" rfl
  ⟨rfl,
    (h.1 Nat acceptingService
      { Name := "web", Description := none, Enabled := none, Rules := some [sourcelessRule] }
      { state := 0, calls := [] } rfl).1,
    (h.2.1 Nat acceptingService
      { PolicyID := "p1", Name := none, Description := none, Enabled := none,
        Rules := some [sourcelessRule] }
      { state := 0, calls := [] } rfl).1⟩

/-! ## `deleteNetbirdGroup` without force -/

theorem mentions_right (a b p : String) (h : Mentions b p) : Mentions (a ++ b) p := by
  unfold Mentions at *
  obtain ⟨s, t, hst⟩ := h
  refine ⟨a.data ++ s, t, ?_⟩
  rw [String.data_append, ← hst]
  simp

theorem mentions_step (m c p : String) (h : Mentions m p) : Mentions (m ++ c) p := by
  unfold Mentions at *
  obtain ⟨s, t, hst⟩ := h
  refine ⟨s, t ++ c.data, ?_⟩
  rw [String.data_append, ← hst]
  simp

theorem dependencyError_mentions (groupID : String) (policyIDs : List String) :
    Mentions (dependencyError groupID policyIDs) "referenced by" := by
  unfold dependencyError
  repeat (first | exact mentions_right _ _ _ (by decide) | apply mentions_step)

theorem listPoliciesByGroup_trace {σ : Type} (gw : Gateway σ) (groupID : String)
    (c c1 : Client σ) (references : List PolicyReference)
    (hlist : ListPoliciesByGroup gw groupID c = (.ok references, c1)) :
    ∃ policies, c1.trace = c.trace ++ [Event.getPolicies (.ok policies)] ∧
      references = scanPolicies groupID policies := by
  unfold ListPoliciesByGroup Client.getPolicies at hlist
  cases hg : (gw.getPolicies c.state).1 with
  | error e => simp [hg] at hlist
  | ok policies =>
    simp only [hg, Prod.mk.injEq, Except.ok.injEq] at hlist
    obtain ⟨h1, h2⟩ := hlist
    subst h2
    exact ⟨policies, rfl, h1.symm⟩

/-- C22 (amended): `deleteNetbirdGroup` with `force=false`, after a listing that
succeeds. When the listing gives at least one reference the function returns an error that
mentions `referenced by` and makes no other call than the listing. When it gives none the
function issues the `DELETE` of the group as its only other call; it returns status
`deleted`, the group ID and `force=false` when that call succeeds, and the error of the
call when it fails. -/
theorem C22_delete_without_force {σ : Type} (gw : Gateway σ) (groupID : String)
    (c c1 : Client σ) (references : List PolicyReference)
    (hlist : ListPoliciesByGroup gw groupID c = (.ok references, c1)) :
    (∃ policies, c1.trace = c.trace ++ [Event.getPolicies (.ok policies)]) ∧
    (references ≠ [] →
      ∃ msg, deleteNetbirdGroup gw { GroupID := groupID, Force := false } c =
          (.error msg, c1) ∧
        Mentions msg "referenced by") ∧
    (references = [] →
      ∃ derr c2, Client.deleteGroup gw groupID c1 = (derr, c2) ∧
        c2.trace = c1.trace ++ [Event.deleteGroup groupID derr] ∧
        (deleteNetbirdGroup gw { GroupID := groupID, Force := false } c).2 = c2 ∧
        (derr = none →
          (deleteNetbirdGroup gw { GroupID := groupID, Force := false } c).1 =
            .ok [("status", GoValue.string "deleted"), ("group_id", GoValue.string groupID),
              ("force", GoValue.bool false)]) ∧
        (∀ err, derr = some err →
          (deleteNetbirdGroup gw { GroupID := groupID, Force := false } c).1 =
            .error err)) := by
  obtain ⟨policies, htrace, _⟩ := listPoliciesByGroup_trace gw groupID c c1 references hlist
  refine ⟨⟨policies, htrace⟩, ?_, ?_⟩
  · intro hne
    have hlen : references.length > 0 := by
      cases references with
      | nil => exact absurd rfl hne
      | cons r rs => simp
    refine ⟨dependencyError groupID (dependentPolicyIDs references [] []), ?_,
      dependencyError_mentions _ _⟩
    simp [deleteNetbirdGroup, hlist, hlen]
  · intro hnil
    subst hnil
    cases hd : Client.deleteGroup gw groupID c1 with
    | mk derr c2 =>
      refine ⟨derr, c2, rfl, ?_, ?_, ?_, ?_⟩
      · unfold Client.deleteGroup at hd
        simp only [Prod.mk.injEq] at hd
        obtain ⟨h1, h2⟩ := hd
        subst h1
        subst h2
        rfl
      · cases derr <;> simp [deleteNetbirdGroup, hlist, hd]
      · intro hnone
        subst hnone
        simp [deleteNetbirdGroup, hlist, hd]
      · intro err herr
        subst herr
        simp [deleteNetbirdGroup, hlist, hd]

theorem C22_witness :
    ListPoliciesByGroup (exampleGateway [replacePolicyB] [] [] false) "g"
      { state := 0, trace := [] } =
      (.ok [], { state := 1, trace := [Event.getPolicies (.ok [replacePolicyB])] }) ∧
    deleteNetbirdGroup (exampleGateway [replacePolicyB] [] [] false)
      { GroupID := "g", Force := false } { state := 0, trace := [] } =
      (.ok [("status", GoValue.string "deleted"), ("group_id", GoValue.string "g"),
          ("force", GoValue.bool false)],
        { state := 2,
          trace := [Event.getPolicies (.ok [replacePolicyB]), Event.deleteGroup "g" none] }) ∧
    ((∃ policies, (Client.mk 1 [Event.getPolicies (.ok [replacePolicyB])]).trace =
        (Client.mk 0 []).trace ++ [Event.getPolicies (.ok policies)]) ∧
      (([] : List PolicyReference) ≠ [] →
        ∃ msg, deleteNetbirdGroup (exampleGateway [replacePolicyB] [] [] false)
            { GroupID := "g", Force := false } { state := 0, trace := [] } =
            (.error msg, { state := 1, trace := [Event.getPolicies (.ok [replacePolicyB])] }) ∧
          Mentions msg "referenced by") ∧
      (([] : List PolicyReference) = [] →
        ∃ derr c2, Client.deleteGroup (exampleGateway [replacePolicyB] [] [] false) "g"
            { state := 1, trace := [Event.getPolicies (.ok [replacePolicyB])] } = (derr, c2) ∧
          c2.trace = (Client.mk 1 [Event.getPolicies (.ok [replacePolicyB])]).trace ++
            [Event.deleteGroup "g" derr] ∧
          (deleteNetbirdGroup (exampleGateway [replacePolicyB] [] [] false)
            { GroupID := "g", Force := false } { state := 0, trace := [] }).2 = c2 ∧
          (derr = none →
            (deleteNetbirdGroup (exampleGateway [replacePolicyB] [] [] false)
              { GroupID := "g", Force := false } { state := 0, trace := [] }).1 =
              .ok [("status", GoValue.string "deleted"), ("group_id", GoValue.string "g"),
                ("force", GoValue.bool false)]) ∧
          (∀ err, derr = some err →
            (deleteNetbirdGroup (exampleGateway [replacePolicyB] [] [] false)
              { GroupID := "g", Force := false } { state := 0, trace := [] }).1 =
              .error err))) :=
  ⟨rfl, rfl,
    C22_delete_without_force (exampleGateway [replacePolicyB] [] [] false) "g"
      { state := 0, trace := [] }
      { state := 1, trace := [Event.getPolicies (.ok [replacePolicyB])] } [] rfl⟩

/-- C22, the sentence as written fails: nothing depends on the group, the `DELETE` of the
group is issued and fails, and the function returns the error of the call, not the status
`deleted`. -/
theorem C22_counterexample_delete_call_fails :
    ListPoliciesByGroup (exampleGateway [replacePolicyB] [] [] true) "g"
      { state := 0, trace := [] } =
      (.ok [], { state := 1, trace := [Event.getPolicies (.ok [replacePolicyB])] }) ∧
    deleteNetbirdGroup (exampleGateway [replacePolicyB] [] [] true)
      { GroupID := "g", Force := false } { state := 0, trace := [] } =
      (.error "group in use",
        { state := 2,
          trace := [Event.getPolicies (.ok [replacePolicyB]),
            Event.deleteGroup "g" (some "group in use")] }) :=
  ⟨rfl, rfl⟩

set_option maxRecDepth 8000 in
theorem refusal_with_dependencies :
    deleteNetbirdGroup (exampleGateway [scenarioPolicy] [] [] false)
      { GroupID := "g", Force := false } { state := 0, trace := [] } =
      (.error ("cannot delete group 'g': referenced by 1 policies [policy-2]. " ++
          "Use force=true to remove dependencies first"),
        { state := 1, trace := [Event.getPolicies (.ok [scenarioPolicy])] }) :=
  rfl

/-! ## The policies listed by the refusal of `deleteNetbirdGroup` -/

theorem dependentPolicyIDs_eq (references : List PolicyReference)
    (policyIDs policyNames seen : List String)
    (hnames : ∀ r ∈ references, ∀ q ∈ references,
      (r.PolicyName = q.PolicyName ↔ r.PolicyID = q.PolicyID))
    (hseen : ∀ r ∈ references, (r.PolicyName ∈ policyNames ↔ r.PolicyID ∈ seen)) :
    dependentPolicyIDs references policyIDs policyNames =
      policyIDs ++ firstOccurrences seen (references.map (fun r => r.PolicyID)) := by
  induction references generalizing policyIDs policyNames seen with
  | nil => simp [dependentPolicyIDs, firstOccurrences]
  | cons ref rest ih =>
    have hrest : ∀ r ∈ rest, ∀ q ∈ rest,
        (r.PolicyName = q.PolicyName ↔ r.PolicyID = q.PolicyID) :=
      fun r hr q hq => hnames r (List.mem_cons_of_mem _ hr) q (List.mem_cons_of_mem _ hq)
    by_cases hin : ref.PolicyName ∈ policyNames
    · have hid : ref.PolicyID ∈ seen := (hseen ref (List.mem_cons_self _ _)).mp hin
      simp only [dependentPolicyIDs, hin, decide_True, Bool.not_true, Bool.false_eq_true,
        if_false, List.map_cons, firstOccurrences, hid, if_true]
      exact ih policyIDs policyNames seen hrest
        (fun r hr => hseen r (List.mem_cons_of_mem _ hr))
    · have hid : ref.PolicyID ∉ seen := fun h =>
        hin ((hseen ref (List.mem_cons_self _ _)).mpr h)
      simp only [dependentPolicyIDs, hin, decide_False, Bool.not_false, if_true,
        List.map_cons, firstOccurrences, hid, if_false]
      rw [ih (policyIDs ++ [ref.PolicyID]) (policyNames ++ [ref.PolicyName])
        (seen ++ [ref.PolicyID]) hrest]
      · simp
      · intro r hr
        have h1 := hseen r (List.mem_cons_of_mem _ hr)
        have h2 := hnames r (List.mem_cons_of_mem _ hr) ref (List.mem_cons_self _ _)
        simp only [List.mem_append, List.mem_singleton]
        rw [h1, h2]

theorem dependentPolicyIDs_distinct_names (references : List PolicyReference)
    (hnames : ∀ r ∈ references, ∀ q ∈ references,
      (r.PolicyName = q.PolicyName ↔ r.PolicyID = q.PolicyID)) :
    dependentPolicyIDs references [] [] =
      firstOccurrences [] (references.map (fun r => r.PolicyID)) := by
  rw [dependentPolicyIDs_eq references [] [] [] hnames (by simp)]
  rfl

set_option maxRecDepth 8000 in
/-- C23: the two listed policies `p1` and `p2` are both named `web` and both have group
`g` among their sources. The refusal of `deleteNetbirdGroup` lists `p1` only and reports
one policy, where two distinct policies reference the group. -/
theorem C23_same_name_policies_counted_once :
    ListPoliciesByGroup (exampleGateway sameNamePolicies [] [] false) "g"
      { state := 0, trace := [] } =
      (.ok [{ PolicyID := "p1", PolicyName := "web", RuleID := "rule-1", RuleName := "rule-1",
              Location := "sources" },
            { PolicyID := "p2", PolicyName := "web", RuleID := "rule-2", RuleName := "rule-2",
              Location := "sources" }],
        { state := 1, trace := [Event.getPolicies (.ok sameNamePolicies)] }) ∧
    firstOccurrences [] (sameNamePolicies.map (fun p => p.ID)) = ["p1", "p2"] ∧
    deleteNetbirdGroup (exampleGateway sameNamePolicies [] [] false)
      { GroupID := "g", Force := false } { state := 0, trace := [] } =
      (.error ("cannot delete group 'g': referenced by 1 policies [p1]. " ++
          "Use force=true to remove dependencies first"),
        { state := 1, trace := [Event.getPolicies (.ok sameNamePolicies)] }) ∧
    ¬ Mentions ("cannot delete group 'g': referenced by 1 policies [p1]. " ++
      "Use force=true to remove dependencies first") "p2" :=
  ⟨rfl, rfl, rfl, by decide⟩

/-! ## `LoadConfig` and `stripProtocolPrefix` -/

theorem stripProtocolPrefix_plain (host : String) (h1 : HasPrefix host "http://" = false)
    (h2 : HasPrefix host "https://" = false) : stripProtocolPrefix host = host := by
  simp [stripProtocolPrefix, h1, h2]

/-- C24 (amended): `LoadConfig` never returns an error. The API token is the first
non-empty of the CLI token, the header token and the environment token (the empty string
when all are empty). The API host is the first non-empty of the CLI host, the header host
and the environment host with one leading `http://` or `https://` removed, which is that
host itself when it has no such prefix; it is the default `api.netbird.io` when all three
are empty. -/
theorem C24_loadConfig_priority (cl : ConfigLoader) (env : Environment)
    (httpToken httpHost : String) :
    (LoadConfig cl env httpToken httpHost).2 = none ∧
    (LoadConfig cl env httpToken httpHost).1.APIToken =
      (firstNonEmpty [cl.cliToken, httpToken, env.token]).getD "" ∧
    (LoadConfig cl env httpToken httpHost).1.APIHost =
      (match firstNonEmpty [cl.cliHost, httpHost, env.host] with
      | some host => stripProtocolPrefix host
      | none => defaultNetbirdHost) ∧
    (∀ host, firstNonEmpty [cl.cliHost, httpHost, env.host] = some host →
      HasPrefix host "http://" = false → HasPrefix host "https://" = false →
      (LoadConfig cl env httpToken httpHost).1.APIHost = host) := by
  have hhost : (LoadConfig cl env httpToken httpHost).1.APIHost =
      (match firstNonEmpty [cl.cliHost, httpHost, env.host] with
      | some host => stripProtocolPrefix host
      | none => defaultNetbirdHost) := by
    by_cases h1 : cl.cliHost = ""
    · by_cases h2 : httpHost = ""
      · by_cases h3 : env.host = ""
        · simp [LoadConfig, firstNonEmpty, h1, h2, h3]
        · simp [LoadConfig, firstNonEmpty, h1, h2, h3]
      · simp [LoadConfig, firstNonEmpty, h1, h2]
    · simp [LoadConfig, firstNonEmpty, h1]
  refine ⟨rfl, ?_, hhost, ?_⟩
  · by_cases h1 : cl.cliToken = ""
    · by_cases h2 : httpToken = ""
      · by_cases h3 : env.token = ""
        · simp [LoadConfig, firstNonEmpty, h1, h2, h3]
        · simp [LoadConfig, firstNonEmpty, h1, h2, h3]
      · simp [LoadConfig, firstNonEmpty, h1, h2]
    · simp [LoadConfig, firstNonEmpty, h1]
  · intro host hfirst h1 h2
    rw [hhost, hfirst]
    exact stripProtocolPrefix_plain host h1 h2

/-- C24, the sentence as written fails: the CLI host `https://api.example.com` is the first
non-empty host, and the API host is `api.example.com`, which is none of the three hosts
given. -/
theorem C24_counterexample_host_is_stripped :
    firstNonEmpty ["https://api.example.com", "header.example.com", "env.example.com"] =
      some "https://api.example.com" ∧
    (LoadConfig { cliToken := "cli-token", cliHost := "https://api.example.com" }
      { token := "env-token", host := "env.example.com" } "header-token"
      "header.example.com").1 =
      { APIToken := "cli-token", APIHost := "api.example.com" } :=
  ⟨rfl, by decide⟩

theorem loadConfig_examples :
    (LoadConfig { cliToken := "", cliHost := "" }
      { token := "env-token", host := "" } "header-token" "header.example.com").1 =
      { APIToken := "header-token", APIHost := "header.example.com" } ∧
    (LoadConfig { cliToken := "", cliHost := "" }
      { token := "env-token", host := "" } "" "").1 =
      { APIToken := "env-token", APIHost := "api.netbird.io" } ∧
    (LoadConfig { cliToken := "", cliHost := "http://" }
      { token := "", host := "env.example.com" } "" "header.example.com").1 =
      { APIToken := "", APIHost := "" } :=
  ⟨by decide, by decide, by decide⟩

theorem hasPrefix_iff (s start : String) :
    HasPrefix s start = true ↔ ∃ rest : String, s = start ++ rest := by
  unfold HasPrefix
  rw [List.isPrefixOf_iff_prefix]
  constructor
  · rintro ⟨t, ht⟩
    refine ⟨String.mk t, ?_⟩
    apply String.ext
    rw [String.data_append, ht]
  · rintro ⟨rest, rfl⟩
    exact ⟨rest.data, by rw [String.data_append]⟩

theorem trimPrefix_append (start rest : String) : TrimPrefix (start ++ rest) start = rest := by
  have h : HasPrefix (start ++ rest) start = true := (hasPrefix_iff _ _).mpr ⟨rest, rfl⟩
  unfold TrimPrefix
  rw [if_pos h]
  apply String.ext
  simp [String.data_append]

theorem hasPrefix_http_of_https (rest : String) :
    HasPrefix ("https://" ++ rest) "http://" = false := by
  unfold HasPrefix
  rw [String.data_append]
  rfl

theorem strip_http (rest : String) : stripProtocolPrefix ("http://" ++ rest) = rest := by
  have h : HasPrefix ("http://" ++ rest) "http://" = true := (hasPrefix_iff _ _).mpr ⟨rest, rfl⟩
  unfold stripProtocolPrefix
  rw [if_pos h]
  exact trimPrefix_append _ _

theorem strip_https (rest : String) : stripProtocolPrefix ("https://" ++ rest) = rest := by
  have h : HasPrefix ("https://" ++ rest) "https://" = true :=
    (hasPrefix_iff _ _).mpr ⟨rest, rfl⟩
  unfold stripProtocolPrefix
  rw [hasPrefix_http_of_https, if_neg (by simp), if_pos h]
  exact trimPrefix_append _ _

theorem hasProtocolPrefix_iff (host : String) :
    HasProtocolPrefix host = true ↔
      ∃ first rest, (first = "http://" ∨ first = "https://") ∧ host = first ++ rest := by
  unfold HasProtocolPrefix
  rw [Bool.or_eq_true, hasPrefix_iff, hasPrefix_iff]
  constructor
  · rintro (⟨rest, h⟩ | ⟨rest, h⟩)
    · exact ⟨_, rest, Or.inl rfl, h⟩
    · exact ⟨_, rest, Or.inr rfl, h⟩
  · rintro ⟨first, rest, rfl | rfl, h⟩
    · exact Or.inl ⟨rest, h⟩
    · exact Or.inr ⟨rest, h⟩

theorem strip_of_protocol (first rest : String) (h : first = "http://" ∨ first = "https://") :
    stripProtocolPrefix (first ++ rest) = rest := by
  rcases h with rfl | rfl
  · exact strip_http rest
  · exact strip_https rest

theorem strip_stacked_iff (host : String) :
    HasProtocolPrefix (stripProtocolPrefix host) = true ↔ StackedPrefix host := by
  constructor
  · intro h
    cases hp : HasProtocolPrefix host with
    | false =>
      have h1 : HasPrefix host "http://" = false := by
        unfold HasProtocolPrefix at hp
        simp only [Bool.or_eq_false_iff] at hp
        exact hp.1
      have h2 : HasPrefix host "https://" = false := by
        unfold HasProtocolPrefix at hp
        simp only [Bool.or_eq_false_iff] at hp
        exact hp.2
      rw [stripProtocolPrefix_plain host h1 h2, hp] at h
      cases h
    | true =>
      obtain ⟨first, r, hfirst, rfl⟩ := (hasProtocolPrefix_iff host).mp hp
      rw [strip_of_protocol first r hfirst] at h
      obtain ⟨second, rest, hsecond, rfl⟩ := (hasProtocolPrefix_iff r).mp h
      exact ⟨first, second, rest, hfirst, hsecond, (String.append_assoc _ _ _).symm⟩
  · rintro ⟨first, second, rest, hfirst, hsecond, rfl⟩
    rw [String.append_assoc, strip_of_protocol first _ hfirst]
    exact (hasProtocolPrefix_iff _).mpr ⟨second, rest, hsecond, rfl⟩

theorem trimSpace_eq_empty (s : String) : TrimSpace s = "" ↔ Blank s := by
  unfold TrimSpace Blank
  have hmk : ∀ l : List Char, String.mk l = "" ↔ l = [] := by
    intro l
    constructor
    · intro h
      have := congrArg String.data h
      simpa using this
    · rintro rfl
      rfl
  rw [hmk, List.reverse_eq_nil_iff, List.dropWhile_eq_nil_iff]
  constructor
  · intro h
    have hall : ∀ x ∈ s.data.dropWhile isSpace, isSpace x = true :=
      fun x hx => h x (List.mem_reverse.mpr hx)
    have hnil : s.data.dropWhile isSpace = [] := by
      cases hd : s.data.dropWhile isSpace with
      | nil => rfl
      | cons x rest =>
        have hx : isSpace x = true := hall x (by rw [hd]; exact List.mem_cons_self _ _)
        have hnot := List.head_dropWhile_not isSpace s.data (by rw [hd]; simp)
        simp only [hd, List.head_cons] at hnot
        rw [hx] at hnot
        cases hnot
    exact List.dropWhile_eq_nil_iff.mp hnil
  · intro h x hx
    have hnil : s.data.dropWhile isSpace = [] := List.dropWhile_eq_nil_iff.mpr h
    rw [hnil] at hx
    simp at hx

theorem blank_of_empty (s : String) (h : s = "") : Blank s := by
  subst h
  intro c hc
  simp at hc

theorem not_blank_of_protocol (first rest : String)
    (h : first = "http://" ∨ first = "https://") : ¬ Blank (first ++ rest) := by
  intro hb
  have hh : isSpace 'h' = true := by
    apply hb
    rw [String.data_append]
    rcases h with rfl | rfl <;> exact List.mem_append_left _ (List.mem_cons_self _ _)
  exact absurd hh (by decide)

theorem validateConfig_protocol (cfg : Config) (htoken : ¬ Blank cfg.APIToken)
    (hproto : HasProtocolPrefix cfg.APIHost = true) :
    ValidateConfig cfg = some (protocolPrefixError cfg.APIHost) := by
  obtain ⟨first, rest, hfirst, hhost⟩ := (hasProtocolPrefix_iff _).mp hproto
  have hhb : ¬ Blank cfg.APIHost := by
    rw [hhost]
    exact not_blank_of_protocol first rest hfirst
  have h1 : cfg.APIToken ≠ "" := fun h => htoken (blank_of_empty _ h)
  have h2 : TrimSpace cfg.APIToken ≠ "" := fun h => htoken ((trimSpace_eq_empty _).mp h)
  have h3 : cfg.APIHost ≠ "" := fun h => hhb (blank_of_empty _ h)
  have h4 : TrimSpace cfg.APIHost ≠ "" := fun h => hhb ((trimSpace_eq_empty _).mp h)
  have h5 : (HasPrefix cfg.APIHost "http://" || HasPrefix cfg.APIHost "https://") = true :=
    hproto
  unfold ValidateConfig
  rw [if_neg h1, if_neg h2, if_neg h3, if_neg h4, if_pos h5]
  rfl

theorem loadConfig_host (cl : ConfigLoader) (env : Environment) (httpToken httpHost : String) :
    (LoadConfig cl env httpToken httpHost).1.APIHost =
      (match firstNonEmpty [cl.cliHost, httpHost, env.host] with
      | some host => stripProtocolPrefix host
      | none => defaultNetbirdHost) := by
  by_cases h1 : cl.cliHost = ""
  · by_cases h2 : httpHost = ""
    · by_cases h3 : env.host = ""
      · simp [LoadConfig, firstNonEmpty, h1, h2, h3]
      · simp [LoadConfig, firstNonEmpty, h1, h2, h3]
    · simp [LoadConfig, firstNonEmpty, h1, h2]
  · simp [LoadConfig, firstNonEmpty, h1]

/-- C25 (amended): `stripProtocolPrefix` removes one leading `http://` or `https://` and
leaves a host without such a prefix as it is. Its result begins with `http://` or
`https://` exactly when the host begins with two such prefixes, one after the other. So
the `APIHost` that `LoadConfig` makes of the first non-empty host passes the
protocol-prefix check of `ValidateConfig` exactly when that host has no two stacked
prefixes; when it has, and the token is not blank, `ValidateConfig` rejects the
configuration with the error of that check. -/
theorem C25_strip_removes_one_protocol (host : String) :
    (∀ first rest, first = "http://" ∨ first = "https://" → host = first ++ rest →
      stripProtocolPrefix host = rest) ∧
    (HasProtocolPrefix host = false → stripProtocolPrefix host = host) ∧
    (HasProtocolPrefix (stripProtocolPrefix host) = true ↔ StackedPrefix host) ∧
    (∀ (cl : ConfigLoader) (env : Environment) (httpToken httpHost : String),
      firstNonEmpty [cl.cliHost, httpHost, env.host] = some host →
      (LoadConfig cl env httpToken httpHost).1.APIHost = stripProtocolPrefix host ∧
      (HasProtocolPrefix (LoadConfig cl env httpToken httpHost).1.APIHost = true ↔
        StackedPrefix host) ∧
      (StackedPrefix host → ¬ Blank (LoadConfig cl env httpToken httpHost).1.APIToken →
        ValidateConfig (LoadConfig cl env httpToken httpHost).1 =
          some (protocolPrefixError (stripProtocolPrefix host)))) := by
  refine ⟨?_, ?_, strip_stacked_iff host, ?_⟩
  · rintro first rest hfirst rfl
    exact strip_of_protocol first rest hfirst
  · intro h
    unfold HasProtocolPrefix at h
    simp only [Bool.or_eq_false_iff] at h
    exact stripProtocolPrefix_plain host h.1 h.2
  · intro cl env httpToken httpHost hfirst
    have hhost : (LoadConfig cl env httpToken httpHost).1.APIHost =
        stripProtocolPrefix host := by
      rw [loadConfig_host cl env httpToken httpHost, hfirst]
    refine ⟨hhost, ?_, ?_⟩
    · rw [hhost]
      exact strip_stacked_iff host
    · intro hstacked htoken
      have hp : HasProtocolPrefix (LoadConfig cl env httpToken httpHost).1.APIHost = true := by
        rw [hhost]
        exact (strip_stacked_iff host).mpr hstacked
      rw [validateConfig_protocol _ htoken hp, hhost]

/-- C25, the sentence as written fails: the host `http://https://api.example.com` loses its
first prefix only. The result begins with `https://`, it is the `APIHost` that `LoadConfig`
returns, and `ValidateConfig` rejects it at its protocol-prefix check. -/
theorem C25_counterexample_stacked_prefixes :
    stripProtocolPrefix "http://https://api.example.com" = "https://api.example.com" ∧
    HasPrefix (stripProtocolPrefix "http://https://api.example.com") "https://" = true ∧
    (LoadConfig { cliToken := "token", cliHost := "http://https://api.example.com" }
      { token := "", host := "" } "" "").1 =
      { APIToken := "token", APIHost := "https://api.example.com" } ∧
    ValidateConfig { APIToken := "token", APIHost := "https://api.example.com" } =
      some ("API host 'https://api.example.com' should not contain protocol prefix " ++
        "(http:// or https://)") :=
  ⟨by decide, by decide, by decide, by decide⟩

/-! ## `ValidateConfig` -/

theorem contains_singleton (s sub : String) (c : Char) (h : sub.data = [c]) :
    Contains s sub = true ↔ c ∈ s.data := by
  unfold Contains
  rw [decide_eq_true_iff, h]
  constructor
  · rintro ⟨a, b, hab⟩
    rw [← hab]
    simp
  · intro hc
    obtain ⟨a, b, hab⟩ := List.append_of_mem hc
    exact ⟨a, b, by rw [hab]; simp⟩

theorem firstInvalidChar_isSome (host : String) (chars : List String) :
    (∃ ch, firstInvalidChar host chars = some ch) ↔
      ∃ ch ∈ chars, Contains host ch = true := by
  induction chars with
  | nil => simp [firstInvalidChar]
  | cons ch rest ih =>
    by_cases h : Contains host ch = true
    · simp [firstInvalidChar, h]
    · simp [firstInvalidChar, h, ih]

theorem invalidChars_eq : invalidChars = forbiddenHostChars.map String.singleton := by
  decide

theorem firstInvalidChar_forbidden (host : String) :
    (∃ ch, firstInvalidChar host invalidChars = some ch) ↔
      ∃ c ∈ forbiddenHostChars, c ∈ host.data := by
  rw [firstInvalidChar_isSome, invalidChars_eq]
  constructor
  · rintro ⟨ch, hch, hcontains⟩
    obtain ⟨c, hc, rfl⟩ := List.mem_map.mp hch
    exact ⟨c, hc, (contains_singleton host _ c rfl).mp hcontains⟩
  · rintro ⟨c, hc, hmem⟩
    exact ⟨String.singleton c, List.mem_map.mpr ⟨c, hc, rfl⟩,
      (contains_singleton host _ c rfl).mpr hmem⟩

set_option maxRecDepth 100000 in
theorem validHostChars_sound : ∀ x ∈ validHostChars.data, isHostChar x = true := by
  decide

set_option maxRecDepth 100000 in
theorem validHostChars_complete :
    ∀ n : Fin 123, isHostChar (Char.ofNat n.val) = true →
      Char.ofNat n.val ∈ validHostChars.data := by
  decide

theorem mem_validHostChars (c : Char) : c ∈ validHostChars.data ↔ isHostChar c = true := by
  constructor
  · exact validHostChars_sound c
  · intro h
    have hlt : c.toNat < 123 := by
      unfold isHostChar at h
      simp only [Bool.or_eq_true, Bool.and_eq_true, decide_eq_true_eq, beq_iff_eq] at h
      omega
    have := validHostChars_complete ⟨c.toNat, hlt⟩
    simp only [Char.ofNat_toNat] at this
    exact this h

theorem hasValidChar_eq_false (host : String) :
    host.data.any (fun char => decide (char ∈ validHostChars.data)) = false ↔
      ∀ c ∈ host.data, isHostChar c = false := by
  rw [List.any_eq_false]
  constructor
  · intro h c hc
    have := h c hc
    rw [decide_eq_true_iff, mem_validHostChars] at this
    simpa using this
  · intro h c hc
    rw [decide_eq_true_iff, mem_validHostChars, h c hc]
    simp

theorem hasPrefix_iff_startsWith (s start : String) :
    HasPrefix s start = true ↔ StartsWith s start := by
  unfold HasPrefix StartsWith
  exact List.isPrefixOf_iff_prefix

theorem hostMessage_startsWith (host tail : String) :
    StartsWith ("API host '" ++ host ++ tail) "API host" := by
  apply startsWith_step
  apply startsWith_step
  exact ⟨" '".data, by decide⟩

theorem mentions_of_startsWith (msg start : String) (h : StartsWith msg start) :
    Mentions msg start := by
  unfold StartsWith at h
  unfold Mentions
  obtain ⟨t, ht⟩ := h
  exact ⟨[], t, by simpa using ht⟩

/-- The outcome of `ValidateConfig`, case by case: a blank token gives one of the two token
errors; else a host to reject gives an error that begins with `API host`; else there is no
error. -/
theorem validateConfig_cases (cfg : Config) :
    (Blank cfg.APIToken ∧
      (ValidateConfig cfg = some "API token is required but not provided" ∨
        ValidateConfig cfg = some "API token cannot be empty or whitespace-only")) ∨
    (¬ Blank cfg.APIToken ∧ HostInvalid cfg.APIHost ∧
      ∃ e, ValidateConfig cfg = some e ∧ StartsWith e "API host") ∨
    (¬ Blank cfg.APIToken ∧ ¬ HostInvalid cfg.APIHost ∧ ValidateConfig cfg = none) := by
  by_cases hT : Blank cfg.APIToken
  · left
    refine ⟨hT, ?_⟩
    by_cases h1 : cfg.APIToken = ""
    · left
      simp [ValidateConfig, h1]
    · right
      have h2 := (trimSpace_eq_empty _).mpr hT
      simp [ValidateConfig, h1, h2]
  · right
    have h1 : cfg.APIToken ≠ "" := fun h => hT (blank_of_empty _ h)
    have h2 : TrimSpace cfg.APIToken ≠ "" := fun h => hT ((trimSpace_eq_empty _).mp h)
    by_cases hB : Blank cfg.APIHost
    · left
      refine ⟨hT, Or.inl hB, ?_⟩
      by_cases h3 : cfg.APIHost = ""
      · exact ⟨"API host is required but not provided",
          by simp [ValidateConfig, h1, h2, h3], by decide⟩
      · have h4 := (trimSpace_eq_empty _).mpr hB
        exact ⟨"API host cannot be empty or whitespace-only",
          by simp [ValidateConfig, h1, h2, h3, h4], by decide⟩
    · have h3 : cfg.APIHost ≠ "" := fun h => hB (blank_of_empty _ h)
      have h4 : TrimSpace cfg.APIHost ≠ "" := fun h => hB ((trimSpace_eq_empty _).mp h)
      by_cases hP : (HasPrefix cfg.APIHost "http://" || HasPrefix cfg.APIHost "https://") = true
      · left
        refine ⟨hT, ?_, _, by
          unfold ValidateConfig
          rw [if_neg h1, if_neg h2, if_neg h3, if_neg h4, if_pos hP], hostMessage_startsWith _ _⟩
        rw [Bool.or_eq_true, hasPrefix_iff_startsWith, hasPrefix_iff_startsWith] at hP
        rcases hP with hP | hP
        · exact Or.inr (Or.inl hP)
        · exact Or.inr (Or.inr (Or.inl hP))
      · have hP1 : ¬ StartsWith cfg.APIHost "http://" := fun h =>
          hP (by rw [Bool.or_eq_true]; exact Or.inl ((hasPrefix_iff_startsWith _ _).mpr h))
        have hP2 : ¬ StartsWith cfg.APIHost "https://" := fun h =>
          hP (by rw [Bool.or_eq_true]; exact Or.inr ((hasPrefix_iff_startsWith _ _).mpr h))
        by_cases hS : Contains cfg.APIHost " " = true
        · left
          refine ⟨hT, Or.inr (Or.inr (Or.inr (Or.inl
            ((contains_singleton _ " " ' ' rfl).mp hS)))), _, by
            unfold ValidateConfig
            rw [if_neg h1, if_neg h2, if_neg h3, if_neg h4, if_neg hP, if_pos hS],
            hostMessage_startsWith _ _⟩
        · have hS2 : ' ' ∉ cfg.APIHost.data := fun h =>
            hS ((contains_singleton _ " " ' ' rfl).mpr h)
          cases hI : firstInvalidChar cfg.APIHost invalidChars with
          | some ch =>
            left
            refine ⟨hT, Or.inr (Or.inr (Or.inr (Or.inr (Or.inl
              ((firstInvalidChar_forbidden _).mp ⟨ch, hI⟩))))),
              "API host '" ++ cfg.APIHost ++
                "' is not a valid URL format: contains invalid character '" ++ ch ++ "'", by
              unfold ValidateConfig
              rw [if_neg h1, if_neg h2, if_neg h3, if_neg h4, if_neg hP, if_neg hS]
              simp only [hI], ?_⟩
            apply startsWith_step
            apply startsWith_step
            exact hostMessage_startsWith _ _
          | none =>
            have hI2 : ¬ ∃ c ∈ forbiddenHostChars, c ∈ cfg.APIHost.data := fun h => by
              obtain ⟨ch, hch⟩ := (firstInvalidChar_forbidden _).mpr h
              rw [hI] at hch
              cases hch
            cases hV : cfg.APIHost.data.any (fun char => decide (char ∈ validHostChars.data)) with
            | false =>
              left
              refine ⟨hT, Or.inr (Or.inr (Or.inr (Or.inr (Or.inr
                ((hasValidChar_eq_false _).mp hV))))),
                "API host '" ++ cfg.APIHost ++
                  "' is not a valid URL format: no valid hostname characters", by
                unfold ValidateConfig
                rw [if_neg h1, if_neg h2, if_neg h3, if_neg h4, if_neg hP, if_neg hS]
                simp only [hI, hV, Bool.not_false, if_true], hostMessage_startsWith _ _⟩
            | true =>
              right
              refine ⟨hT, ?_, by
                unfold ValidateConfig
                rw [if_neg h1, if_neg h2, if_neg h3, if_neg h4, if_neg hP, if_neg hS]
                simp only [hI, hV, Bool.not_true, Bool.false_eq_true, if_false]⟩
              rintro (h | h | h | h | h | h)
              · exact hB h
              · exact hP1 h
              · exact hP2 h
              · exact hS2 h
              · exact hI2 h
              · have := (hasValidChar_eq_false _).mpr h
                rw [hV] at this
                cases this

/-- C26: `ValidateConfig` returns an error exactly when the API token is empty or white
space only, or the API host is empty or white space only, begins with `http://` or
`https://`, contains a space, contains one of the forbidden characters, or contains no
letter, digit, dot, hyphen, colon or slash. The token is checked first: a blank token gives
one of the two token errors, which name `API token`, whatever the host; with a token that
is not blank, a host to reject gives an error that begins with `API host`. -/
theorem C26_validateConfig_errors (cfg : Config) :
    ((∃ e, ValidateConfig cfg = some e) ↔ Blank cfg.APIToken ∨ HostInvalid cfg.APIHost) ∧
    (Blank cfg.APIToken →
      (ValidateConfig cfg = some "API token is required but not provided" ∨
        ValidateConfig cfg = some "API token cannot be empty or whitespace-only") ∧
      ∃ e, ValidateConfig cfg = some e ∧ Mentions e "API token") ∧
    (¬ Blank cfg.APIToken → HostInvalid cfg.APIHost →
      ∃ e, ValidateConfig cfg = some e ∧ StartsWith e "API host" ∧ Mentions e "API host") := by
  rcases validateConfig_cases cfg with ⟨hT, hmsg⟩ | ⟨hT, hH, e, he, hstart⟩ | ⟨hT, hH, hnone⟩
  · refine ⟨?_, ?_, ?_⟩
    · constructor
      · intro _
        exact Or.inl hT
      · intro _
        rcases hmsg with h | h
        · exact ⟨_, h⟩
        · exact ⟨_, h⟩
    · intro _
      refine ⟨hmsg, ?_⟩
      rcases hmsg with h | h
      · exact ⟨_, h, by decide⟩
      · exact ⟨_, h, by decide⟩
    · intro hnot
      exact absurd hT hnot
  · refine ⟨?_, ?_, ?_⟩
    · constructor
      · intro _
        exact Or.inr hH
      · intro _
        exact ⟨e, he⟩
    · intro hblank
      exact absurd hblank hT
    · intro _ _
      exact ⟨e, he, hstart, mentions_of_startsWith _ _ hstart⟩
  · refine ⟨?_, ?_, ?_⟩
    · constructor
      · rintro ⟨e, he⟩
        rw [hnone] at he
        cases he
      · rintro (h | h)
        · exact absurd h hT
        · exact absurd h hH
    · intro hblank
      exact absurd hblank hT
    · intro _ hinvalid
      exact absurd hinvalid hH

set_option maxRecDepth 20000 in
theorem validateConfig_examples :
    ValidateConfig { APIToken := "token", APIHost := "api.netbird.io" } = none ∧
    ValidateConfig { APIToken := " \t\n ", APIHost := "http://x y" } =
      some "API token cannot be empty or whitespace-only" ∧
    ValidateConfig { APIToken := "token", APIHost := "api netbird" } =
      some "API host 'api netbird' is not a valid URL format: contains spaces" ∧
    ValidateConfig { APIToken := "token", APIHost := "api|netbird" } =
      some ("API host 'api|netbird' is not a valid URL format: " ++
        "contains invalid character '|'") ∧
    ValidateConfig { APIToken := "token", APIHost := "___" } =
      some "API host '___' is not a valid URL format: no valid hostname characters" :=
  ⟨by decide, by decide, by decide, by decide, by decide⟩

/-! ## The body of a router update -/

theorem routerRequestBody_get (args : UpdateNetbirdNetworkRouterParams) (k : String) :
    GoMap.get (routerRequestBody args) k =
      if k = "enabled" then args.Enabled.map GoValue.bool
      else if k = "masquerade" then args.Masquerade.map GoValue.bool
      else if k = "metric" then args.Metric.map GoValue.int
      else if k = "peer_groups" then args.PeerGroups.map GoValue.strings
      else if k = "peer" then args.Peer.map GoValue.string
      else none := by
  obtain ⟨n, r, p, pg, m, mq, e⟩ := args
  by_cases h1 : k = "enabled"
  · subst h1
    cases p <;> cases pg <;> cases m <;> cases mq <;> cases e <;>
      simp [routerRequestBody, goMap_get_set, GoMap.get]
  · by_cases h2 : k = "masquerade"
    · subst h2
      cases p <;> cases pg <;> cases m <;> cases mq <;> cases e <;>
        simp [routerRequestBody, goMap_get_set, GoMap.get]
    · by_cases h3 : k = "metric"
      · subst h3
        cases p <;> cases pg <;> cases m <;> cases mq <;> cases e <;>
          simp [routerRequestBody, goMap_get_set, GoMap.get]
      · by_cases h4 : k = "peer_groups"
        · subst h4
          cases p <;> cases pg <;> cases m <;> cases mq <;> cases e <;>
            simp [routerRequestBody, goMap_get_set, GoMap.get]
        · by_cases h5 : k = "peer"
          · subst h5
            cases p <;> cases pg <;> cases m <;> cases mq <;> cases e <;>
              simp [routerRequestBody, goMap_get_set, GoMap.get]
          · have e1 := Ne.symm h1
            have e2 := Ne.symm h2
            have e3 := Ne.symm h3
            have e4 := Ne.symm h4
            have e5 := Ne.symm h5
            cases p <;> cases pg <;> cases m <;> cases mq <;> cases e <;>
              simp [routerRequestBody, goMap_get_set, GoMap.get, h1, h2, h3, h4, h5, e1, e2,
                e3, e4, e5]

theorem routerRequestBody_keys (args : UpdateNetbirdNetworkRouterParams) :
    ((routerRequestBody args).map Prod.fst).Nodup ∧
    ∀ k ∈ (routerRequestBody args).map Prod.fst, k ∈ routerBodyKeys := by
  obtain ⟨n, r, p, pg, m, mq, e⟩ := args
  cases p <;> cases pg <;> cases m <;> cases mq <;> cases e <;>
    simp [routerRequestBody, GoMap.set, routerBodyKeys]

/-- C27: `updateNetbirdNetworkRouter` makes one call, the `PUT` of its request body at the
path of the router. The body reads under each of `peer`, `peer_groups`, `metric`,
`masquerade` and `enabled` the value that the caller gave for the field, and nothing when
the field is unset; it has no other key, so neither `network_id` nor `router_id`, and no
key twice. -/
theorem C27_router_update_body {σ : Type} (svc : RouterService σ)
    (args : UpdateNetbirdNetworkRouterParams) (c : RouterClient σ) :
    (∃ resp, (updateNetbirdNetworkRouter svc args c).2.calls =
      c.calls ++ [{ path := "/networks/" ++ args.NetworkID ++ "/routers/" ++ args.RouterID,
                    body := GoValue.object (routerRequestBody args), resp := resp }]) ∧
    GoMap.get (routerRequestBody args) "peer" = args.Peer.map GoValue.string ∧
    GoMap.get (routerRequestBody args) "peer_groups" = args.PeerGroups.map GoValue.strings ∧
    GoMap.get (routerRequestBody args) "metric" = args.Metric.map GoValue.int ∧
    GoMap.get (routerRequestBody args) "masquerade" = args.Masquerade.map GoValue.bool ∧
    GoMap.get (routerRequestBody args) "enabled" = args.Enabled.map GoValue.bool ∧
    (∀ k, k ∉ routerBodyKeys → GoMap.get (routerRequestBody args) k = none) ∧
    GoMap.get (routerRequestBody args) "network_id" = none ∧
    GoMap.get (routerRequestBody args) "router_id" = none ∧
    ((routerRequestBody args).map Prod.fst).Nodup ∧
    (∀ k ∈ (routerRequestBody args).map Prod.fst, k ∈ routerBodyKeys) := by
  refine ⟨⟨_, rfl⟩, ?_, ?_, ?_, ?_, ?_, ?_, ?_, ?_, (routerRequestBody_keys args).1,
    (routerRequestBody_keys args).2⟩
  · rw [routerRequestBody_get]
    simp
  · rw [routerRequestBody_get]
    simp
  · rw [routerRequestBody_get]
    simp
  · rw [routerRequestBody_get]
    simp
  · rw [routerRequestBody_get]
    simp
  · intro k hk
    rw [routerRequestBody_get]
    simp only [routerBodyKeys, List.mem_cons, List.mem_singleton, List.not_mem_nil, or_false,
      not_or] at hk
    simp [hk.1, hk.2.1, hk.2.2.1, hk.2.2.2.1, hk.2.2.2.2]
  · rw [routerRequestBody_get]
    simp
  · rw [routerRequestBody_get]
    simp

theorem partial_router_update :
    (updateNetbirdNetworkRouter echoRouterService partialRouterUpdate
      { state := 0, calls := [] }).2.calls.map (fun call => (call.path, call.body)) =
      [("/networks/net-1/routers/router-1",
        GoValue.object [("metric", GoValue.int 0), ("enabled", GoValue.bool false)])] :=
  rfl

/-! ## `FormatRuleForAPI` applied twice -/

theorem goMap_set_same (m : GoMap) (k : String) (v : GoValue)
    (h : GoMap.get m k = some v) : GoMap.set m k v = m := by
  induction m with
  | nil => simp [GoMap.get] at h
  | cons kv rest ih =>
    by_cases hk : kv.1 = k
    · rw [GoMap.get, if_pos hk] at h
      rw [GoMap.set, if_pos hk]
      obtain ⟨a, b⟩ := kv
      simp only [Option.some.injEq] at h
      simp only at hk
      rw [hk, h]
    · rw [GoMap.get, if_neg hk] at h
      rw [GoMap.set, if_neg hk, ih h]

theorem fieldOutcome_congr (m out : GoMap) (field : String)
    (h : GoMap.get out field = GoMap.get m field) :
    fieldOutcome out field = fieldOutcome m field := by
  unfold fieldOutcome
  rw [h]

theorem fieldOutcome_formatted (m out : GoMap) (field : String) (ids : Option (List String))
    (hm : fieldOutcome m field = .ok ids)
    (hnone : ids = none → GoMap.get out field = GoMap.get m field)
    (hsome : ∀ xs, ids = some xs → GoMap.get out field = some (GoValue.strings xs)) :
    fieldOutcome out field = .ok ids ∧ applyIDs field ids out = out := by
  cases ids with
  | none => exact ⟨by rw [fieldOutcome_congr m out field (hnone rfl), hm], rfl⟩
  | some xs =>
    exact ⟨fieldOutcome_strings out field xs (hsome xs rfl),
      goMap_set_same out field _ (hsome xs rfl)⟩

/-- C28: `FormatRuleForAPI` is idempotent: when it succeeds on a rule, it succeeds on its
output and returns that output. -/
theorem C28_format_idempotent (rule : Option GoMap) (out : GoMap)
    (h : FormatRuleForAPI rule = .ok out) : FormatRuleForAPI (some out) = .ok out := by
  cases rule with
  | none => simp [FormatRuleForAPI] at h
  | some m =>
    obtain ⟨src, dst, hs, hd, hout⟩ := format_ok_fields m out h
    have gs1 : src = none → GoMap.get out "sources" = GoMap.get m "sources" := by
      intro hsrc
      rw [hout, get_formatted_sources, hsrc]
    have gs2 : ∀ xs, src = some xs →
        GoMap.get out "sources" = some (GoValue.strings xs) := by
      intro xs hsrc
      rw [hout, get_formatted_sources, hsrc]
    have gd1 : dst = none → GoMap.get out "destinations" = GoMap.get m "destinations" := by
      intro hdst
      rw [hout, get_formatted_destinations, hdst]
    have gd2 : ∀ xs, dst = some xs →
        GoMap.get out "destinations" = some (GoValue.strings xs) := by
      intro xs hdst
      rw [hout, get_formatted_destinations, hdst]
    obtain ⟨fs, as⟩ := fieldOutcome_formatted m out "sources" src hs gs1 gs2
    obtain ⟨fd, ad⟩ := fieldOutcome_formatted m out "destinations" dst hd gd1 gd2
    rw [format_eq, fs, fd]
    simp only [as, ad]

theorem C28_witness :
    FormatRuleForAPI (some mixedReferenceRule) = .ok
      [("name", GoValue.string "web"),
       ("sources", GoValue.strings ["g1", "g2"]),
       ("destinations", GoValue.strings ["g3"]),
       ("sourceResource", GoValue.nil)] ∧
    FormatRuleForAPI (some
      [("name", GoValue.string "web"),
       ("sources", GoValue.strings ["g1", "g2"]),
       ("destinations", GoValue.strings ["g3"]),
       ("sourceResource", GoValue.nil)]) = .ok
      [("name", GoValue.string "web"),
       ("sources", GoValue.strings ["g1", "g2"]),
       ("destinations", GoValue.strings ["g3"]),
       ("sourceResource", GoValue.nil)] :=
  ⟨rfl, C28_format_idempotent (some mixedReferenceRule) _ rfl⟩

/-! ## The keep condition of `DeleteGroupForce` and the validator -/

theorem ruleMapOf_gets (rule : NetbirdPolicyRule) :
    GoMap.get (ruleMapOf rule) "sources" = some (peerGroupsToValue rule.Sources) ∧
    GoMap.get (ruleMapOf rule) "destinations" = some (peerGroupsToValue rule.Destinations) ∧
    GoMap.get (ruleMapOf rule) "sourceResource" = rule.SourceResource.map resourceToValue ∧
    GoMap.get (ruleMapOf rule) "destinationResource" =
      rule.DestinationResource.map resourceToValue := by
  obtain ⟨a, b, d, dst, e, i, n, p, src, pr, ag, sr, dr⟩ := rule
  cases pr <;> cases ag <;> cases sr <;> cases dr <;>
    simp [ruleMapOf, structToMap, omitEmpty, GoMap.get]

theorem sentRule_resources (rule : NetbirdPolicyRule) :
    GoMap.get (sentRule rule) "sourceResource" = rule.SourceResource.map resourceToValue ∧
    GoMap.get (sentRule rule) "destinationResource" =
      rule.DestinationResource.map resourceToValue := by
  obtain ⟨a, b, d, dst, e, i, n, p, src, pr, ag, sr, dr⟩ := rule
  cases pr <;> cases ag <;> cases sr <;> cases dr <;>
    simp [sentRule, omitEmpty, GoMap.get]

theorem hasEndpoint_struct (m : GoMap) (groups : Option (List NetbirdPeerGroup))
    (res : Option ResourceReference) (listKey resKey : String)
    (hl : GoMap.get m listKey = some (peerGroupsToValue groups))
    (hr : GoMap.get m resKey = res.map resourceToValue) :
    hasEndpoint m listKey resKey = (decide ((elems groups).length > 0) || res.isSome) := by
  unfold hasEndpoint
  rw [hl, hr]
  cases groups with
  | none => cases res <;> simp [peerGroupsToValue, resourceToValue, elems]
  | some gs => cases res <;> simp [peerGroupsToValue, resourceToValue, elems]

theorem hasEndpoint_sent (m : GoMap) (groups : Option (List NetbirdPeerGroup))
    (res : Option ResourceReference) (listKey resKey : String)
    (hl : GoMap.get m listKey = some (idsValue groups))
    (hr : GoMap.get m resKey = res.map resourceToValue) :
    hasEndpoint m listKey resKey = (decide ((elems groups).length > 0) || res.isSome) := by
  unfold hasEndpoint
  rw [hl, hr]
  cases groups with
  | none => cases res <;> simp [idsValue, resourceToValue, elems]
  | some gs => cases res <;> simp [idsValue, resourceToValue, elems]

theorem keep_condition_structToMap (rule : NetbirdPolicyRule) :
    hasSourceAndDestination rule =
      (hasEndpoint (ruleMapOf rule) "sources" "sourceResource" &&
        hasEndpoint (ruleMapOf rule) "destinations" "destinationResource") := by
  obtain ⟨h1, h2, h3, h4⟩ := ruleMapOf_gets rule
  rw [hasEndpoint_struct _ _ _ _ _ h1 h3, hasEndpoint_struct _ _ _ _ _ h2 h4]
  rfl

theorem keep_condition_sentRule (rule : NetbirdPolicyRule) :
    hasSourceAndDestination rule =
      (hasEndpoint (sentRule rule) "sources" "sourceResource" &&
        hasEndpoint (sentRule rule) "destinations" "destinationResource") := by
  obtain ⟨h3, h4⟩ := sentRule_resources rule
  rw [hasEndpoint_sent _ _ _ _ _ (sentRule_sources rule) h3,
    hasEndpoint_sent _ _ _ _ _ (sentRule_destinations rule) h4]
  rfl

theorem checkError_endpoints (outOfRange : Rat → Int) (ident : String) (m : GoMap) :
    (checkError outOfRange ident m .source = none ∧
      checkError outOfRange ident m .destination = none) ↔
    (hasEndpoint m "sources" "sourceResource" &&
      hasEndpoint m "destinations" "destinationResource") = true := by
  cases h1 : hasEndpoint m "sources" "sourceResource" <;>
    cases h2 : hasEndpoint m "destinations" "destinationResource" <;>
    simp [checkError, h1, h2]

/-- C29: for every `NetbirdPolicyRule`, the keep condition of `DeleteGroupForce` holds
exactly when the `structToMap` image of the rule passes the source check and the
destination check of `ValidatePolicyRules`, and exactly when the rule as it is sent (with
ID lists) passes them; a rule whose image the validator accepts satisfies the keep
condition. So every rule of every `PUT` of `DeleteGroupForce` passes the two checks. -/
theorem C29_keep_condition_agrees (outOfRange : Rat → Int) (ident : String)
    (rule : NetbirdPolicyRule) :
    structToMap rule = .ok (ruleMapOf rule) ∧
    (hasSourceAndDestination rule = true ↔
      hasEndpoint (ruleMapOf rule) "sources" "sourceResource" = true ∧
        hasEndpoint (ruleMapOf rule) "destinations" "destinationResource" = true) ∧
    (hasSourceAndDestination rule = true ↔
      checkError outOfRange ident (ruleMapOf rule) .source = none ∧
        checkError outOfRange ident (ruleMapOf rule) .destination = none) ∧
    (hasSourceAndDestination rule = true ↔
      checkError outOfRange ident (sentRule rule) .source = none ∧
        checkError outOfRange ident (sentRule rule) .destination = none) ∧
    (ValidatePolicyRules outOfRange (some [ruleMapOf rule]) = none →
      hasSourceAndDestination rule = true) ∧
    (∀ (σ : Type) (gw : Gateway σ) (groupID : String) (s : σ) (id : String) (body : GoValue)
        (outcome : Option String),
      Event.putPolicy id body outcome ∈
        (DeleteGroupForce gw groupID { state := s, trace := [] }).client.trace →
      ∃ (policy : NetbirdPolicy) (sent : List GoMap),
        body = .object [("name", .string policy.Name),
          ("description", .string policy.Description), ("enabled", .bool policy.Enabled),
          ("rules", .slice (sent.map GoValue.object))] ∧
        ∀ m ∈ sent, checkError outOfRange ident m .source = none ∧
          checkError outOfRange ident m .destination = none) := by
  refine ⟨rfl, ?_, ?_, ?_, ?_, ?_⟩
  · rw [keep_condition_structToMap, Bool.and_eq_true]
  · rw [checkError_endpoints, keep_condition_structToMap]
  · rw [checkError_endpoints, keep_condition_sentRule]
  · intro hvalid
    have hrule : ValidRule outOfRange (ruleMapOf rule) :=
      (validateRulesFrom_eq_none outOfRange [ruleMapOf rule] 0).mp hvalid _
        (List.mem_singleton.mpr rfl)
    have hchecks := (checkError_eq_none outOfRange ident (ruleMapOf rule)).mpr hrule
    rw [keep_condition_structToMap, ← checkError_endpoints outOfRange ident]
    exact ⟨hchecks _ (by simp [checkOrder]), hchecks _ (by simp [checkOrder])⟩
  · intro σ gw groupID s id body outcome hput
    obtain ⟨policy, -, hbody, -⟩ := force_put_origin gw groupID s id body outcome hput
    refine ⟨policy, (policy.Rules.filter (keepsRule groupID)).map
      (fun r => sentRule (stripRule groupID r)), ?_, ?_⟩
    · rw [hbody, forceBody_eq, List.map_map]
      rfl
    · intro m hm
      obtain ⟨r, hr, rfl⟩ := List.mem_map.mp hm
      have hkeep : keepsRule groupID r = true := (List.mem_filter.mp hr).2
      rw [checkError_endpoints, ← keep_condition_sentRule, hasSourceAndDestination_strip]
      exact hkeep

theorem keep_condition_examples :
    hasSourceAndDestination (exampleRule "r1" ["g1"] ["g2"] none) = true ∧
    ValidatePolicyRules (fun _ => 0) (some [ruleMapOf (exampleRule "r1" ["g1"] ["g2"] none)]) =
      none ∧
    hasSourceAndDestination sourcelessRule = false ∧
    ValidatePolicyRules (fun _ => 0) (some [ruleMapOf sourcelessRule]) =
      some "rule 'r1': must have at least one source (sources or sourceResource)" :=
  ⟨rfl, rfl, rfl, rfl⟩

/-! ## A replacement when the new group is already a key of the authorized groups -/

theorem deleteKey_keys (k : String) (m : List (String × Option (List String))) :
    (deleteKey k m).map Prod.fst = (m.map Prod.fst).filter (fun x => decide (x ≠ k)) := by
  induction m with
  | nil => rfl
  | cons kv rest ih =>
    rw [deleteKey_cons]
    by_cases h : kv.1 = k
    · simp [h, ih]
    · simp [h, ih]

theorem deleteKey_length (k : String) (m : List (String × Option (List String)))
    (hkeys : (m.map Prod.fst).Nodup) (hk : (lookupKey k m).isSome = true) :
    (deleteKey k m).length + 1 = m.length := by
  induction m with
  | nil => simp [lookupKey] at hk
  | cons kv rest ih =>
    rw [List.map_cons, List.nodup_cons] at hkeys
    rw [deleteKey_cons]
    by_cases h : kv.1 = k
    · rw [if_pos h]
      have hnot : k ∉ rest.map Prod.fst := h ▸ hkeys.1
      have hsame : deleteKey k rest = rest := by
        unfold deleteKey
        rw [List.filter_eq_self]
        intro a ha
        have : a.1 ≠ k := fun hh => hnot (hh ▸ List.mem_map_of_mem Prod.fst ha)
        simpa using this
      rw [hsame, List.length_cons]
    · rw [if_neg h, List.length_cons, List.length_cons]
      rw [lookupKey, if_neg h] at hk
      rw [ih hkeys.2 hk]

theorem setKey_keys (m : List (String × Option (List String))) (k : String)
    (v : Option (List String)) (hk : (lookupKey k m).isSome = true) :
    (setKey m k v).map Prod.fst = m.map Prod.fst := by
  induction m with
  | nil => simp [lookupKey] at hk
  | cons kv rest ih =>
    by_cases h : kv.1 = k
    · rw [setKey, if_pos h]
      simp [h]
    · rw [setKey, if_neg h]
      rw [lookupKey, if_neg h] at hk
      simp [ih hk]

/-- C30: in `ReplaceGroupInPolicies(old, new)` with `old` different from `new`, for a rule
whose authorized groups (a Go map, so with distinct keys) have both `old` and `new` as
keys, the rule loop leaves a map that binds `new` to the list that was under `old`, has no
key `old`, reads every other key as before and has one key fewer; the list that was under
`new` is gone. That map is the one sent for the rule. -/
theorem C30_replace_onto_existing_key (oldGroupID newGroupID : String)
    (rule : NetbirdPolicyRule) (modified : Bool)
    (ag : List (String × Option (List String))) (users usersNew : Option (List String))
    (hne : oldGroupID ≠ newGroupID) (hag : rule.AuthorizedGroups = some ag)
    (hkeys : (ag.map Prod.fst).Nodup) (hold : lookupKey oldGroupID ag = some users)
    (hnew : lookupKey newGroupID ag = some usersNew) :
    ∃ updated, (replaceInRule oldGroupID newGroupID rule modified).1.AuthorizedGroups =
        some updated ∧
      (replaceInRule oldGroupID newGroupID rule modified).2 = true ∧
      lookupKey newGroupID updated = some users ∧
      lookupKey oldGroupID updated = none ∧
      (∀ k, k ≠ oldGroupID → k ≠ newGroupID → lookupKey k updated = lookupKey k ag) ∧
      updated.map Prod.fst = (ag.map Prod.fst).filter (fun k => decide (k ≠ oldGroupID)) ∧
      (updated.map Prod.fst).Nodup ∧
      updated.length + 1 = ag.length ∧
      GoMap.get (sentRule (replaceInRule oldGroupID newGroupID rule modified).1)
        "authorized_groups" =
        some (GoValue.object (updated.map (fun kv => (kv.1, stringsToValue kv.2)))) := by
  have hpresent : (lookupKey newGroupID (deleteKey oldGroupID ag)).isSome = true := by
    rw [lookupKey_deleteKey, if_neg hne, hnew]
    rfl
  have hkeysEq : (setKey (deleteKey oldGroupID ag) newGroupID users).map Prod.fst =
      (ag.map Prod.fst).filter (fun k => decide (k ≠ oldGroupID)) := by
    rw [setKey_keys _ _ _ hpresent, deleteKey_keys]
  have hrule : (replaceInRule oldGroupID newGroupID rule modified).1.AuthorizedGroups =
      some (setKey (deleteKey oldGroupID ag) newGroupID users) := by
    simp [replaceInRule, hag, hold]
  refine ⟨setKey (deleteKey oldGroupID ag) newGroupID users, hrule, ?_, ?_, ?_, ?_, hkeysEq,
    ?_, ?_, ?_⟩
  · simp [replaceInRule, hag, hold]
  · rw [lookupKey_setKey, if_pos rfl]
  · rw [lookupKey_setKey, if_neg (Ne.symm hne), lookupKey_deleteKey, if_pos rfl]
  · intro k h1 h2
    rw [lookupKey_setKey, if_neg (Ne.symm h2), lookupKey_deleteKey, if_neg (Ne.symm h1)]
  · rw [hkeysEq]
    exact hkeys.filter _
  · have h1 := congrArg List.length (setKey_keys (deleteKey oldGroupID ag) newGroupID users
      hpresent)
    simp only [List.length_map] at h1
    rw [h1]
    exact deleteKey_length oldGroupID ag hkeys (by rw [hold]; rfl)
  · rw [sentRule_authorizedGroups, hrule]
    rfl

theorem C30_witness :
    (replaceInRule "old" "new" bothKeysRule false).1.AuthorizedGroups =
      some [("other", some ["u3"]), ("new", some ["u1", "u2"])] ∧
    ∃ updated, (replaceInRule "old" "new" bothKeysRule false).1.AuthorizedGroups =
        some updated ∧
      (replaceInRule "old" "new" bothKeysRule false).2 = true ∧
      lookupKey "new" updated = some (some ["u1", "u2"]) ∧
      lookupKey "old" updated = none ∧
      (∀ k, k ≠ "old" → k ≠ "new" → lookupKey k updated =
        lookupKey k [("old", some ["u1", "u2"]), ("other", some ["u3"]),
          ("new", some ["u4"])]) ∧
      updated.map Prod.fst =
        (([("old", some ["u1", "u2"]), ("other", some ["u3"]), ("new", some ["u4"])] :
          List (String × Option (List String))).map Prod.fst).filter
          (fun k => decide (k ≠ "old")) ∧
      (updated.map Prod.fst).Nodup ∧
      updated.length + 1 =
        ([("old", some ["u1", "u2"]), ("other", some ["u3"]), ("new", some ["u4"])] :
          List (String × Option (List String))).length ∧
      GoMap.get (sentRule (replaceInRule "old" "new" bothKeysRule false).1)
        "authorized_groups" =
        some (GoValue.object (updated.map (fun kv => (kv.1, stringsToValue kv.2)))) :=
  ⟨by decide,
    C30_replace_onto_existing_key "old" "new" bothKeysRule false
      [("old", some ["u1", "u2"]), ("other", some ["u3"]), ("new", some ["u4"])]
      (some ["u1", "u2"]) (some ["u4"]) (by decide) rfl (by decide) (by decide) (by decide)⟩

/-! ## The JSON round trip of integers -/

theorem mantissaShift_small (a fuel : Nat) (h : a < 2 ^ 53) (hf : 0 < fuel) :
    mantissaShift a fuel 0 = 0 := by
  cases fuel with
  | zero => omega
  | succ f =>
    rw [mantissaShift, if_pos (by simpa using h)]

theorem nearestFloat64_small (n : Int) (h : n.natAbs < 2 ^ 53) : nearestFloat64 n = n := by
  unfold nearestFloat64
  by_cases h0 : n.natAbs = 0
  · have : n = 0 := Int.natAbs_eq_zero.mp h0
    subst this
    decide
  · have hs := mantissaShift_small n.natAbs n.natAbs h (Nat.pos_of_ne_zero h0)
    simp only [hs, pow_zero, Nat.div_one, Nat.mod_one, mul_zero, mul_one]
    simp
    by_cases hn : n < 0
    · simp [hn]
      have : (n.natAbs : Int) = -n := by omega
      have h2 : ((n.natAbs : Int) : Rat) = ((-n : Int) : Rat) := by rw [this]
      push_cast at h2
      linarith
    · simp [hn]
      have : (n.natAbs : Int) = n := by omega
      have h2 : ((n.natAbs : Int) : Rat) = ((n : Int) : Rat) := by rw [this]
      simpa using h2

/-- Integers beyond `2 ^ 53` come back rounded from the JSON round trip: `2 ^ 53 + 1` is
read as `2 ^ 53`, `2 ^ 53 + 3` as `2 ^ 53 + 4`, and the largest `int`, `2 ^ 63 - 1`, as
`2 ^ 63`. -/
theorem nearestFloat64_examples :
    nearestFloat64 443 = 443 ∧
    nearestFloat64 (2 ^ 53 + 1) = ((2 ^ 53 : Int) : Rat) ∧
    nearestFloat64 (2 ^ 53 + 3) = ((2 ^ 53 + 4 : Int) : Rat) ∧
    nearestFloat64 (2 ^ 63 - 1) = ((2 ^ 63 : Int) : Rat) ∧
    nearestFloat64 (-(2 ^ 53 + 1)) = ((-(2 ^ 53) : Int) : Rat) :=
  ⟨by decide, by decide, by decide, by decide, by decide⟩

/-- A port range from `2 ^ 53 + 1` to `2 ^ 53` passes the validation that
`createNetbirdPolicy` makes: both bounds are read as `2 ^ 53`, and the rule is posted. -/
theorem rounded_port_bounds_accepted (outOfRange : Rat → Int) :
    ValidatePolicyRules outOfRange
      (some [ruleMapOf (ruleWithPortRange (2 ^ 53 + 1) (2 ^ 53))]) = none ∧
    ((createNetbirdPolicy acceptingService outOfRange
      { Name := "web", Description := none, Enabled := none,
        Rules := some [ruleWithPortRange (2 ^ 53 + 1) (2 ^ 53)] }
      { state := 0, calls := [] }).2.calls.length = 1) :=
  ⟨rfl, rfl⟩

set_option maxRecDepth 8000 in
/-- A port range from 5 to the largest `int` is read with the end `2 ^ 63`, which is no
`int`: the verdict is the one that the conversion of the implementation gives. Where it
gives the least `int`, the rule is rejected and nothing is sent. -/
theorem largest_port_bound_out_of_range :
    GoMap.get (ruleMapOf (ruleWithPortRange 5 (2 ^ 63 - 1))) "port_ranges" =
      some (GoValue.slice [GoValue.object
        [("start", GoValue.float64 ((5 : Int) : Rat)),
         ("end", GoValue.float64 ((2 ^ 63 : Int) : Rat))]]) ∧
    createNetbirdPolicy acceptingService (fun _ => -(2 ^ 63))
      { Name := "web", Description := none, Enabled := none,
        Rules := some [ruleWithPortRange 5 (2 ^ 63 - 1)] }
      { state := 0, calls := [] } =
      (.error ("validation error: rule 'r1': port_ranges[0] invalid: start (5) must be " ++
          "<= end (-9223372036854775808)"),
        { state := 0, calls := [] }) :=
  ⟨rfl, rfl⟩

end NetbirdTools
